import Mathlib

/-!
# bitcoin-wallet-tool: endpoint pool, balance client and scanner loop

A shallow embedding of the parts of `bitcoin-wallet-tool.go` that carry the
program's invariants: balance arithmetic (`calculateBalance`), the endpoint
pool (`incrementEndpointFailure`, `removeEndpoint`, `getNextEndpoint`,
`getCurrentEndpoint`, `rotateEndpointIfNeeded`, `testAndSortEndpoints`), the
balance/history client (`fetchWalletData`, `fetchWalletTransactions`), one
iteration of the scanner worker (`scanWalletInstance`), the derivation engine
(`deriveBip32Address`, `deriveBip44Address`, `deriveBip49Address`,
`deriveBip84Address`, `generateAddressesFromSeed`) and the shared counters
(`ScannerStats`) under interleaved use.

Conventions.
* Go `int64` (and `int` on a 64-bit platform) values that come from the remote
  service are integers reduced with `wrapInt64` after every arithmetic step.
* Counters that start at zero and grow by one per event (`WalletsChecked`,
  `ActiveWalletsFound`, the failure counters, the pool cursor) are naturals.
* A Go run-time panic (integer division by zero, index out of range) is the
  result `none` of the operation; the source has no `recover`.
* The outcome of an HTTP request, of a liveness probe and of opening the log
  file are inputs of the operations that perform them.
* The major-unit balance is a float64 in the source; the embedding keeps the
  exact quotient for its sign and takes the text `fmt.Sprintf("%.8f", balance)`
  from the surroundings (`AddrEnv.sprintfBalance`).
* The key-tree, hash and address-encoding libraries are an argument (`KeyLib`)
  of the derivation functions; a library call that returns a Go error returns
  `Except.error`.
-/

namespace BitcoinWalletTool

/-! ## Machine integers -/

/-- Two's-complement reduction of an integer to the signed 64-bit range. -/
def wrapInt64 (x : Int) : Int :=
  (x + 9223372036854775808) % 18446744073709551616 - 9223372036854775808

/-- The values a Go `int64` can hold. -/
def inInt64 (x : Int) : Prop :=
  -9223372036854775808 ≤ x ∧ x < 9223372036854775808

instance (x : Int) : Decidable (inInt64 x) := by
  unfold inInt64; infer_instance

/-! ## Data model (source lines 568-631) -/

/-- The `Stats` struct: one section (chain or mempool) of an address report. -/
structure Stats where
  FundedTxoSum : Int
  SpentTxoSum : Int
  TxCount : Int
deriving DecidableEq, Repr

/-- The `WalletData` struct decoded from the address endpoint. -/
structure WalletData where
  Address : String
  ChainStats : Stats
  MempoolStats : Stats
deriving DecidableEq, Repr

/-- The `DetailedStats` struct returned by `calculateBalance`. -/
structure DetailedStats where
  ConfirmedFunded : Int
  ConfirmedSpent : Int
  ConfirmedBalance : Int
  UnconfirmedFunded : Int
  UnconfirmedSpent : Int
  UnconfirmedBalance : Int
  TotalBalanceSats : Int
  TxCount : Int
deriving DecidableEq, Repr

/-- The funded and spent sums of a report are non-negative `int64` values. -/
def WalletData.nonnegSums (d : WalletData) : Prop :=
  (0 ≤ d.ChainStats.FundedTxoSum ∧ d.ChainStats.FundedTxoSum < 9223372036854775808) ∧
  (0 ≤ d.ChainStats.SpentTxoSum ∧ d.ChainStats.SpentTxoSum < 9223372036854775808) ∧
  (0 ≤ d.MempoolStats.FundedTxoSum ∧ d.MempoolStats.FundedTxoSum < 9223372036854775808) ∧
  (0 ≤ d.MempoolStats.SpentTxoSum ∧ d.MempoolStats.SpentTxoSum < 9223372036854775808)

instance (d : WalletData) : Decidable d.nonnegSums := by
  unfold WalletData.nonnegSums; infer_instance

/-- Source `calculateBalance` (lines 1193-1224). The first component is the
major-unit balance `float64(totalBalanceSats) / 100000000.0`, kept as the exact
rational number `totalBalanceSats / 100000000` (binary rounding of the quotient
is not represented; it does not change the sign of the value). -/
def calculateBalance (data : WalletData) : ℚ × DetailedStats :=
  let fChain := data.ChainStats.FundedTxoSum
  let sChain := data.ChainStats.SpentTxoSum
  let fMempool := data.MempoolStats.FundedTxoSum
  let sMempool := data.MempoolStats.SpentTxoSum
  let confirmedBalance := wrapInt64 (fChain - sChain)
  let unconfirmedBalance := wrapInt64 (fMempool - sMempool)
  let totalBalanceSats := wrapInt64 (confirmedBalance + unconfirmedBalance)
  let totalBalanceBtc : ℚ := mkRat totalBalanceSats 100000000
  (totalBalanceBtc,
   { ConfirmedFunded := fChain
     ConfirmedSpent := sChain
     ConfirmedBalance := confirmedBalance
     UnconfirmedFunded := fMempool
     UnconfirmedSpent := sMempool
     UnconfirmedBalance := unconfirmedBalance
     TotalBalanceSats := totalBalanceSats
     TxCount := wrapInt64 (data.ChainStats.TxCount + data.MempoolStats.TxCount) })

/-- A report whose confirmed and unconfirmed funded sums are both `2^63 - 1`. -/
def overflowingWallet : WalletData :=
  { Address := "a"
    ChainStats := { FundedTxoSum := 9223372036854775807, SpentTxoSum := 0, TxCount := 0 }
    MempoolStats := { FundedTxoSum := 9223372036854775807, SpentTxoSum := 0, TxCount := 0 } }

/-- A report with a negative unconfirmed component. -/
def pendingSpendWallet : WalletData :=
  { Address := "a"
    ChainStats := { FundedTxoSum := 700, SpentTxoSum := 200, TxCount := 3 }
    MempoolStats := { FundedTxoSum := 0, SpentTxoSum := 450, TxCount := 1 } }

/-! ## Endpoint pool (source lines 77-86 and 926-1095) -/

/-- The package-level pool variables: `mempoolEndpoints`,
`currentEndpointIndex`, `currentEndpoint` and the map `endpointFailures`
(a missing key reads as zero, as in Go). -/
structure PoolState where
  mempoolEndpoints : List String
  currentEndpointIndex : Nat
  currentEndpoint : String
  endpointFailures : String → Nat

/-- The pool as the program starts: cursor 0, no current endpoint, no recorded
failure. The source configures the single endpoint `mempool.space`; the list is
meant to be extended, so it is an argument here. -/
def initialPool (endpoints : List String) : PoolState :=
  { mempoolEndpoints := endpoints
    currentEndpointIndex := 0
    currentEndpoint := ""
    endpointFailures := fun _ => 0 }

/-- Source `removeEndpoint` (lines 940-960). The loop stops at the first entry
equal to `endpoint`, at position `i`; the entry is cut out, and when
`i <= currentEndpointIndex` the cursor is reduced modulo the new length (a
division by zero when the list has become empty) and the current endpoint is
re-read from the list. -/
def removeEndpoint (endpoint : String) (s : PoolState) : Option PoolState :=
  let i := s.mempoolEndpoints.indexOf endpoint
  if i < s.mempoolEndpoints.length then
    let l := s.mempoolEndpoints.eraseIdx i
    if i ≤ s.currentEndpointIndex then
      if l.length = 0 then none
      else
        let idx := s.currentEndpointIndex % l.length
        match l[idx]? with
        | none => none
        | some ep =>
          some { s with mempoolEndpoints := l, currentEndpointIndex := idx, currentEndpoint := ep }
    else some { s with mempoolEndpoints := l }
  else some s

/-- Source `incrementEndpointFailure` (lines 927-937). -/
def incrementEndpointFailure (endpoint : String) (s : PoolState) : Option PoolState :=
  let s1 : PoolState :=
    { s with endpointFailures := fun k =>
        if k = endpoint then s.endpointFailures k + 1 else s.endpointFailures k }
  if s1.endpointFailures endpoint ≥ 5 then removeEndpoint endpoint s1 else some s1

/-- Source `getNextEndpoint` (lines 963-974): the returned endpoint and the new
state. -/
def getNextEndpoint (s : PoolState) : Option (String × PoolState) :=
  if s.mempoolEndpoints.length = 0 then some ("", s)
  else
    let idx := (s.currentEndpointIndex + 1) % s.mempoolEndpoints.length
    match s.mempoolEndpoints[idx]? with
    | none => none
    | some ep => some (ep, { s with currentEndpointIndex := idx, currentEndpoint := ep })

/-- Source `getCurrentEndpoint` (lines 977-985). -/
def getCurrentEndpoint (s : PoolState) : Option (String × PoolState) :=
  if s.currentEndpoint = "" ∧ s.mempoolEndpoints.length > 0 then
    match s.mempoolEndpoints[s.currentEndpointIndex]? with
    | none => none
    | some ep => some (ep, { s with currentEndpoint := ep })
  else some (s.currentEndpoint, s)

/-- Go `strings.Contains`: `substr` occurs in `str` as a contiguous block. -/
def stringsContains (str substr : String) : Bool :=
  decide (substr.data <:+: str.data)

/-- The condition of `rotateEndpointIfNeeded` (lines 990-992); a nil `err` is
`none`, otherwise `err.Error()` is the carried message. -/
def rotationTrigger (statusCode : Int) (err : Option String) : Bool :=
  statusCode == 429 || decide (statusCode ≥ 500) ||
    (match err with
     | none => false
     | some msg => stringsContains msg "timeout" || stringsContains msg "connection refused")

/-- Source `rotateEndpointIfNeeded` (lines 988-1003). -/
def rotateEndpointIfNeeded (statusCode : Int) (err : Option String) (s : PoolState) :
    Option (Bool × PoolState) :=
  if rotationTrigger statusCode err then
    match getCurrentEndpoint s with
    | none => none
    | some (oldEndpoint, s1) =>
      match incrementEndpointFailure oldEndpoint s1 with
      | none => none
      | some s2 =>
        match getNextEndpoint s2 with
        | none => none
        | some (newEndpoint, s3) =>
          if oldEndpoint ≠ newEndpoint then some (true, s3) else some (false, s3)
  else some (false, s)

/-- The local `endpointStatus` struct of `testAndSortEndpoints`; `latency` is a
`time.Duration` in nanoseconds. -/
structure EndpointStatus where
  endpoint : String
  latency : Int
  working : Bool
deriving DecidableEq, Repr

/-- What one liveness probe observed: a transport error, or a response with
its measured latency and status code. -/
inductive ProbeResult where
  | failed
  | answered (latency : Int) (statusCode : Int)
deriving DecidableEq, Repr

/-- The entry a probe goroutine stores in `results[i]` (lines 1031-1038). -/
def probeStatus (endpoint : String) (r : ProbeResult) : EndpointStatus :=
  match r with
  | .failed => { endpoint := endpoint, latency := 0, working := false }
  | .answered latency statusCode =>
    { endpoint := endpoint, latency := latency, working := statusCode == 200 }

/-- The `results` slice once every probe goroutine has finished: entry `i`
belongs to pool position `i`; `probe i` is what the probe of that position
observed. -/
def probeAll (probe : Nat → ProbeResult) (endpoints : List String) : List EndpointStatus :=
  endpoints.enum.map (fun p => probeStatus p.2 (probe p.1))

/-- The comparison passed to `sort.Slice` (lines 1045-1050). -/
def endpointLess (a b : EndpointStatus) : Bool :=
  if a.working != b.working then a.working else decide (a.latency < b.latency)

/-- The contract of Go's `sort.Slice` for the comparison `endpointLess`: the
result is a rearrangement of the input in which no entry is less than an
earlier one. The order of equal entries is left open, as in Go. -/
def SortSliceSpec (sortSlice : List EndpointStatus → List EndpointStatus) : Prop :=
  ∀ l, (sortSlice l).Perm l ∧ (sortSlice l).Pairwise (fun a b => endpointLess b a = false)

/-- One function meeting `SortSliceSpec`: insertion sort. -/
def insertionSortSlice (l : List EndpointStatus) : List EndpointStatus :=
  l.insertionSort (fun a b => endpointLess b a = false)

/-- The endpoint list built in lines 1053-1075 from the sorted results: the
working entries in order, then the non-working ones in order. -/
def newEndpointsOf (sorted : List EndpointStatus) : List EndpointStatus :=
  sorted.filter (fun r => r.working) ++ sorted.filter (fun r => !r.working)

/-- Source `testAndSortEndpoints` (lines 1006-1095), with the library sort and
the probe observations as arguments. -/
def testAndSortEndpoints (sortSlice : List EndpointStatus → List EndpointStatus)
    (probe : Nat → ProbeResult) (s : PoolState) : PoolState :=
  let results := sortSlice (probeAll probe s.mempoolEndpoints)
  let newEndpoints := (newEndpointsOf results).map (fun r => r.endpoint)
  { mempoolEndpoints := newEndpoints
    currentEndpointIndex := 0
    currentEndpoint := newEndpoints.headD s.currentEndpoint
    endpointFailures := fun _ => 0 }

/-! ## Balance and history client (source lines 581-612 and 1097-1190) -/

/-- The `TransStatus` struct. -/
structure TransStatus where
  Confirmed : Bool
  BlockHeight : Int
  BlockTime : Int
deriving DecidableEq, Repr

/-- The `Transaction` struct; `Vin` holds the `prevout.value` of each input
and `Vout` the `value` of each output. -/
structure Transaction where
  Txid : String
  Status : TransStatus
  Fee : Int
  Size : Int
  Weight : Int
  Vin : List Int
  Vout : List Int
deriving DecidableEq, Repr

/-- What reading and decoding the body of a 200 response gave: `io.ReadAll`
failed, `json.Unmarshal` failed, or a value was decoded. -/
inductive BodyResult (α : Type) where
  | readError (msg : String)
  | parseError (msg : String)
  | parsed (value : α)
deriving DecidableEq, Repr

/-- What `client.Get(url)` gave: a transport error with its message, or a
response with a status code and a body. -/
inductive HttpResult (α : Type) where
  | transportError (msg : String)
  | response (statusCode : Int) (body : BodyResult α)
deriving DecidableEq, Repr

/-- The statement pair `incrementEndpointFailure(endpoint)`;
`rotateEndpointIfNeeded(statusCode, err)` that every reporting branch of the
two fetch functions executes. -/
def reportFailure (endpoint : String) (statusCode : Int) (err : Option String)
    (s : PoolState) : Option PoolState :=
  match incrementEndpointFailure endpoint s with
  | none => none
  | some s1 =>
    match rotateEndpointIfNeeded statusCode err s1 with
    | none => none
    | some (_, s2) => some s2

/-- Source `fetchWalletData` (lines 1098-1142). `net` answers the request for a
URL; the result is the returned value or error message, and the pool after the
call. -/
def fetchWalletData (net : String → HttpResult WalletData) (address : String)
    (s : PoolState) : Option (Except String WalletData × PoolState) :=
  match getCurrentEndpoint s with
  | none => none
  | some (endpoint, s0) =>
    if endpoint = "" then some (.error "no available endpoints", s0)
    else
      match net ("https://" ++ endpoint ++ "/api/address/" ++ address) with
      | .transportError msg =>
        (reportFailure endpoint 0 (some msg) s0).map
          (fun s1 => (.error ("failed to fetch wallet data: " ++ msg), s1))
      | .response statusCode body =>
        if statusCode ≠ 200 then
          (reportFailure endpoint statusCode none s0).map
            (fun s1 => (.error ("API returned status code " ++ toString statusCode), s1))
        else
          match body with
          | .readError msg => some (.error ("failed to read response body: " ++ msg), s0)
          | .parseError msg =>
            (reportFailure endpoint 0 (some "invalid JSON") s0).map
              (fun s1 => (.error ("failed to parse JSON response: " ++ msg), s1))
          | .parsed data => some (.ok data, s0)

/-- The truncation at the end of `fetchWalletTransactions` (lines 1185-1187):
`transactions[:limit]` when `len(transactions) > limit`; a negative `limit` is
a slice-bounds panic. -/
def limitTransactions (transactions : List Transaction) (limit : Int) :
    Option (List Transaction) :=
  if (transactions.length : Int) > limit then
    if limit < 0 then none else some (transactions.take limit.toNat)
  else some transactions

/-- Source `fetchWalletTransactions` (lines 1145-1190). -/
def fetchWalletTransactions (net : String → HttpResult (List Transaction)) (address : String)
    (limit : Int) (s : PoolState) : Option (Except String (List Transaction) × PoolState) :=
  match getCurrentEndpoint s with
  | none => none
  | some (endpoint, s0) =>
    if endpoint = "" then some (.error "no available endpoints", s0)
    else
      match net ("https://" ++ endpoint ++ "/api/address/" ++ address ++ "/txs") with
      | .transportError msg =>
        (reportFailure endpoint 0 (some msg) s0).map
          (fun s1 => (.error ("failed to fetch transaction history: " ++ msg), s1))
      | .response statusCode body =>
        if statusCode ≠ 200 then
          (reportFailure endpoint statusCode none s0).map
            (fun s1 => (.error ("API returned status code " ++ toString statusCode), s1))
        else
          match body with
          | .readError msg => some (.error ("failed to read response body: " ++ msg), s0)
          | .parseError msg =>
            (reportFailure endpoint 0 (some "invalid JSON") s0).map
              (fun s1 => (.error ("failed to parse JSON response: " ++ msg), s1))
          | .parsed transactions =>
            (limitTransactions transactions limit).map (fun txs => (.ok txs, s0))

/-! ## Scanner worker (source lines 626-693 and 1996-2164) -/

/-- The `ScannerStats` struct (its mutex is not represented: every method runs
under the lock, so each call is one atomic step). -/
structure ScannerStats where
  WalletsChecked : Nat
  ActiveWalletsFound : Nat
deriving DecidableEq, Repr

/-- Source `ScannerStats.IncrementWalletsChecked` (lines 675-679). -/
def ScannerStats.IncrementWalletsChecked (s : ScannerStats) : ScannerStats :=
  { s with WalletsChecked := s.WalletsChecked + 1 }

/-- Source `ScannerStats.IncrementActiveWalletsFound` (lines 682-686). -/
def ScannerStats.IncrementActiveWalletsFound (s : ScannerStats) : ScannerStats :=
  { s with ActiveWalletsFound := s.ActiveWalletsFound + 1 }

/-- Source `ScannerStats.GetStats` (lines 689-693). -/
def ScannerStats.GetStats (s : ScannerStats) : Nat × Nat :=
  (s.WalletsChecked, s.ActiveWalletsFound)

/-- The `InstanceStatus` struct; `LastErrorTime` is a clock reading in
nanoseconds. -/
structure InstanceStatus where
  ID : Int
  Status : String
  CurrentAddress : String
  CurrentBIPType : String
  CurrentEndpoint : String
  LastError : String
  LastErrorTime : Int
deriving DecidableEq, Repr

/-- Source `InstanceStatus.Update` (lines 646-653). -/
def InstanceStatus.Update (s : InstanceStatus) (status address bipType endpoint : String) :
    InstanceStatus :=
  { s with Status := status, CurrentAddress := address, CurrentBIPType := bipType,
           CurrentEndpoint := endpoint }

/-- Source `InstanceStatus.SetError` (lines 656-665), called when the clock
reads `now`; five minutes are 300000000000 nanoseconds. -/
def InstanceStatus.SetError (s : InstanceStatus) (err : String) (now : Int) : InstanceStatus :=
  if s.LastError ≠ err ∨ now - s.LastErrorTime > 300000000000 then
    { s with Status := "error", LastError := err, LastErrorTime := now }
  else s

/-- One entry of the local `addresses` slice of the scanner loop. -/
structure AddrInfo where
  walletType : String
  address : String
  path : String
deriving DecidableEq, Repr

/-- The `addresses` slice built in lines 2046-2090 from the four derivation
results (`none` is a derivation that returned an error). -/
def collectAddresses (bip32Addr bip44Addr bip49Addr bip84Addr : Option String) :
    List AddrInfo :=
  (match bip32Addr with
   | some a => [{ walletType := "BIP32 (Legacy)", address := a, path := "m/0'/0/0" }]
   | none => []) ++
  (match bip44Addr with
   | some a => [{ walletType := "BIP44 (Legacy)", address := a, path := "m/44'/0'/0'/0/0" }]
   | none => []) ++
  (match bip49Addr with
   | some a =>
     [{ walletType := "BIP49 (SegWit-compatible)", address := a, path := "m/49'/0'/0'/0/0" }]
   | none => []) ++
  (match bip84Addr with
   | some a =>
     [{ walletType := "BIP84 (Native SegWit)", address := a, path := "m/84'/0'/0'/0/0" }]
   | none => [])

/-- What the surroundings supply while one address is checked: the answer of
the network, the clock reading for `SetError`, the formatted time stamp for the
record, whether the log file could be opened for appending, and the library
call `fmt.Sprintf("%.8f", balance)`. The `balance` of the code is the float64
quotient that `calculateBalance` returns; `sprintfBalance` gives its text as a
function of the exact quotient that stands for it in `calculateBalance`.
Neither the binary rounding of the quotient nor the rendering of a float64 is
evaluated by the embedding, so the text is left to the surroundings. -/
structure AddrEnv where
  net : String → HttpResult WalletData
  now : Int
  timestamp : String
  appendOk : Bool
  sprintfBalance : ℚ → String

/-- Everything a scanner worker reads and writes: the shared pool, the shared
counters, its own status, the rows appended to its log file, and the history of
values stored in `Status` (oldest first). -/
structure WorkerState where
  pool : PoolState
  stats : ScannerStats
  status : InstanceStatus
  csv : List (List String)
  statusLog : List String

/-- Store a new status and extend the history. -/
def WorkerState.setStatus (w : WorkerState) (st : InstanceStatus) : WorkerState :=
  { w with status := st, statusLog := w.statusLog ++ [st.Status] }

/-- Decimal digits of a natural number, padded on the left with zeros to at
least `width` digits. -/
def padDigits (width n : Nat) : String :=
  let d := toString n
  String.mk (List.replicate (width - d.length) '0') ++ d

/-- A rendering for the fixtures: the decimal text, with eight decimals, of a
balance that is a whole number of satoshis over `100000000`. The fixtures use
it for small totals only, where the float64 quotient of the code prints the
same digits (5 coins print as `5.00000000`). It is not the text of the code for
totals from about `2^53` satoshis on, where the float64 quotient is rounded. -/
def exactDecimal8 (balance : ℚ) : String :=
  let sats : Int := (balance.num * 100000000) / balance.den
  (if sats < 0 then "-" else "") ++ toString (sats.natAbs / 100000000) ++ "." ++
    padDigits 8 (sats.natAbs % 100000000)

/-- The body of the loop over `addresses` (lines 2096-2158) for one address. -/
def checkAddress (seedPhrase : String) (addrInfo : AddrInfo) (env : AddrEnv)
    (w : WorkerState) : Option WorkerState :=
  match getCurrentEndpoint w.pool with
  | none => none
  | some (endpoint, pool1) =>
    let w1 := ({ w with pool := pool1 }).setStatus
      (w.status.Update "active" addrInfo.address addrInfo.walletType endpoint)
    match fetchWalletData env.net addrInfo.address w1.pool with
    | none => none
    | some (.error err, pool2) =>
      some (({ w1 with pool := pool2 }).setStatus (w1.status.SetError ("Error: " ++ err) env.now))
    | some (.ok data, pool2) =>
      let w2 := { w1 with pool := pool2 }
      let balance := (calculateBalance data).1
      let walletStats := (calculateBalance data).2
      let txCount := walletStats.TxCount
      if balance > 0 ∨ txCount > 0 then
        let w3 := w2.setStatus
          (w2.status.Update "success" addrInfo.address addrInfo.walletType endpoint)
        let w4 := { w3 with stats := w3.stats.IncrementActiveWalletsFound }
        let balanceBtc := env.sprintfBalance balance
        let explorerURL := "https://mempool.space/address/" ++ addrInfo.address
        let w5 :=
          if env.appendOk then
            { w4 with csv := w4.csv ++ [[env.timestamp, seedPhrase, addrInfo.walletType,
                addrInfo.path, addrInfo.address, balanceBtc, toString txCount, explorerURL]] }
          else w4
        some (w5.setStatus (w5.status.Update "idle" "" "" ""))
      else
        some (w2.setStatus (w2.status.Update "idle" "" "" ""))

/-- The loop over `addresses`; `env k` is what the surroundings supply for the
entry at position `k`. -/
def checkAddresses (seedPhrase : String) (env : Nat → AddrEnv) :
    List AddrInfo → Nat → WorkerState → Option WorkerState
  | [], _, w => some w
  | addrInfo :: rest, k, w =>
    match checkAddress seedPhrase addrInfo (env k) w with
    | none => none
    | some w1 => checkAddresses seedPhrase env rest (k + 1) w1

/-- One pass through the `default` branch of the scanner loop of
`scanWalletInstance` (lines 2038-2161) for the generated mnemonic `seedPhrase`
and the four derivation results. -/
def scanWalletInstanceIteration (seedPhrase : String)
    (bip32Addr bip44Addr bip49Addr bip84Addr : Option String) (env : Nat → AddrEnv)
    (w : WorkerState) : Option WorkerState :=
  let addresses := collectAddresses bip32Addr bip44Addr bip49Addr bip84Addr
  let w1 := { w with stats := w.stats.IncrementWalletsChecked }
  checkAddresses seedPhrase env addresses 0 w1

/-! ## Pool invariant and operation sequences -/

/-- The cursor invariant of the pool: the endpoints are pairwise distinct, the
cursor points into a non-empty list, and the current endpoint is either unset
or the entry under the cursor. -/
def PoolInv (s : PoolState) : Prop :=
  s.mempoolEndpoints.Nodup ∧
  (s.mempoolEndpoints ≠ [] → s.currentEndpointIndex < s.mempoolEndpoints.length) ∧
  (s.currentEndpoint = "" ∨ s.mempoolEndpoints[s.currentEndpointIndex]? = some s.currentEndpoint)

/-- The calls that read or write the pool. -/
inductive PoolOp where
  | getCurrent
  | getNext
  | recordFailure (endpoint : String)
  | remove (endpoint : String)
  | rotate (statusCode : Int) (err : Option String)
  | fetchData (net : String → HttpResult WalletData) (address : String)
  | fetchTransactions (net : String → HttpResult (List Transaction)) (address : String)
      (limit : Int)
  | refresh (probe : Nat → ProbeResult)

/-- Whether the call is `testAndSortEndpoints`. -/
def PoolOp.isRefresh : PoolOp → Bool
  | .refresh _ => true
  | _ => false

/-- The pool after one call (`none` when the call panics). -/
def PoolOp.run (sortSlice : List EndpointStatus → List EndpointStatus) :
    PoolOp → PoolState → Option PoolState
  | .getCurrent, s => (getCurrentEndpoint s).map (fun r => r.2)
  | .getNext, s => (getNextEndpoint s).map (fun r => r.2)
  | .recordFailure endpoint, s => incrementEndpointFailure endpoint s
  | .remove endpoint, s => removeEndpoint endpoint s
  | .rotate statusCode err, s => (rotateEndpointIfNeeded statusCode err s).map (fun r => r.2)
  | .fetchData net address, s => (fetchWalletData net address s).map (fun r => r.2)
  | .fetchTransactions net address limit, s =>
    (fetchWalletTransactions net address limit s).map (fun r => r.2)
  | .refresh probe, s => some (testAndSortEndpoints sortSlice probe s)

/-- The pool after a sequence of calls, executed one after the other. -/
def runOps (sortSlice : List EndpointStatus → List EndpointStatus) :
    List PoolOp → PoolState → Option PoolState
  | [], s => some s
  | op :: rest, s =>
    match op.run sortSlice s with
    | none => none
    | some s1 => runOps sortSlice rest s1

/-- A pool state is reachable when some sequence of calls leads to it from the
initial state over a list of pairwise distinct endpoints. -/
def Reachable (sortSlice : List EndpointStatus → List EndpointStatus) (s : PoolState) : Prop :=
  ∃ (endpoints : List String) (ops : List PoolOp),
    endpoints.Nodup ∧ runOps sortSlice ops (initialPool endpoints) = some s

/-- How a call may change the pool: entries are only dropped, the invariant is
kept, and a non-empty pool stays non-empty. -/
def Shrinks (s t : PoolState) : Prop :=
  t.mempoolEndpoints.Sublist s.mempoolEndpoints ∧
  (PoolInv s → PoolInv t) ∧
  (s.mempoolEndpoints ≠ [] → t.mempoolEndpoints ≠ [])

/-! ## Concrete pools used to exercise the statements -/

/-- A configured list of two endpoints. -/
def twoEndpoints : List String := ["a.example", "b.example"]

/-- Four failures recorded against the first endpoint. -/
def fourFailuresOps : List PoolOp :=
  [.recordFailure "a.example", .recordFailure "a.example", .recordFailure "a.example",
   .recordFailure "a.example"]

/-- The pool over `twoEndpoints` after `fourFailuresOps`. -/
def fourFailuresState : PoolState :=
  (runOps insertionSortSlice fourFailuresOps (initialPool twoEndpoints)).getD (initialPool [])

/-- The calls that bring the shipped single-endpoint pool to four recorded
failures. -/
def lastEndpointOps : List PoolOp :=
  [.getCurrent, .recordFailure "mempool.space", .recordFailure "mempool.space",
   .recordFailure "mempool.space", .recordFailure "mempool.space"]

/-- The shipped pool `mempool.space` after `lastEndpointOps`. -/
def lastEndpointState : PoolState :=
  (runOps insertionSortSlice lastEndpointOps (initialPool ["mempool.space"])).getD
    (initialPool [])

/-- A pool of three endpoints with the cursor on the middle one. -/
def threeEndpointState : PoolState :=
  { mempoolEndpoints := ["a.example", "b.example", "c.example"]
    currentEndpointIndex := 1
    currentEndpoint := "b.example"
    endpointFailures := fun _ => 0 }

/-- The result of `k` successive calls of `getNextEndpoint`: the cursor position
and the endpoint returned by each call, in order, and the final state. -/
def getNextEndpointTimes : Nat → PoolState → Option (List (Nat × String) × PoolState)
  | 0, s => some ([], s)
  | k + 1, s =>
    match getNextEndpoint s with
    | none => none
    | some (ep, s1) =>
      match getNextEndpointTimes k s1 with
      | none => none
      | some (visits, s2) => some ((s1.currentEndpointIndex, ep) :: visits, s2)

/-- A confirmed transaction with the given id. -/
def sampleTx (txid : String) : Transaction :=
  { Txid := txid
    Status := { Confirmed := true, BlockHeight := 800000, BlockTime := 1690000000 }
    Fee := 250, Size := 225, Weight := 900, Vin := [10000], Vout := [9750] }

/-- A history of three transactions, newest first. -/
def threeTxs : List Transaction := [sampleTx "t3", sampleTx "t2", sampleTx "t1"]

/-- A network that answers every history request with `threeTxs`. -/
def historyNet : String → HttpResult (List Transaction) :=
  fun _ => .response 200 (.parsed threeTxs)

/-- Probe observations for three positions: a slow healthy endpoint, an
endpoint that cannot be reached, a fast healthy endpoint. -/
def sampleProbe : Nat → ProbeResult
  | 0 => .answered 90000000 200
  | 1 => .failed
  | _ => .answered 20000000 200

/-- In a list of probe results taken in pool order, no unhealthy entry stands
before a healthy one, and healthy entries stand in non-decreasing latency. -/
def HealthyFirstByLatency (rs : List EndpointStatus) : Prop :=
  rs.Pairwise (fun a b =>
    (b.working = true → a.working = true) ∧
    (a.working = true → b.working = true → a.latency ≤ b.latency))

/-- The three-endpoint pool after a rate-limited (429) answer. -/
def rateLimitedState : PoolState :=
  ((rotateEndpointIfNeeded 429 none threeEndpointState).map (fun r => r.2)).getD
    (initialPool [])

/-! ## Concrete scanner runs used to exercise the statements -/

/-- A report without funds and without transactions. -/
def emptyWallet : WalletData :=
  { Address := "addr"
    ChainStats := { FundedTxoSum := 0, SpentTxoSum := 0, TxCount := 0 }
    MempoolStats := { FundedTxoSum := 0, SpentTxoSum := 0, TxCount := 0 } }

/-- A report with five coins received in one confirmed transaction. -/
def fundedWallet : WalletData :=
  { Address := "addr"
    ChainStats := { FundedTxoSum := 500000000, SpentTxoSum := 0, TxCount := 1 }
    MempoolStats := { FundedTxoSum := 0, SpentTxoSum := 0, TxCount := 0 } }

/-- Every request is answered with an empty report; the log file opens. -/
def quietEnv : Nat → AddrEnv :=
  fun _ => { net := fun _ => .response 200 (.parsed emptyWallet), now := 1000,
             timestamp := "2024-01-01 00:00:00", appendOk := true,
             sprintfBalance := exactDecimal8 }

/-- Every request is answered with status 404. -/
def notFoundEnv : Nat → AddrEnv :=
  fun _ => { net := fun _ => .response 404 (.parsed emptyWallet), now := 1000,
             timestamp := "2024-01-01 00:00:00", appendOk := true,
             sprintfBalance := exactDecimal8 }

/-- The request is answered with a funded report, but the log file cannot be
opened for appending. -/
def fundedNoLogEnv : AddrEnv :=
  { net := fun _ => .response 200 (.parsed fundedWallet), now := 1000,
    timestamp := "2024-01-01 00:00:00", appendOk := false, sprintfBalance := exactDecimal8 }

/-- The request is answered with a funded report and the log file opens. -/
def fundedEnv : AddrEnv :=
  { net := fun _ => .response 200 (.parsed fundedWallet), now := 1000,
    timestamp := "2024-01-01 00:00:00", appendOk := true, sprintfBalance := exactDecimal8 }

/-- A worker that has just set its initial status, over the shipped pool. -/
def freshWorker : WorkerState :=
  { pool := initialPool ["mempool.space"]
    stats := { WalletsChecked := 0, ActiveWalletsFound := 0 }
    status := { ID := 1, Status := "idle", CurrentAddress := "", CurrentBIPType := "",
                CurrentEndpoint := "", LastError := "", LastErrorTime := 0 }
    csv := []
    statusLog := ["idle"] }

/-- An address entry of the native SegWit scheme. -/
def sampleAddr : AddrInfo :=
  { walletType := "BIP84 (Native SegWit)", address := "bc1qexample", path := "m/84'/0'/0'/0/0" }

/-- What a scanner pass leaves visible: the two counters, the status history
and the log rows. -/
def WorkerState.summary (w : WorkerState) : Nat × Nat × List String × List (List String) :=
  (w.stats.WalletsChecked, w.stats.ActiveWalletsFound, w.statusLog, w.csv)

/-- The worker after one pass in which all four addresses are derived and all
four fetches succeed. -/
def quietPassResult : WorkerState :=
  (scanWalletInstanceIteration "seed words" (some "a32") (some "a44") (some "a49")
    (some "a84") quietEnv freshWorker).getD freshWorker

/-- The log row written for a hit (lines 2137-2146); the balance field is the
text that `fmt.Sprintf("%.8f", balance)` gives (`env.sprintfBalance`). -/
def hitRecord (seedPhrase : String) (addrInfo : AddrInfo) (env : AddrEnv) (data : WalletData) :
    List String :=
  [env.timestamp, seedPhrase, addrInfo.walletType, addrInfo.path, addrInfo.address,
   env.sprintfBalance (calculateBalance data).1, toString (calculateBalance data).2.TxCount,
   "https://mempool.space/address/" ++ addrInfo.address]

/-- The pool of `freshWorker` once `getCurrentEndpoint` has selected the
endpoint. -/
def selectedPool : PoolState :=
  { initialPool ["mempool.space"] with currentEndpoint := "mempool.space" }

/-! ## Derivation engine (source lines 1548-1815) -/

/-- A byte string. -/
abbrev Bytes := List Nat

/-- Modelled from the spec: the library constant `hdkeychain.HardenedKeyStart`,
the child number `2^31` at which hardened children start. -/
def HardenedKeyStart : Nat := 2147483648

/-- The Go conversion `uint32(x)` of an `int`. -/
def toUint32 (x : Int) : Nat := (x % 4294967296).toNat

/-- Addition of two `uint32` values, which wraps modulo `2^32`. -/
def addUint32 (a b : Nat) : Nat := (a + b) % 4294967296

/-- The library calls of the derivation engine, over the library's types of
extended keys and public keys: `bip39.IsMnemonicValid`, `bip39.NewSeed`,
`hdkeychain.NewMaster` (for the main network), `ExtendedKey.Derive`,
`ExtendedKey.ECPubKey`, `PublicKey.SerializeCompressed`, `sha256.Sum256`,
RIPEMD-160, and the address constructors of `btcutil` followed by
`EncodeAddress`. A call that returns a Go error returns `Except.error` with
its message. -/
structure KeyLib (Key PubKey : Type) where
  IsMnemonicValid : String → Bool
  NewSeed : String → String → Bytes
  NewMaster : Bytes → Except String Key
  Derive : Key → Nat → Except String Key
  ECPubKey : Key → Except String PubKey
  SerializeCompressed : PubKey → Bytes
  sha256 : Bytes → Bytes
  ripemd160 : Bytes → Bytes
  NewAddressPubKey : Bytes → Except String String
  NewAddressScriptHashFromHash : Bytes → Except String String
  NewAddressWitnessPubKeyHash : Bytes → Except String String

/-- The Go idiom `if err != nil { return "", fmt.Errorf(msg + "%v", err) }`. -/
def wrapErr {α : Type} (msg : String) (e : Except String α) : Except String α :=
  match e with
  | .error err => .error (msg ++ err)
  | .ok a => .ok a

/-- Source `validateSeedPhrase` (lines 1549-1551). -/
def validateSeedPhrase {Key PubKey : Type} (lib : KeyLib Key PubKey) (seedPhrase : String) :
    Bool :=
  lib.IsMnemonicValid seedPhrase

/-- Source `seedToRootKey` (lines 1554-1557). -/
def seedToRootKey {Key PubKey : Type} (lib : KeyLib Key PubKey) (seedPhrase : String) : Bytes :=
  lib.NewSeed seedPhrase ""

/-- Source `hash160` (lines 1648-1653): RIPEMD-160 of SHA-256. -/
def hash160 {Key PubKey : Type} (lib : KeyLib Key PubKey) (data : Bytes) : Bytes :=
  lib.ripemd160 (lib.sha256 data)

/-- Modelled from the spec: the library function `btcutil.NewAddressScriptHash`,
which hashes the serialized script it is given with HASH160 and encodes the
pay-to-script-hash address of that hash. -/
def NewAddressScriptHash {Key PubKey : Type} (lib : KeyLib Key PubKey)
    (serializedScript : Bytes) : Except String String :=
  lib.NewAddressScriptHashFromHash (hash160 lib serializedScript)

/-- Source `deriveBip32Address` (lines 1560-1596). -/
def deriveBip32Address {Key PubKey : Type} (lib : KeyLib Key PubKey) (seed : Bytes)
    (index : Int) : Except String String := do
  let masterKey ← wrapErr "failed to create master key: " (lib.NewMaster seed)
  let purpose ← wrapErr "failed to derive purpose: "
    (lib.Derive masterKey (addUint32 HardenedKeyStart 0))
  let account ← wrapErr "failed to derive account: " (lib.Derive purpose 0)
  let child ← wrapErr "failed to derive child: " (lib.Derive account (toUint32 index))
  let pubKey ← wrapErr "failed to get public key: " (lib.ECPubKey child)
  wrapErr "failed to create address: " (lib.NewAddressPubKey (lib.SerializeCompressed pubKey))

/-- The common part of `deriveBip44Address`, `deriveBip49Address` and
`deriveBip84Address` (lines 1600-1637, 1657-1693, 1716-1752): the walk
`purposeNumber'/0'/account'/change/index` from the master key and the public
key of its last node. The three functions differ in `purposeNumber` only. -/
def derivePurposePubKey {Key PubKey : Type} (lib : KeyLib Key PubKey) (purposeNumber : Nat)
    (seed : Bytes) (account change index : Int) : Except String PubKey := do
  let masterKey ← wrapErr "failed to create master key: " (lib.NewMaster seed)
  let purpose ← wrapErr "failed to derive purpose: "
    (lib.Derive masterKey (addUint32 HardenedKeyStart purposeNumber))
  let coinType ← wrapErr "failed to derive coin type: "
    (lib.Derive purpose (addUint32 HardenedKeyStart 0))
  let accountKey ← wrapErr "failed to derive account: "
    (lib.Derive coinType (addUint32 HardenedKeyStart (toUint32 account)))
  let changeKey ← wrapErr "failed to derive change: " (lib.Derive accountKey (toUint32 change))
  let indexKey ← wrapErr "failed to derive index: " (lib.Derive changeKey (toUint32 index))
  wrapErr "failed to get public key: " (lib.ECPubKey indexKey)

/-- Source `deriveBip44Address` (lines 1599-1645). -/
def deriveBip44Address {Key PubKey : Type} (lib : KeyLib Key PubKey) (seed : Bytes)
    (account change index : Int) : Except String String := do
  let pubKey ← derivePurposePubKey lib 44 seed account change index
  wrapErr "failed to create address: " (lib.NewAddressPubKey (lib.SerializeCompressed pubKey))

/-- Source `deriveBip49Address` (lines 1656-1712). -/
def deriveBip49Address {Key PubKey : Type} (lib : KeyLib Key PubKey) (seed : Bytes)
    (account change index : Int) : Except String String := do
  let pubKey ← derivePurposePubKey lib 49 seed account change index
  let pubKeyHash := hash160 lib (lib.SerializeCompressed pubKey)
  let witnessProgram := [0x00, 0x14] ++ pubKeyHash
  let scriptHash := hash160 lib witnessProgram
  wrapErr "failed to create address: " (NewAddressScriptHash lib scriptHash)

/-- Source `deriveBip84Address` (lines 1715-1762). -/
def deriveBip84Address {Key PubKey : Type} (lib : KeyLib Key PubKey) (seed : Bytes)
    (account change index : Int) : Except String String := do
  let pubKey ← derivePurposePubKey lib 84 seed account change index
  let pubKeyHash := hash160 lib (lib.SerializeCompressed pubKey)
  wrapErr "failed to create address: " (lib.NewAddressWitnessPubKeyHash pubKeyHash)

/-- The key reached from `key` by applying the child numbers of `path` in
order with `Derive`. -/
def walkPath {Key PubKey : Type} (lib : KeyLib Key PubKey) : Key → List Nat → Except String Key
  | key, [] => .ok key
  | key, child :: rest =>
    match lib.Derive key child with
    | .error err => .error err
    | .ok next => walkPath lib next rest

/-- The canonical path `m/purpose'/0'/account'/change/index` as child numbers:
a hardened level is its number plus `2^31`. -/
def canonicalPurposePath (purposeNumber account change index : Nat) : List Nat :=
  [2147483648 + purposeNumber, 2147483648 + 0, 2147483648 + account, change, index]

/-- The canonical path `m/0'/0/index` as child numbers. -/
def canonicalBip32Path (index : Nat) : List Nat :=
  [2147483648 + 0, 0, index]

/-- The letter that stands for a byte in the addresses of `toyLib`. -/
def toyChar (b : Nat) : Char := Char.ofNat (97 + b % 26)

/-- A small key library for exercising the statements: a key is the list of
child numbers walked from the master key, `Derive` fails exactly when the walk
arrives at `bad`, a public key is its key, and the hashes and encoders only tag
their input. The one valid mnemonic is the all-zero-entropy test phrase. -/
def toyLib (bad : List Nat) : KeyLib (List Nat) (List Nat) :=
  { IsMnemonicValid := fun phrase => phrase ==
      "abandon abandon abandon abandon abandon abandon abandon abandon abandon abandon abandon about"
    NewSeed := fun phrase _ => phrase.data.map Char.toNat
    NewMaster := fun _ => .ok []
    Derive := fun key child =>
      if key ++ [child] = bad then .error "invalid child" else .ok (key ++ [child])
    ECPubKey := fun key => .ok key
    SerializeCompressed := fun pub => pub
    sha256 := fun data => 1 :: data
    ripemd160 := fun data => 2 :: data
    NewAddressPubKey := fun data => .ok (String.mk ('1' :: data.map toyChar))
    NewAddressScriptHashFromHash := fun data => .ok (String.mk ('3' :: data.map toyChar))
    NewAddressWitnessPubKeyHash := fun data => .ok (String.mk ('q' :: data.map toyChar)) }

/-- The test mnemonic that `toyLib` accepts. -/
def testMnemonic : String :=
  "abandon abandon abandon abandon abandon abandon abandon abandon abandon abandon abandon about"

/-- A second valid mnemonic: the BIP39 test phrase of the entropy `7f7f...7f`. -/
def secondMnemonic : String :=
  "legal winner thank year wave sausage worth useful legal winner thank yellow"

/-- A small key library in which the master key records its seed: `NewSeed` is
the list of the character codes of the phrase followed by those of the
passphrase, and `NewMaster` puts the sum of the seed bytes at the head of the
key, so every derived address shows the seed it comes from. `Derive` never
fails; the rest is as in `toyLib`. Both test mnemonics are valid. -/
def seededLib : KeyLib (List Nat) (List Nat) :=
  { toyLib [] with
    IsMnemonicValid := fun phrase => phrase == testMnemonic || phrase == secondMnemonic
    NewSeed := fun phrase passphrase =>
      phrase.data.map Char.toNat ++ passphrase.data.map Char.toNat
    NewMaster := fun seed => .ok [seed.sum] }

/-- A library or derivation call made by `generateAddressesFromSeed`, in the
order of execution: the validation of the phrase, the computation of the seed,
and each invocation of a derivation function with its arguments. -/
inductive LibCall where
  | validate (seedPhrase : String)
  | newSeed (seedPhrase : String)
  | deriveBip32 (index : Int)
  | deriveBip44 (account change index : Int)
  | deriveBip49 (account change index : Int)
  | deriveBip84 (account change index : Int)
deriving DecidableEq, Repr

/-- The four slices stored in the `addresses` map of `generateAddressesFromSeed`
under its four constant keys. -/
structure AddressLists where
  bip32 : List String
  bip44 : List String
  bip49 : List String
  bip84 : List String
deriving DecidableEq, Repr

/-- The `addresses` map as a list of its keys with their slices. -/
def AddressLists.toMap (a : AddressLists) : List (String × List String) :=
  [("BIP32 (Legacy)", a.bip32), ("BIP44 (Legacy)", a.bip44),
   ("BIP49 (SegWit-compatible)", a.bip49), ("BIP84 (Native SegWit)", a.bip84)]

/-- The presentation layer as seen from the derivation engine, over the ambient
state `W` of the process (terminal, language setting, `math/rand` source,
clock): the translation lookup `T` reads it and `showLoadingBar` changes it. -/
structure Display (W : Type) where
  T : W → String → String
  showLoadingBar : String → W → W

/-- What a call of `generateAddressesFromSeed` leaves: the returned pair (an
error with a nil map, or the map), the ambient state, and the calls made. -/
structure GenResult (W : Type) where
  value : Except String (List (String × List String))
  world : W
  calls : List LibCall

/-- The loop of `generateAddressesFromSeed` (lines 1784-1812) over the remaining
indices, with the slices filled so far and the calls made so far. -/
def generateLoop {Key PubKey : Type} (lib : KeyLib Key PubKey) (seed : Bytes) :
    List Nat → AddressLists → List LibCall → Except String AddressLists × List LibCall
  | [], acc, calls => (.ok acc, calls)
  | i :: rest, acc, calls =>
    match deriveBip32Address lib seed i with
    | .error err =>
      (.error ("failed to derive BIP32 address: " ++ err), calls ++ [.deriveBip32 i])
    | .ok addr32 =>
      match deriveBip44Address lib seed 0 0 i with
      | .error err =>
        (.error ("failed to derive BIP44 address: " ++ err),
          calls ++ [.deriveBip32 i, .deriveBip44 0 0 i])
      | .ok addr44 =>
        match deriveBip49Address lib seed 0 0 i with
        | .error err =>
          (.error ("failed to derive BIP49 address: " ++ err),
            calls ++ [.deriveBip32 i, .deriveBip44 0 0 i, .deriveBip49 0 0 i])
        | .ok addr49 =>
          match deriveBip84Address lib seed 0 0 i with
          | .error err =>
            (.error ("failed to derive BIP84 address: " ++ err),
              calls ++ [.deriveBip32 i, .deriveBip44 0 0 i, .deriveBip49 0 0 i,
                .deriveBip84 0 0 i])
          | .ok addr84 =>
            generateLoop lib seed rest
              { bip32 := acc.bip32.set i addr32, bip44 := acc.bip44.set i addr44,
                bip49 := acc.bip49.set i addr49, bip84 := acc.bip84.set i addr84 }
              (calls ++ [.deriveBip32 i, .deriveBip44 0 0 i, .deriveBip49 0 0 i,
                .deriveBip84 0 0 i])

/-- Source `generateAddressesFromSeed` (lines 1765-1815). A negative `count`
makes `make([]string, count)` panic (`none`). -/
def generateAddressesFromSeed {Key PubKey W : Type} (lib : KeyLib Key PubKey)
    (display : Display W) (seedPhrase : String) (count : Int) (w : W) : Option (GenResult W) :=
  if validateSeedPhrase lib seedPhrase = false then
    some { value := .error "invalid seed phrase", world := w, calls := [.validate seedPhrase] }
  else
    let seed := seedToRootKey lib seedPhrase
    if count < 0 then none
    else
      let addresses : AddressLists :=
        { bip32 := List.replicate count.toNat "", bip44 := List.replicate count.toNat "",
          bip49 := List.replicate count.toNat "", bip84 := List.replicate count.toNat "" }
      let w1 := display.showLoadingBar (display.T w "generating_addresses") w
      let r := generateLoop lib seed (List.range count.toNat) addresses
        [.validate seedPhrase, .newSeed seedPhrase]
      some { value := r.1.map AddressLists.toMap, world := w1, calls := r.2 }

/-- A presentation layer over a counter of drawn random numbers. -/
def toyDisplay : Display Nat :=
  { T := fun _ key => key
    showLoadingBar := fun _ w => w + 20 }

/-- The walk `m/49'/0'/0'/0/1`, at which `toyLib` is made to fail. -/
def badBip49Path : List Nat := [2147483697, 2147483648, 2147483648, 0, 1]

/-! ## Concurrent use of the shared counters (source lines 626-631, 674-693) -/

/-- Where a worker stands with respect to one call of
`ScannerStats.IncrementWalletsChecked`: outside the method, after
`s.mutex.Lock()` has returned, after the read of `s.WalletsChecked` (holding the
value read), or after the write of that value plus one, before the deferred
`Unlock`. -/
inductive IncPhase where
  | outside
  | locked
  | loaded (tmp : Nat)
  | stored
deriving DecidableEq, Repr

/-- A worker that still has `remaining` calls to complete. -/
structure IncWorker where
  remaining : Nat
  phase : IncPhase
deriving DecidableEq, Repr

/-- One `ScannerStats` shared by several workers: the counters, the worker that
holds `mutex` (if any), and the workers. -/
structure SharedStats where
  stats : ScannerStats
  mutexHolder : Option Nat
  workers : List IncWorker
deriving DecidableEq, Repr

/-- One step of worker `i`, if it has one: take the free mutex, read the
counter, write the read value plus one, or release the mutex and finish the
call. A worker waiting for a held mutex, or with no call left, has no step. -/
def incStep (i : Nat) (s : SharedStats) : Option SharedStats :=
  match s.workers[i]? with
  | none => none
  | some wk =>
    match wk.phase with
    | .outside =>
      if wk.remaining = 0 then none
      else
        match s.mutexHolder with
        | some _ => none
        | none =>
          some { s with mutexHolder := some i,
                        workers := s.workers.set i { wk with phase := .locked } }
    | .locked =>
      some { s with workers := s.workers.set i { wk with phase := .loaded s.stats.WalletsChecked } }
    | .loaded tmp =>
      some { s with stats := { s.stats with WalletsChecked := tmp + 1 },
                    workers := s.workers.set i { wk with phase := .stored } }
    | .stored =>
      some { s with mutexHolder := none,
                    workers := s.workers.set i { remaining := wk.remaining - 1, phase := .outside } }

/-- The state after an interleaving, given as the list of the workers that take
the successive steps (`none` when a listed worker has no step at its turn). -/
def runSchedule : List Nat → SharedStats → Option SharedStats
  | [], s => some s
  | i :: rest, s =>
    match incStep i s with
    | none => none
    | some s1 => runSchedule rest s1

/-- A fresh `ScannerStats` shared by `K` workers that each are to call
`IncrementWalletsChecked` `T` times. -/
def initShared (K T : Nat) : SharedStats :=
  { stats := { WalletsChecked := 0, ActiveWalletsFound := 0 }
    mutexHolder := none
    workers := List.replicate K { remaining := T, phase := .outside } }

/-- Every worker has completed all its calls. -/
def SharedStats.allDone (s : SharedStats) : Bool :=
  s.workers.all (fun wk => wk.remaining == 0 && wk.phase == .outside)

/-- The number of increments a worker has still to contribute. -/
def IncWorker.owed (wk : IncWorker) : Nat :=
  match wk.phase with
  | .stored => wk.remaining - 1
  | _ => wk.remaining

/-- The invariant of the shared counter for a total of `N` calls: a worker
inside the method holds the mutex and has a call left, a value read under the
mutex is the current counter, the counter plus the increments still owed is
`N`, and `ActiveWalletsFound` is zero. -/
def SharedInv (N : Nat) (s : SharedStats) : Prop :=
  (∀ (i : Nat) (wk : IncWorker), s.workers[i]? = some wk → wk.phase ≠ IncPhase.outside →
    s.mutexHolder = some i ∧ 1 ≤ wk.remaining) ∧
  (∀ (i : Nat) (wk : IncWorker) (tmp : Nat), s.workers[i]? = some wk →
    wk.phase = IncPhase.loaded tmp → tmp = s.stats.WalletsChecked) ∧
  s.stats.WalletsChecked + (s.workers.map IncWorker.owed).sum = N ∧
  s.stats.ActiveWalletsFound = 0

/-- A held mutex is held by a worker that is inside the method. -/
def HolderInside (s : SharedStats) : Prop :=
  ∀ k, s.mutexHolder = some k →
    ∃ wk, s.workers[k]? = some wk ∧ wk.phase ≠ IncPhase.outside

/-- Two workers, two calls each: the calls alternate between the workers. -/
def alternatingSchedule : List Nat :=
  [0, 0, 0, 0, 1, 1, 1, 1, 0, 0, 0, 0, 1, 1, 1, 1]

/-- The shared state after `alternatingSchedule`. -/
def alternatingResult : SharedStats :=
  (runSchedule alternatingSchedule (initShared 2 2)).getD (initShared 0 0)

/-- Every request is answered with status 200 and a body that does not
decode. -/
def malformedNet (α : Type) : String → HttpResult α :=
  fun _ => .response 200 (.parseError "unexpected end of JSON input")

/-- Every request fails in the transport with a time-out. -/
def timeoutNet (α : Type) : String → HttpResult α :=
  fun _ => .transportError "dial tcp: i/o timeout"

/-- What a fetch leaves of the pool at `b.example`: its failure counter, the
cursor and the current endpoint. -/
def PoolState.viewB (s : PoolState) : Nat × Nat × String :=
  (s.endpointFailures "b.example", s.currentEndpointIndex, s.currentEndpoint)

/-! ## Scanner loop, single-instance scanner and status history -/

/-- What one pass of a scanner loop works on: the generated mnemonic, the four
derivation results, and what the surroundings supply for each address. -/
structure IterationInput where
  seedPhrase : String
  bip32Addr : Option String
  bip44Addr : Option String
  bip49Addr : Option String
  bip84Addr : Option String
  env : Nat → AddrEnv

/-- How a bounded observation of the scanner loop ends: the worker returned
after `passes` passes, is still looping, or a pass panicked. -/
inductive LoopResult where
  | returned (passes : Nat) (w : WorkerState)
  | running (passes : Nat) (w : WorkerState)
  | panicked (passes : Nat)

/-- The loop of `scanWalletInstance` (lines 2033-2163), observed for `fuel`
rounds from the top of the loop with `passes` passes completed. Each round
starts with the `select`: when the `done` channel is closed at that moment
(`doneClosed passes`) the receive is ready and the worker returns; otherwise
the `default` branch runs one pass on `inputs passes`. -/
def scanWalletInstanceLoop (doneClosed : Nat → Bool) (inputs : Nat → IterationInput) :
    Nat → Nat → WorkerState → LoopResult
  | 0, passes, w => .running passes w
  | fuel + 1, passes, w =>
    if doneClosed passes then .returned passes w
    else
      match scanWalletInstanceIteration (inputs passes).seedPhrase (inputs passes).bip32Addr
          (inputs passes).bip44Addr (inputs passes).bip49Addr (inputs passes).bip84Addr
          (inputs passes).env w with
      | none => .panicked passes
      | some w1 => scanWalletInstanceLoop doneClosed inputs fuel (passes + 1) w1

/-- The variables of the loop of `scanRandomWallets`: the shared pool, the two
local counters and the rows appended to the log file. -/
structure SingleState where
  pool : PoolState
  walletsChecked : Nat
  activeWalletsFound : Nat
  csv : List (List String)

/-- The body of the loop over `addresses` in `scanRandomWallets` (lines
2348-2397) for one address. -/
def checkAddressSingle (seedPhrase : String) (addrInfo : AddrInfo) (env : AddrEnv)
    (st : SingleState) : Option SingleState :=
  match fetchWalletData env.net addrInfo.address st.pool with
  | none => none
  | some (.error _, pool1) => some { st with pool := pool1 }
  | some (.ok data, pool1) =>
    let balance := (calculateBalance data).1
    let walletStats := (calculateBalance data).2
    let txCount := walletStats.TxCount
    if balance > 0 ∨ txCount > 0 then
      let balanceBtc := env.sprintfBalance balance
      let explorerURL := "https://mempool.space/address/" ++ addrInfo.address
      some { pool := pool1
             walletsChecked := st.walletsChecked
             activeWalletsFound := st.activeWalletsFound + 1
             csv :=
               if env.appendOk then
                 st.csv ++ [[env.timestamp, seedPhrase, addrInfo.walletType, addrInfo.path,
                   addrInfo.address, balanceBtc, toString txCount, explorerURL]]
               else st.csv }
    else some { st with pool := pool1 }

/-- The loop over `addresses` in `scanRandomWallets`. -/
def checkAddressesSingle (seedPhrase : String) (env : Nat → AddrEnv) :
    List AddrInfo → Nat → SingleState → Option SingleState
  | [], _, st => some st
  | addrInfo :: rest, k, st =>
    match checkAddressSingle seedPhrase addrInfo (env k) st with
    | none => none
    | some st1 => checkAddressesSingle seedPhrase env rest (k + 1) st1

/-- One pass through the `default` branch of the loop of `scanRandomWallets`
(lines 2290-2403). -/
def scanRandomWalletsIteration (seedPhrase : String)
    (bip32Addr bip44Addr bip49Addr bip84Addr : Option String) (env : Nat → AddrEnv)
    (st : SingleState) : Option SingleState :=
  let addresses := collectAddresses bip32Addr bip44Addr bip49Addr bip84Addr
  let st1 := { st with walletsChecked := st.walletsChecked + 1 }
  checkAddressesSingle seedPhrase env addresses 0 st1

/-- What a multi-instance worker shares with the single-instance scanner: the
pool, the two counters and the log rows. -/
def WorkerState.toSingle (w : WorkerState) : SingleState :=
  { pool := w.pool
    walletsChecked := w.stats.WalletsChecked
    activeWalletsFound := w.stats.ActiveWalletsFound
    csv := w.csv }

/-- The changes of `Status` that the scanner loop performs (a call that stores
the value already present is no change). -/
def statusStep (a b : String) : Prop :=
  a = b ∨ (a = "idle" ∧ b = "active") ∨ (a = "active" ∧ b = "success") ∨
  (a = "active" ∧ b = "error") ∨ (a = "active" ∧ b = "idle") ∨
  (a = "success" ∧ b = "idle") ∨ (a = "error" ∧ b = "active")

/-- The status history is a chain of `statusStep`s that ends in the stored
status, and the worker stands between two address checks: the stored status is
`idle`, `active` or `error`. -/
def StatusLogOk (w : WorkerState) : Prop :=
  w.statusLog.Chain' statusStep ∧
  w.statusLog.getLast? = some w.status.Status ∧
  (w.status.Status = "idle" ∨ w.status.Status = "active" ∨ w.status.Status = "error")

/-- The worker after one pass in which every fetch is answered with 404. -/
def notFoundPassResult : WorkerState :=
  (scanWalletInstanceIteration "seed words" (some "a32") (some "a44") (some "a49")
    (some "a84") notFoundEnv freshWorker).getD freshWorker

/-- A status with a stored error at clock reading 1000. -/
def erroredStatus : InstanceStatus :=
  { ID := 3, Status := "active", CurrentAddress := "bc1qexample",
    CurrentBIPType := "BIP84 (Native SegWit)", CurrentEndpoint := "mempool.space",
    LastError := "Error: API returned status code 404", LastErrorTime := 1000 }

/-- The done signal is broadcast while the third pass runs: it is closed from
the fourth `select` on. -/
def doneAfterThree : Nat → Bool := fun passes => decide (3 ≤ passes)

/-- Every pass works on the same mnemonic with empty reports. -/
def quietInputs : Nat → IterationInput :=
  fun _ => { seedPhrase := "seed words", bip32Addr := some "a32", bip44Addr := some "a44",
             bip49Addr := some "a49", bip84Addr := some "a84", env := quietEnv }

/-- The worker state in which a bounded observation of the loop ends, if no
pass panicked. -/
def LoopResult.worker? : LoopResult → Option WorkerState
  | .returned _ w => some w
  | .running _ w => some w
  | .panicked _ => none

/-- The passes completed when a bounded observation of the loop ends. -/
def LoopResult.passes : LoopResult → Nat
  | .returned n _ => n
  | .running n _ => n
  | .panicked n => n

/-- The worker after the loop has run on `quietInputs` until it saw the signal
of `doneAfterThree`. -/
def threePassResult : WorkerState :=
  ((scanWalletInstanceLoop doneAfterThree quietInputs 10 0 freshWorker).worker?).getD freshWorker

/-! ## Number formatting (source lines 1234-1248) -/

/-- The loop of `formatWithCommas` over the characters of `in` from position
`i`: a comma is put before the character at a position `i > 0` with
`(len(in) - i) % 3 == 0`. -/
def insertCommas (len : Nat) : List Char → Nat → List Char
  | [], _ => []
  | c :: rest, i =>
    (if i > 0 ∧ (len - i) % 3 = 0 then [',', c] else [c]) ++ insertCommas len rest (i + 1)

/-- Source `formatWithCommas` (lines 1235-1248); `strconv.FormatInt(n, 10)` is
the decimal text of `n`, with a leading minus sign for a negative number. -/
def formatWithCommas (n : Int) : String :=
  let inp := (toString n).data
  String.mk (insertCommas inp.length inp 0)

/-- The network of the pool history used against the consecutive-failure
reading: status 404 for the first four requests and the sixth, an empty report
for the fifth. -/
def notFoundNet : String → HttpResult WalletData :=
  fun _ => .response 404 (.parsed emptyWallet)

/-- A network that answers every request with an empty report. -/
def emptyReportNet : String → HttpResult WalletData :=
  fun _ => .response 200 (.parsed emptyWallet)

/-- Four failed fetches through `a.example`, then a successful one. -/
def failuresThenSuccessOps : List PoolOp :=
  [.fetchData notFoundNet "addr", .fetchData notFoundNet "addr", .fetchData notFoundNet "addr",
   .fetchData notFoundNet "addr", .fetchData emptyReportNet "addr"]

/-- Every request is answered with status 200 and a body that cannot be read. -/
def unreadableNet (α : Type) : String → HttpResult α :=
  fun _ => .response 200 (.readError "unexpected EOF")

/-- What a call leaves of a pool: the endpoint list, the cursor, the current
endpoint, and the failure counters of the two sample endpoints. -/
def PoolState.view (s : PoolState) : List String × Nat × String × Nat × Nat :=
  (s.mempoolEndpoints, s.currentEndpointIndex, s.currentEndpoint,
   s.endpointFailures "a.example", s.endpointFailures "b.example")

/-- The pool after a successful fetch from the state with four failures on
`a.example`. -/
def successAfterFourFailures : PoolState :=
  ((fetchWalletData emptyReportNet "addr" fourFailuresState).map (fun r => r.2)).getD
    (initialPool [])

/-! ## Balance arithmetic -/

theorem wrapInt64_of_inInt64 {x : Int} (h : inInt64 x) : wrapInt64 x = x := by
  unfold inInt64 at h
  unfold wrapInt64
  omega

/-- C1 (as stated, refuted): with both funded sums at `2^63 - 1` and nothing
spent, the sums are non-negative but `TotalBalanceSats` is `-2`, not the sum
`(confirmedFunded - confirmedSpent) + (unconfirmedFunded - unconfirmedSpent)`. -/
theorem calculateBalance_total_overflow :
    overflowingWallet.nonnegSums ∧
    (calculateBalance overflowingWallet).2.TotalBalanceSats = -2 ∧
    (calculateBalance overflowingWallet).2.TotalBalanceSats ≠
      (overflowingWallet.ChainStats.FundedTxoSum - overflowingWallet.ChainStats.SpentTxoSum) +
      (overflowingWallet.MempoolStats.FundedTxoSum -
        overflowingWallet.MempoolStats.SpentTxoSum) := by
  decide

/-- C1 (amended): for every report with non-negative `int64` funded and spent
sums, the confirmed and unconfirmed balances are the exact differences (also
when negative), and the total in satoshis is their exact sum whenever that sum
fits the signed 64-bit range (it is the sum reduced to that range otherwise). -/
theorem calculateBalance_arith (d : WalletData) (h : d.nonnegSums) :
    (calculateBalance d).2.ConfirmedBalance =
      d.ChainStats.FundedTxoSum - d.ChainStats.SpentTxoSum ∧
    (calculateBalance d).2.UnconfirmedBalance =
      d.MempoolStats.FundedTxoSum - d.MempoolStats.SpentTxoSum ∧
    (calculateBalance d).2.TotalBalanceSats =
      wrapInt64 ((d.ChainStats.FundedTxoSum - d.ChainStats.SpentTxoSum) +
        (d.MempoolStats.FundedTxoSum - d.MempoolStats.SpentTxoSum)) ∧
    (inInt64 ((d.ChainStats.FundedTxoSum - d.ChainStats.SpentTxoSum) +
        (d.MempoolStats.FundedTxoSum - d.MempoolStats.SpentTxoSum)) →
      (calculateBalance d).2.TotalBalanceSats =
        (d.ChainStats.FundedTxoSum - d.ChainStats.SpentTxoSum) +
        (d.MempoolStats.FundedTxoSum - d.MempoolStats.SpentTxoSum)) := by
  obtain ⟨h1, h2, h3, h4⟩ := h
  simp only [calculateBalance, wrapInt64, inInt64]
  refine ⟨?_, ?_, ?_, fun hfit => ?_⟩ <;> omega

/-- Witness for C1: funded 700, spent 200, pending spend 450 gives confirmed
500, unconfirmed -450 and total 50. -/
theorem calculateBalance_arith_witness :
    (calculateBalance pendingSpendWallet).2.ConfirmedBalance = 700 - 200 ∧
    (calculateBalance pendingSpendWallet).2.UnconfirmedBalance = 0 - 450 ∧
    (calculateBalance pendingSpendWallet).2.TotalBalanceSats = (700 - 200) + (0 - 450) :=
  ⟨(calculateBalance_arith pendingSpendWallet (by decide)).1,
   (calculateBalance_arith pendingSpendWallet (by decide)).2.1,
   (calculateBalance_arith pendingSpendWallet (by decide)).2.2.2 (by decide)⟩

/-! ## Endpoint pool: basic facts -/

theorem Shrinks.refl (s : PoolState) : Shrinks s s :=
  ⟨List.Sublist.refl _, id, id⟩

theorem Shrinks.trans {s t u : PoolState} (h1 : Shrinks s t) (h2 : Shrinks t u) :
    Shrinks s u :=
  ⟨h2.1.trans h1.1, fun h => h2.2.1 (h1.2.1 h), fun h => h2.2.2 (h1.2.2 h)⟩

theorem removeEndpoint_shrinks {e : String} {s t : PoolState}
    (h : removeEndpoint e s = some t) : Shrinks s t := by
  unfold removeEndpoint at h
  simp only at h
  split at h
  · rename_i hi
    split at h
    · rename_i hle
      split at h
      · exact absurd h (by simp)
      · rename_i hlen
        split at h
        · exact absurd h (by simp)
        · rename_i ep hep
          simp only [Option.some.injEq] at h
          subst h
          refine ⟨List.eraseIdx_sublist _ _, ?_, fun _ => ?_⟩
          · intro hinv
            refine ⟨List.Nodup.eraseIdx _ hinv.1, fun _ => ?_, Or.inr hep⟩
            exact Nat.mod_lt _ (Nat.pos_of_ne_zero hlen)
          · intro hnil
            simp only at hnil
            rw [hnil] at hlen
            exact hlen rfl
    · rename_i hle
      simp only [Option.some.injEq] at h
      subst h
      have hlen : (s.mempoolEndpoints.eraseIdx (s.mempoolEndpoints.indexOf e)).length =
          s.mempoolEndpoints.length - 1 := List.length_eraseIdx_of_lt hi
      refine ⟨List.eraseIdx_sublist _ _, ?_, fun _ hnil => ?_⟩
      · intro hinv
        refine ⟨List.Nodup.eraseIdx _ hinv.1, fun _ => ?_, ?_⟩
        · simp only
          omega
        · rcases hinv.2.2 with h0 | h1
          · exact Or.inl h0
          · refine Or.inr ?_
            simp only
            rw [List.getElem?_eraseIdx_of_lt _ _ _ (by omega)]
            exact h1
      · simp only at hnil
        rw [hnil] at hlen
        simp only [List.length_nil] at hlen
        omega
  · simp only [Option.some.injEq] at h
    subst h
    exact Shrinks.refl _

theorem incrementEndpointFailure_shrinks {e : String} {s t : PoolState}
    (h : incrementEndpointFailure e s = some t) : Shrinks s t := by
  unfold incrementEndpointFailure at h
  by_cases hc : s.endpointFailures e + 1 ≥ 5
  · simp only [if_true, hc] at h
    have hr := removeEndpoint_shrinks h
    exact ⟨hr.1, fun hinv => hr.2.1 hinv, hr.2.2⟩
  · simp only [if_true, hc, if_false, Option.some.injEq] at h
    subst h
    exact ⟨List.Sublist.refl _, fun hinv => hinv, id⟩

theorem getNextEndpoint_shrinks {r : String} {s t : PoolState}
    (h : getNextEndpoint s = some (r, t)) : Shrinks s t := by
  unfold getNextEndpoint at h
  split at h
  · simp only [Option.some.injEq, Prod.mk.injEq] at h
    rw [← h.2]
    exact Shrinks.refl _
  · rename_i hlen
    simp only at h
    split at h
    · exact absurd h (by simp)
    · rename_i ep hep
      simp only [Option.some.injEq, Prod.mk.injEq] at h
      rw [← h.2]
      refine ⟨List.Sublist.refl _, fun hinv => ⟨hinv.1, fun _ => ?_, Or.inr hep⟩, id⟩
      exact Nat.mod_lt _ (Nat.pos_of_ne_zero hlen)

theorem getCurrentEndpoint_shrinks {r : String} {s t : PoolState}
    (h : getCurrentEndpoint s = some (r, t)) : Shrinks s t := by
  unfold getCurrentEndpoint at h
  split at h
  · split at h
    · exact absurd h (by simp)
    · rename_i ep hep
      simp only [Option.some.injEq, Prod.mk.injEq] at h
      rw [← h.2]
      exact ⟨List.Sublist.refl _, fun hinv => ⟨hinv.1, hinv.2.1, Or.inr hep⟩, id⟩
  · simp only [Option.some.injEq, Prod.mk.injEq] at h
    rw [← h.2]
    exact Shrinks.refl _

theorem rotateEndpointIfNeeded_shrinks {code : Int} {err : Option String} {r : Bool}
    {s t : PoolState} (h : rotateEndpointIfNeeded code err s = some (r, t)) : Shrinks s t := by
  unfold rotateEndpointIfNeeded at h
  split at h
  · split at h
    · exact absurd h (by simp)
    · rename_i old s1 h1
      split at h
      · exact absurd h (by simp)
      · rename_i s2 h2
        split at h
        · exact absurd h (by simp)
        · rename_i new s3 h3
          have hst : s3 = t := by
            split at h <;> simp only [Option.some.injEq, Prod.mk.injEq] at h <;> exact h.2
          subst hst
          exact (getCurrentEndpoint_shrinks h1).trans
            ((incrementEndpointFailure_shrinks h2).trans (getNextEndpoint_shrinks h3))
  · simp only [Option.some.injEq, Prod.mk.injEq] at h
    rw [← h.2]
    exact Shrinks.refl _

theorem reportFailure_shrinks {e : String} {code : Int} {err : Option String}
    {s t : PoolState} (h : reportFailure e code err s = some t) : Shrinks s t := by
  unfold reportFailure at h
  split at h
  · exact absurd h (by simp)
  · rename_i s1 h1
    split at h
    · exact absurd h (by simp)
    · rename_i r s2 h2
      simp only [Option.some.injEq] at h
      subst h
      exact (incrementEndpointFailure_shrinks h1).trans (rotateEndpointIfNeeded_shrinks h2)

theorem fetchWalletData_shrinks {net : String → HttpResult WalletData} {address : String}
    {r : Except String WalletData} {s t : PoolState}
    (h : fetchWalletData net address s = some (r, t)) : Shrinks s t := by
  unfold fetchWalletData at h
  split at h
  · exact absurd h (by simp)
  · rename_i endpoint s0 h0
    have hs0 := getCurrentEndpoint_shrinks h0
    split at h
    · simp only [Option.some.injEq, Prod.mk.injEq] at h
      rw [← h.2]; exact hs0
    · split at h
      · simp only [Option.map_eq_some', Prod.mk.injEq] at h
        obtain ⟨s1, h1, -, rfl⟩ := h
        exact hs0.trans (reportFailure_shrinks h1)
      · split at h
        · simp only [Option.map_eq_some', Prod.mk.injEq] at h
          obtain ⟨s1, h1, -, rfl⟩ := h
          exact hs0.trans (reportFailure_shrinks h1)
        · split at h
          · simp only [Option.some.injEq, Prod.mk.injEq] at h
            rw [← h.2]; exact hs0
          · simp only [Option.map_eq_some', Prod.mk.injEq] at h
            obtain ⟨s1, h1, -, rfl⟩ := h
            exact hs0.trans (reportFailure_shrinks h1)
          · simp only [Option.some.injEq, Prod.mk.injEq] at h
            rw [← h.2]; exact hs0

theorem fetchWalletTransactions_shrinks {net : String → HttpResult (List Transaction)}
    {address : String} {limit : Int} {r : Except String (List Transaction)} {s t : PoolState}
    (h : fetchWalletTransactions net address limit s = some (r, t)) : Shrinks s t := by
  unfold fetchWalletTransactions at h
  split at h
  · exact absurd h (by simp)
  · rename_i endpoint s0 h0
    have hs0 := getCurrentEndpoint_shrinks h0
    split at h
    · simp only [Option.some.injEq, Prod.mk.injEq] at h
      rw [← h.2]; exact hs0
    · split at h
      · simp only [Option.map_eq_some', Prod.mk.injEq] at h
        obtain ⟨s1, h1, -, rfl⟩ := h
        exact hs0.trans (reportFailure_shrinks h1)
      · split at h
        · simp only [Option.map_eq_some', Prod.mk.injEq] at h
          obtain ⟨s1, h1, -, rfl⟩ := h
          exact hs0.trans (reportFailure_shrinks h1)
        · split at h
          · simp only [Option.some.injEq, Prod.mk.injEq] at h
            rw [← h.2]; exact hs0
          · simp only [Option.map_eq_some', Prod.mk.injEq] at h
            obtain ⟨s1, h1, -, rfl⟩ := h
            exact hs0.trans (reportFailure_shrinks h1)
          · simp only [Option.map_eq_some', Prod.mk.injEq] at h
            obtain ⟨txs, -, -, rfl⟩ := h
            exact hs0

/-! ## Refresh: sorting facts -/

theorem endpointLess_total (a b : EndpointStatus) :
    endpointLess b a = false ∨ endpointLess a b = false := by
  unfold endpointLess
  cases ha : a.working <;> cases hb : b.working <;> simp <;> omega

theorem endpointLess_trans {a b c : EndpointStatus} (h1 : endpointLess b a = false)
    (h2 : endpointLess c b = false) : endpointLess c a = false := by
  unfold endpointLess at *
  cases ha : a.working <;> cases hb : b.working <;> cases hc : c.working <;>
    simp [ha, hb, hc] at h1 h2 ⊢ <;> omega

theorem insertionSortSlice_spec : SortSliceSpec insertionSortSlice := by
  intro l
  haveI : IsTotal EndpointStatus (fun a b => endpointLess b a = false) :=
    ⟨endpointLess_total⟩
  haveI : IsTrans EndpointStatus (fun a b => endpointLess b a = false) :=
    ⟨fun _ _ _ h1 h2 => endpointLess_trans h1 h2⟩
  exact ⟨List.perm_insertionSort _ l, List.sorted_insertionSort _ l⟩

theorem map_endpoint_probeAll (probe : Nat → ProbeResult) (endpoints : List String) :
    (probeAll probe endpoints).map (fun r => r.endpoint) = endpoints := by
  unfold probeAll
  rw [List.map_map]
  have hf : ((fun r : EndpointStatus => r.endpoint) ∘
      fun p : Nat × String => probeStatus p.2 (probe p.1)) = Prod.snd := by
    funext p
    simp only [Function.comp, probeStatus]
    cases probe p.1 <;> rfl
  rw [hf, List.enum_map_snd]

theorem newEndpointsOf_perm (l : List EndpointStatus) : (newEndpointsOf l).Perm l :=
  List.filter_append_perm _ l

theorem testAndSortEndpoints_perm {sortSlice : List EndpointStatus → List EndpointStatus}
    (hsort : SortSliceSpec sortSlice) (probe : Nat → ProbeResult) (s : PoolState) :
    (testAndSortEndpoints sortSlice probe s).mempoolEndpoints.Perm s.mempoolEndpoints := by
  have h1 : (newEndpointsOf (sortSlice (probeAll probe s.mempoolEndpoints))).Perm
      (probeAll probe s.mempoolEndpoints) :=
    (newEndpointsOf_perm _).trans (hsort _).1
  have h2 := h1.map (fun r => r.endpoint)
  rw [map_endpoint_probeAll] at h2
  exact h2

theorem head_or_unset (l : List String) (cur : String) (h : l = [] → cur = "") :
    l.headD cur = "" ∨ l[0]? = some (l.headD cur) := by
  cases l with
  | nil => exact Or.inl (h rfl)
  | cons ep rest => exact Or.inr (by simp)

theorem testAndSortEndpoints_inv {sortSlice : List EndpointStatus → List EndpointStatus}
    (hsort : SortSliceSpec sortSlice) (probe : Nat → ProbeResult) {s : PoolState}
    (h : PoolInv s) : PoolInv (testAndSortEndpoints sortSlice probe s) := by
  have hperm := testAndSortEndpoints_perm hsort probe s
  refine ⟨hperm.nodup_iff.mpr h.1, fun hne => ?_, ?_⟩
  · exact List.length_pos.mpr hne
  · have hcur : s.mempoolEndpoints = [] → s.currentEndpoint = "" := by
      intro hnil
      rcases h.2.2 with h0 | h1
      · exact h0
      · rw [hnil] at h1
        simp at h1
    have hnil : (testAndSortEndpoints sortSlice probe s).mempoolEndpoints = [] →
        s.mempoolEndpoints = [] := by
      intro h0
      rw [h0] at hperm
      exact List.perm_nil.mp hperm.symm
    exact head_or_unset _ _ (fun h0 => hcur (hnil h0))

/-! ## Reachable states keep the invariant -/

theorem initialPool_inv {endpoints : List String} (h : endpoints.Nodup) :
    PoolInv (initialPool endpoints) :=
  ⟨h, fun hne => List.length_pos.mpr hne, Or.inl rfl⟩

theorem PoolOp.run_shrinks {sortSlice : List EndpointStatus → List EndpointStatus}
    {op : PoolOp} (hop : op.isRefresh = false) {s t : PoolState}
    (h : op.run sortSlice s = some t) : Shrinks s t := by
  cases op with
  | getCurrent =>
    simp only [PoolOp.run, Option.map_eq_some'] at h
    obtain ⟨⟨r, u⟩, hu, rfl⟩ := h
    exact getCurrentEndpoint_shrinks hu
  | getNext =>
    simp only [PoolOp.run, Option.map_eq_some'] at h
    obtain ⟨⟨r, u⟩, hu, rfl⟩ := h
    exact getNextEndpoint_shrinks hu
  | recordFailure e => exact incrementEndpointFailure_shrinks h
  | remove e => exact removeEndpoint_shrinks h
  | rotate code err =>
    simp only [PoolOp.run, Option.map_eq_some'] at h
    obtain ⟨⟨r, u⟩, hu, rfl⟩ := h
    exact rotateEndpointIfNeeded_shrinks hu
  | fetchData net address =>
    simp only [PoolOp.run, Option.map_eq_some'] at h
    obtain ⟨⟨r, u⟩, hu, rfl⟩ := h
    exact fetchWalletData_shrinks hu
  | fetchTransactions net address limit =>
    simp only [PoolOp.run, Option.map_eq_some'] at h
    obtain ⟨⟨r, u⟩, hu, rfl⟩ := h
    exact fetchWalletTransactions_shrinks hu
  | refresh probe => simp [PoolOp.isRefresh] at hop

theorem PoolOp.run_inv {sortSlice : List EndpointStatus → List EndpointStatus}
    (hsort : SortSliceSpec sortSlice) {op : PoolOp} {s t : PoolState}
    (h : op.run sortSlice s = some t) (hinv : PoolInv s) : PoolInv t := by
  by_cases hop : op.isRefresh = false
  · exact (PoolOp.run_shrinks hop h).2.1 hinv
  · cases op with
    | refresh probe =>
      simp only [PoolOp.run, Option.some.injEq] at h
      subst h
      exact testAndSortEndpoints_inv hsort probe hinv
    | _ => simp [PoolOp.isRefresh] at hop

theorem runOps_inv {sortSlice : List EndpointStatus → List EndpointStatus}
    (hsort : SortSliceSpec sortSlice) :
    ∀ (ops : List PoolOp) {s t : PoolState}, runOps sortSlice ops s = some t → PoolInv s →
      PoolInv t
  | [], s, t, h, hinv => by
    simp only [runOps, Option.some.injEq] at h
    subst h
    exact hinv
  | op :: rest, s, t, h, hinv => by
    simp only [runOps] at h
    split at h
    · exact absurd h (by simp)
    · rename_i s1 h1
      exact runOps_inv hsort rest h (PoolOp.run_inv hsort h1 hinv)

theorem runOps_shrinks {sortSlice : List EndpointStatus → List EndpointStatus} :
    ∀ (ops : List PoolOp), (∀ op ∈ ops, op.isRefresh = false) → ∀ {s t : PoolState},
      runOps sortSlice ops s = some t → Shrinks s t
  | [], _, s, t, h => by
    simp only [runOps, Option.some.injEq] at h
    subst h
    exact Shrinks.refl _
  | op :: rest, hops, s, t, h => by
    simp only [runOps] at h
    split at h
    · exact absurd h (by simp)
    · rename_i s1 h1
      exact (PoolOp.run_shrinks (hops op (List.mem_cons_self _ _)) h1).trans
        (runOps_shrinks rest (fun o ho => hops o (List.mem_cons_of_mem _ ho)) h)

theorem Reachable.inv {sortSlice : List EndpointStatus → List EndpointStatus}
    (hsort : SortSliceSpec sortSlice) {s : PoolState} (h : Reachable sortSlice s) :
    PoolInv s := by
  obtain ⟨endpoints, ops, hnd, hrun⟩ := h
  exact runOps_inv hsort ops hrun (initialPool_inv hnd)

/-! ## Eviction -/

theorem getCurrentEndpoint_mem {s : PoolState} (hinv : PoolInv s)
    (hne : s.mempoolEndpoints ≠ []) :
    ∃ r t, getCurrentEndpoint s = some (r, t) ∧ r ∈ s.mempoolEndpoints := by
  have hidx := hinv.2.1 hne
  have hget : s.mempoolEndpoints[s.currentEndpointIndex]? =
      some (s.mempoolEndpoints[s.currentEndpointIndex]) := List.getElem?_eq_getElem hidx
  unfold getCurrentEndpoint
  by_cases hc : s.currentEndpoint = "" ∧ s.mempoolEndpoints.length > 0
  · rw [if_pos hc, hget]
    exact ⟨_, _, rfl, List.getElem_mem _⟩
  · rw [if_neg hc]
    refine ⟨_, _, rfl, ?_⟩
    rcases hinv.2.2 with h0 | h1
    · exact absurd ⟨h0, List.length_pos.mpr hne⟩ hc
    · exact List.getElem?_mem h1

theorem getNextEndpoint_mem {s : PoolState} (hne : s.mempoolEndpoints ≠ []) :
    ∃ r t, getNextEndpoint s = some (r, t) ∧ r ∈ s.mempoolEndpoints := by
  have hpos : 0 < s.mempoolEndpoints.length := List.length_pos.mpr hne
  have hlt : (s.currentEndpointIndex + 1) % s.mempoolEndpoints.length <
      s.mempoolEndpoints.length := Nat.mod_lt _ hpos
  unfold getNextEndpoint
  rw [if_neg (by omega)]
  simp only [List.getElem?_eq_getElem hlt]
  exact ⟨_, _, rfl, List.getElem_mem _⟩

theorem removeEndpoint_of_mem {e : String} {s : PoolState}
    (h2 : 2 ≤ s.mempoolEndpoints.length) (he : e ∈ s.mempoolEndpoints) :
    ∃ t, removeEndpoint e s = some t ∧ t.mempoolEndpoints = s.mempoolEndpoints.erase e ∧
      t.endpointFailures = s.endpointFailures := by
  have hi : s.mempoolEndpoints.indexOf e < s.mempoolEndpoints.length :=
    List.indexOf_lt_length.mpr he
  have hlen : (s.mempoolEndpoints.eraseIdx (s.mempoolEndpoints.indexOf e)).length =
      s.mempoolEndpoints.length - 1 := List.length_eraseIdx_of_lt hi
  have herase : s.mempoolEndpoints.eraseIdx (s.mempoolEndpoints.indexOf e) =
      s.mempoolEndpoints.erase e := List.eraseIdx_indexOf_eq_erase e _
  unfold removeEndpoint
  simp only [if_pos hi]
  by_cases hle : s.mempoolEndpoints.indexOf e ≤ s.currentEndpointIndex
  · have hlt : s.currentEndpointIndex %
        (s.mempoolEndpoints.eraseIdx (s.mempoolEndpoints.indexOf e)).length <
        (s.mempoolEndpoints.eraseIdx (s.mempoolEndpoints.indexOf e)).length :=
      Nat.mod_lt _ (by omega)
    rw [if_pos hle, if_neg (by omega)]
    simp only [List.getElem?_eq_getElem hlt]
    exact ⟨_, rfl, herase, rfl⟩
  · rw [if_neg hle]
    exact ⟨_, rfl, herase, rfl⟩

theorem incrementEndpointFailure_evicts {e : String} {s : PoolState} (hinv : PoolInv s)
    (h2 : 2 ≤ s.mempoolEndpoints.length) (he : e ∈ s.mempoolEndpoints)
    (h4 : s.endpointFailures e = 4) :
    ∃ t, incrementEndpointFailure e s = some t ∧ t.endpointFailures e = 5 ∧
      e ∉ t.mempoolEndpoints := by
  obtain ⟨t, ht, hpool, hfail⟩ := removeEndpoint_of_mem
    (s := { s with endpointFailures := fun k =>
      if k = e then s.endpointFailures k + 1 else s.endpointFailures k }) h2 he
  refine ⟨t, ?_, ?_, ?_⟩
  · unfold incrementEndpointFailure
    simp only [if_true, h4]
    rw [if_pos (by decide)]
    exact ht
  · rw [hfail]
    simp only [if_true, h4]
  · rw [hpool]
    intro hmem
    exact absurd rfl ((List.Nodup.mem_erase_iff hinv.1).mp hmem).1

/-- C2: in every reachable pool state with at least two (pairwise distinct)
endpoints, the call of `incrementEndpointFailure` that brings the counter of a
pool endpoint `e` from 4 to 5 completes, leaves the counter at 5 and `e`
outside `mempoolEndpoints`; and after any further sequence of pool calls
without a refresh, `e` is still outside the list and both `getCurrentEndpoint`
and `getNextEndpoint` return an endpoint of the list, hence not `e`. -/
theorem evicted_endpoint_never_selected
    (sortSlice : List EndpointStatus → List EndpointStatus) (hsort : SortSliceSpec sortSlice)
    (s : PoolState) (hreach : Reachable sortSlice s) (e : String)
    (h2 : 2 ≤ s.mempoolEndpoints.length) (he : e ∈ s.mempoolEndpoints)
    (h4 : s.endpointFailures e = 4) :
    ∃ s1, incrementEndpointFailure e s = some s1 ∧ s1.endpointFailures e = 5 ∧
      e ∉ s1.mempoolEndpoints ∧
      ∀ (later : List PoolOp), (∀ op ∈ later, op.isRefresh = false) →
        ∀ s2, runOps sortSlice later s1 = some s2 →
          e ∉ s2.mempoolEndpoints ∧
          (∃ r t, getCurrentEndpoint s2 = some (r, t) ∧ r ≠ e) ∧
          (∃ r t, getNextEndpoint s2 = some (r, t) ∧ r ≠ e) := by
  have hinv : PoolInv s := hreach.inv hsort
  obtain ⟨s1, hs1, h5, hnot⟩ := incrementEndpointFailure_evicts hinv h2 he h4
  have hstep1 := incrementEndpointFailure_shrinks hs1
  have hne : s.mempoolEndpoints ≠ [] := by
    intro h0
    rw [h0] at he
    simp at he
  refine ⟨s1, hs1, h5, hnot, ?_⟩
  intro later hlater s2 hs2
  have hstep2 := runOps_shrinks later hlater hs2
  have hinv2 : PoolInv s2 := hstep2.2.1 (hstep1.2.1 hinv)
  have hne2 : s2.mempoolEndpoints ≠ [] := hstep2.2.2 (hstep1.2.2 hne)
  have hnot2 : e ∉ s2.mempoolEndpoints := fun hmem => hnot (hstep2.1.subset hmem)
  refine ⟨hnot2, ?_, ?_⟩
  · obtain ⟨r, t, hr, hmem⟩ := getCurrentEndpoint_mem hinv2 hne2
    exact ⟨r, t, hr, fun h => hnot2 (h ▸ hmem)⟩
  · obtain ⟨r, t, hr, hmem⟩ := getNextEndpoint_mem hne2
    exact ⟨r, t, hr, fun h => hnot2 (h ▸ hmem)⟩

theorem fourFailuresState_reachable : Reachable insertionSortSlice fourFailuresState :=
  ⟨twoEndpoints, fourFailuresOps, by decide, rfl⟩

/-- Witness for C2: two endpoints, four failures recorded against the first;
the fifth evicts it for good. -/
theorem evicted_endpoint_never_selected_witness :
    ∃ s1, incrementEndpointFailure "a.example" fourFailuresState = some s1 ∧
      s1.endpointFailures "a.example" = 5 ∧
      "a.example" ∉ s1.mempoolEndpoints ∧
      ∀ (later : List PoolOp), (∀ op ∈ later, op.isRefresh = false) →
        ∀ s2, runOps insertionSortSlice later s1 = some s2 →
          "a.example" ∉ s2.mempoolEndpoints ∧
          (∃ r t, getCurrentEndpoint s2 = some (r, t) ∧ r ≠ "a.example") ∧
          (∃ r t, getNextEndpoint s2 = some (r, t) ∧ r ≠ "a.example") :=
  evicted_endpoint_never_selected insertionSortSlice insertionSortSlice_spec fourFailuresState
    fourFailuresState_reachable "a.example" (by decide) (by decide) (by decide)

theorem incrementEndpointFailure_last_endpoint {e : String} {s : PoolState}
    (hpool : s.mempoolEndpoints = [e]) (h4 : 4 ≤ s.endpointFailures e) :
    incrementEndpointFailure e s = none := by
  unfold incrementEndpointFailure
  simp only [if_true]
  rw [if_pos (by omega)]
  unfold removeEndpoint
  simp [hpool]

/-- C3 (the code at the failing input): the shipped pool holds the single
endpoint `mempool.space`; after four recorded failures the state is reachable,
and the fifth `incrementEndpointFailure` does not complete: `removeEndpoint`
empties the list and then reduces the cursor modulo the length zero. -/
theorem eviction_of_last_endpoint_panics :
    Reachable insertionSortSlice lastEndpointState ∧
    lastEndpointState.mempoolEndpoints = ["mempool.space"] ∧
    lastEndpointState.endpointFailures "mempool.space" = 4 ∧
    incrementEndpointFailure "mempool.space" lastEndpointState = none :=
  ⟨⟨["mempool.space"], lastEndpointOps, by decide, rfl⟩, by decide, by decide,
    incrementEndpointFailure_last_endpoint (by decide) (by decide)⟩

/-! ## Rotation -/

theorem getNextEndpoint_nonempty {s : PoolState} (hpos : 0 < s.mempoolEndpoints.length) :
    ∃ ep, s.mempoolEndpoints[(s.currentEndpointIndex + 1) % s.mempoolEndpoints.length]? =
        some ep ∧
      getNextEndpoint s = some (ep, { s with
        currentEndpointIndex := (s.currentEndpointIndex + 1) % s.mempoolEndpoints.length,
        currentEndpoint := ep }) := by
  have hlt : (s.currentEndpointIndex + 1) % s.mempoolEndpoints.length <
      s.mempoolEndpoints.length := Nat.mod_lt _ hpos
  refine ⟨s.mempoolEndpoints[(s.currentEndpointIndex + 1) % s.mempoolEndpoints.length],
    List.getElem?_eq_getElem hlt, ?_⟩
  unfold getNextEndpoint
  rw [if_neg (by omega)]
  simp only [List.getElem?_eq_getElem hlt]

theorem getNextEndpointTimes_spec (k : Nat) :
    ∀ (s : PoolState), 0 < s.mempoolEndpoints.length →
      ∃ visits t, getNextEndpointTimes k s = some (visits, t) ∧
        visits.map Prod.fst = (List.range k).map
          (fun j => (s.currentEndpointIndex + 1 + j) % s.mempoolEndpoints.length) ∧
        (∀ v ∈ visits, s.mempoolEndpoints[v.1]? = some v.2) ∧
        t.mempoolEndpoints = s.mempoolEndpoints ∧
        t.endpointFailures = s.endpointFailures ∧
        (s.currentEndpointIndex < s.mempoolEndpoints.length →
          t.currentEndpointIndex = (s.currentEndpointIndex + k) % s.mempoolEndpoints.length) := by
  induction k with
  | zero =>
    intro s _
    refine ⟨[], s, rfl, rfl, ?_, rfl, rfl, fun hlt => ?_⟩
    · intro v hv
      simp at hv
    · rw [Nat.add_zero, Nat.mod_eq_of_lt hlt]
  | succ k ih =>
    intro s hpos
    obtain ⟨ep, hep, hnext⟩ := getNextEndpoint_nonempty hpos
    obtain ⟨visits, t, hrun, hfst, hall, hpool, hfail, hidx⟩ := ih
      { s with
        currentEndpointIndex := (s.currentEndpointIndex + 1) % s.mempoolEndpoints.length,
        currentEndpoint := ep } hpos
    simp only at hrun hfst hall hpool hfail hidx
    refine ⟨((s.currentEndpointIndex + 1) % s.mempoolEndpoints.length, ep) :: visits, t,
      ?_, ?_, ?_, hpool, hfail, fun _ => ?_⟩
    · simp only [getNextEndpointTimes, hnext, hrun]
    · rw [List.map_cons, hfst, List.range_succ_eq_map, List.map_cons, List.map_map]
      refine congrArg₂ _ rfl (List.map_congr_left fun j _ => ?_)
      simp only [Function.comp, Nat.succ_eq_add_one]
      rw [Nat.add_assoc ((s.currentEndpointIndex + 1) % s.mempoolEndpoints.length),
        Nat.mod_add_mod]
      congr 1
      omega
    · intro v hv
      rcases List.mem_cons.mp hv with rfl | hv
      · exact hep
      · exact hall v hv
    · rw [hidx (Nat.mod_lt _ hpos), Nat.mod_add_mod]
      congr 1
      omega

theorem cursor_cycle_perm (i n : Nat) :
    ((List.range n).map (fun j => (i + 1 + j) % n)).Perm (List.range n) := by
  rcases Nat.eq_zero_or_pos n with rfl | hn
  · exact List.Perm.refl _
  apply List.Subperm.perm_of_length_le
  · apply List.subperm_of_subset
    · apply List.Nodup.map_on _ (List.nodup_range n)
      intro x hx y hy hxy
      have hx1 : x < n := List.mem_range.mp hx
      have hy1 : y < n := List.mem_range.mp hy
      have hmod : x % n = y % n := Nat.ModEq.add_left_cancel' (i + 1) hxy
      rwa [Nat.mod_eq_of_lt hx1, Nat.mod_eq_of_lt hy1] at hmod
    · intro a ha
      obtain ⟨j, -, rfl⟩ := List.mem_map.mp ha
      exact List.mem_range.mpr (Nat.mod_lt _ hn)
  · simp

/-- C9: on a non-empty pool of length `n` with cursor `i < n`, `getNextEndpoint`
moves the cursor to `(i + 1) mod n`, returns the endpoint stored there and
makes it current; `n` successive calls complete, visit every position of the
pool exactly once (each time returning the endpoint stored at the visited
position) and leave the cursor at `i` again. On an empty pool the call returns
the empty string and the state is unchanged. -/
theorem getNextEndpoint_circular (s : PoolState) :
    (s.mempoolEndpoints = [] → getNextEndpoint s = some ("", s)) ∧
    (s.mempoolEndpoints ≠ [] → s.currentEndpointIndex < s.mempoolEndpoints.length →
      (∃ ep, s.mempoolEndpoints[(s.currentEndpointIndex + 1) % s.mempoolEndpoints.length]? =
            some ep ∧
          getNextEndpoint s = some (ep, { s with
            currentEndpointIndex := (s.currentEndpointIndex + 1) % s.mempoolEndpoints.length,
            currentEndpoint := ep })) ∧
      (∃ visits t, getNextEndpointTimes s.mempoolEndpoints.length s = some (visits, t) ∧
          (visits.map Prod.fst).Perm (List.range s.mempoolEndpoints.length) ∧
          (∀ v ∈ visits, s.mempoolEndpoints[v.1]? = some v.2) ∧
          t.currentEndpointIndex = s.currentEndpointIndex ∧
          t.mempoolEndpoints = s.mempoolEndpoints ∧
          t.endpointFailures = s.endpointFailures)) := by
  refine ⟨fun hnil => ?_, fun hne hlt => ?_⟩
  · unfold getNextEndpoint
    rw [if_pos (by rw [hnil]; rfl)]
  · have hpos : 0 < s.mempoolEndpoints.length := List.length_pos.mpr hne
    refine ⟨getNextEndpoint_nonempty hpos, ?_⟩
    obtain ⟨visits, t, hrun, hfst, hall, hpool, hfail, hidx⟩ :=
      getNextEndpointTimes_spec s.mempoolEndpoints.length s hpos
    refine ⟨visits, t, hrun, ?_, hall, ?_, hpool, hfail⟩
    · rw [hfst]
      exact cursor_cycle_perm _ _
    · rw [hidx hlt, Nat.add_mod_right, Nat.mod_eq_of_lt hlt]

/-- Witness for C9: three endpoints, cursor on the middle one. -/
theorem getNextEndpoint_circular_witness :
    (∃ ep, threeEndpointState.mempoolEndpoints[(threeEndpointState.currentEndpointIndex + 1) %
            threeEndpointState.mempoolEndpoints.length]? = some ep ∧
        getNextEndpoint threeEndpointState = some (ep, { threeEndpointState with
          currentEndpointIndex := (threeEndpointState.currentEndpointIndex + 1) %
            threeEndpointState.mempoolEndpoints.length,
          currentEndpoint := ep })) ∧
    (∃ visits t,
        getNextEndpointTimes threeEndpointState.mempoolEndpoints.length threeEndpointState =
          some (visits, t) ∧
        (visits.map Prod.fst).Perm (List.range threeEndpointState.mempoolEndpoints.length) ∧
        (∀ v ∈ visits, threeEndpointState.mempoolEndpoints[v.1]? = some v.2) ∧
        t.currentEndpointIndex = threeEndpointState.currentEndpointIndex ∧
        t.mempoolEndpoints = threeEndpointState.mempoolEndpoints ∧
        t.endpointFailures = threeEndpointState.endpointFailures) :=
  (getNextEndpoint_circular threeEndpointState).2 (by decide) (by decide)

/-- C10: in a pool of at least two pairwise distinct endpoints, evicting the
endpoint under the cursor completes, drops exactly that endpoint, and makes the
endpoint that followed it in the old pool order the entry under the cursor and
the current endpoint (the one `getCurrentEndpoint` returns); when the evicted
endpoint was the last entry, that is the first endpoint of the pool. -/
theorem removeEndpoint_active_selection (s : PoolState) (e : String)
    (hnd : s.mempoolEndpoints.Nodup) (h2 : 2 ≤ s.mempoolEndpoints.length)
    (hcur : s.mempoolEndpoints[s.currentEndpointIndex]? = some e) :
    ∃ t, removeEndpoint e s = some t ∧
      t.mempoolEndpoints = s.mempoolEndpoints.erase e ∧
      t.mempoolEndpoints[t.currentEndpointIndex]? = some t.currentEndpoint ∧
      (s.currentEndpointIndex + 1 < s.mempoolEndpoints.length →
        s.mempoolEndpoints[s.currentEndpointIndex + 1]? = some t.currentEndpoint) ∧
      (s.currentEndpointIndex + 1 = s.mempoolEndpoints.length →
        s.mempoolEndpoints[0]? = some t.currentEndpoint) ∧
      (∃ u, getCurrentEndpoint t = some (t.currentEndpoint, u)) := by
  obtain ⟨hlt, hget⟩ := List.getElem?_eq_some.mp hcur
  have hi : s.mempoolEndpoints.indexOf e = s.currentEndpointIndex := by
    rw [← hget]
    exact List.indexOf_getElem hnd _ hlt
  have hlen : (s.mempoolEndpoints.eraseIdx s.currentEndpointIndex).length =
      s.mempoolEndpoints.length - 1 := List.length_eraseIdx_of_lt hlt
  have herase : s.mempoolEndpoints.eraseIdx s.currentEndpointIndex =
      s.mempoolEndpoints.erase e := by
    rw [← hi]
    exact List.eraseIdx_indexOf_eq_erase e _
  have hmod : s.currentEndpointIndex %
      (s.mempoolEndpoints.eraseIdx s.currentEndpointIndex).length <
      (s.mempoolEndpoints.eraseIdx s.currentEndpointIndex).length :=
    Nat.mod_lt _ (by omega)
  have hrun : removeEndpoint e s = some { s with
      mempoolEndpoints := s.mempoolEndpoints.eraseIdx s.currentEndpointIndex,
      currentEndpointIndex := s.currentEndpointIndex %
        (s.mempoolEndpoints.eraseIdx s.currentEndpointIndex).length,
      currentEndpoint := (s.mempoolEndpoints.eraseIdx s.currentEndpointIndex)[
        s.currentEndpointIndex %
          (s.mempoolEndpoints.eraseIdx s.currentEndpointIndex).length] } := by
    unfold removeEndpoint
    simp only [hi, if_pos hlt, le_refl, if_true]
    rw [if_neg (by omega)]
    simp only [List.getElem?_eq_getElem hmod]
  refine ⟨_, hrun, herase, List.getElem?_eq_getElem hmod, ?_, ?_, ?_⟩
  · intro hnext
    have hsame : s.currentEndpointIndex %
        (s.mempoolEndpoints.eraseIdx s.currentEndpointIndex).length =
        s.currentEndpointIndex := Nat.mod_eq_of_lt (by omega)
    simp only
    rw [← List.getElem?_eq_getElem hmod, hsame,
      List.getElem?_eraseIdx_of_ge _ _ _ (Nat.le_refl _)]
  · intro hlast
    have hzero : s.currentEndpointIndex %
        (s.mempoolEndpoints.eraseIdx s.currentEndpointIndex).length = 0 := by
      rw [hlen]
      have : s.currentEndpointIndex = s.mempoolEndpoints.length - 1 := by omega
      rw [← this]
      exact Nat.mod_self _
    simp only
    rw [← List.getElem?_eq_getElem hmod, hzero,
      List.getElem?_eraseIdx_of_lt _ _ _ (by omega)]
  · unfold getCurrentEndpoint
    simp only
    split
    · rw [List.getElem?_eq_getElem hmod]
      exact ⟨_, rfl⟩
    · exact ⟨_, rfl⟩

/-- Witness for C10: in `a, b, c` with the cursor on `b`, evicting `b` makes
`c` the current endpoint. -/
theorem removeEndpoint_active_selection_witness :
    ∃ t, removeEndpoint "b.example" threeEndpointState = some t ∧
      t.mempoolEndpoints = threeEndpointState.mempoolEndpoints.erase "b.example" ∧
      t.mempoolEndpoints[t.currentEndpointIndex]? = some t.currentEndpoint ∧
      (threeEndpointState.currentEndpointIndex + 1 < threeEndpointState.mempoolEndpoints.length →
        threeEndpointState.mempoolEndpoints[threeEndpointState.currentEndpointIndex + 1]? =
          some t.currentEndpoint) ∧
      (threeEndpointState.currentEndpointIndex + 1 = threeEndpointState.mempoolEndpoints.length →
        threeEndpointState.mempoolEndpoints[0]? = some t.currentEndpoint) ∧
      (∃ u, getCurrentEndpoint t = some (t.currentEndpoint, u)) :=
  removeEndpoint_active_selection threeEndpointState "b.example" (by decide) (by decide)
    (by decide)

/-! ## History truncation -/

theorem limitTransactions_of_nonneg (txs : List Transaction) {limit : Int} (h : 0 ≤ limit) :
    limitTransactions txs limit = some (txs.take (min limit.toNat txs.length)) := by
  unfold limitTransactions
  by_cases hgt : (txs.length : Int) > limit
  · rw [if_pos hgt, if_neg (by omega)]
    have hmin : min limit.toNat txs.length = limit.toNat := by
      apply Nat.min_eq_left
      omega
    rw [hmin]
  · rw [if_neg hgt]
    have hmin : min limit.toNat txs.length = txs.length := by
      apply Nat.min_eq_right
      omega
    rw [hmin, List.take_length]

/-- C6: when the history request is answered with status 200 and a body that
decodes to the list `txs`, then for every `limit >= 0` the call
`fetchWalletTransactions` returns exactly the first `min(limit, len(txs))`
entries of `txs`, in their order; the result has `min(limit, len(txs))` entries,
so never more than `limit`, and the pool is as `getCurrentEndpoint` left it. -/
theorem fetchWalletTransactions_truncates (net : String → HttpResult (List Transaction))
    (address : String) (limit : Int) (s s0 : PoolState) (endpoint : String)
    (txs : List Transaction) (hlimit : 0 ≤ limit)
    (hcur : getCurrentEndpoint s = some (endpoint, s0)) (hne : endpoint ≠ "")
    (hnet : net ("https://" ++ endpoint ++ "/api/address/" ++ address ++ "/txs") =
      .response 200 (.parsed txs)) :
    fetchWalletTransactions net address limit s =
      some (.ok (txs.take (min limit.toNat txs.length)), s0) ∧
    (txs.take (min limit.toNat txs.length)).length = min limit.toNat txs.length ∧
    ((txs.take (min limit.toNat txs.length)).length : Int) ≤ limit := by
  have hlen : (txs.take (min limit.toNat txs.length)).length = min limit.toNat txs.length := by
    rw [List.length_take]
    omega
  refine ⟨?_, hlen, ?_⟩
  · unfold fetchWalletTransactions
    simp only [hcur, if_neg hne, hnet, ne_eq, not_true_eq_false, if_false,
      limitTransactions_of_nonneg txs hlimit, Option.map_some']
  · rw [hlen]
    omega

/-- Witness for C6: a history of three transactions cut to the first two. -/
theorem fetchWalletTransactions_truncates_witness :
    fetchWalletTransactions historyNet "addr" 2 threeEndpointState =
      some (.ok (threeTxs.take (min (2 : Int).toNat threeTxs.length)), threeEndpointState) ∧
    (threeTxs.take (min (2 : Int).toNat threeTxs.length)).length =
      min (2 : Int).toNat threeTxs.length ∧
    ((threeTxs.take (min (2 : Int).toNat threeTxs.length)).length : Int) ≤ 2 :=
  fetchWalletTransactions_truncates historyNet "addr" 2 threeEndpointState threeEndpointState
    "b.example" threeTxs (by decide) rfl (by decide) rfl

/-! ## Refresh ordering -/

theorem newEndpointsOf_ordered {sorted : List EndpointStatus}
    (h : sorted.Pairwise (fun a b => endpointLess b a = false)) :
    HealthyFirstByLatency (newEndpointsOf sorted) := by
  unfold HealthyFirstByLatency newEndpointsOf
  rw [List.pairwise_append]
  refine ⟨?_, ?_, ?_⟩
  · refine List.Pairwise.imp_of_mem ?_ (h.filter _)
    intro a b ha hb hab
    have haw : a.working = true := by simpa using (List.mem_filter.mp ha).2
    have hbw : b.working = true := by simpa using (List.mem_filter.mp hb).2
    refine ⟨fun _ => haw, fun _ _ => ?_⟩
    unfold endpointLess at hab
    simp [haw, hbw] at hab
    exact hab
  · refine List.Pairwise.imp_of_mem ?_ (h.filter _)
    intro a b _ hb _
    have hbw : b.working = false := by simpa using (List.mem_filter.mp hb).2
    exact ⟨fun hw => by rw [hbw] at hw; exact absurd hw (by decide),
      fun _ hw => by rw [hbw] at hw; exact absurd hw (by decide)⟩
  · intro a ha b hb
    have haw : a.working = true := by simpa using (List.mem_filter.mp ha).2
    have hbw : b.working = false := by simpa using (List.mem_filter.mp hb).2
    exact ⟨fun _ => haw, fun _ hw => by rw [hbw] at hw; exact absurd hw (by decide)⟩

/-- C7: for every pool and every assignment of probe observations to its
positions, the pool after `testAndSortEndpoints` is a permutation of the pool
before it; it is the list of endpoints of a rearrangement of the probe results
in which every healthy entry precedes every unhealthy one and the healthy
entries stand in non-decreasing latency order. The library sort enters through
its contract only. -/
theorem testAndSortEndpoints_sorted
    (sortSlice : List EndpointStatus → List EndpointStatus) (hsort : SortSliceSpec sortSlice)
    (probe : Nat → ProbeResult) (s : PoolState) :
    (testAndSortEndpoints sortSlice probe s).mempoolEndpoints.Perm s.mempoolEndpoints ∧
    ∃ rs : List EndpointStatus,
      rs.Perm (probeAll probe s.mempoolEndpoints) ∧
      (testAndSortEndpoints sortSlice probe s).mempoolEndpoints = rs.map (fun r => r.endpoint) ∧
      HealthyFirstByLatency rs :=
  ⟨testAndSortEndpoints_perm hsort probe s,
   newEndpointsOf (sortSlice (probeAll probe s.mempoolEndpoints)),
   (newEndpointsOf_perm _).trans (hsort _).1, rfl, newEndpointsOf_ordered (hsort _).2⟩

/-- Witness for C7: insertion sort meets the contract; three endpoints probed
as slow, unreachable, fast. -/
theorem testAndSortEndpoints_sorted_witness :
    (testAndSortEndpoints insertionSortSlice sampleProbe
        threeEndpointState).mempoolEndpoints.Perm threeEndpointState.mempoolEndpoints ∧
    ∃ rs : List EndpointStatus,
      rs.Perm (probeAll sampleProbe threeEndpointState.mempoolEndpoints) ∧
      (testAndSortEndpoints insertionSortSlice sampleProbe threeEndpointState).mempoolEndpoints =
        rs.map (fun r => r.endpoint) ∧
      HealthyFirstByLatency rs :=
  testAndSortEndpoints_sorted insertionSortSlice insertionSortSlice_spec sampleProbe
    threeEndpointState

/-! ## Rotation policy -/

theorem getCurrentEndpoint_failures {r : String} {s t : PoolState}
    (h : getCurrentEndpoint s = some (r, t)) : t.endpointFailures = s.endpointFailures := by
  unfold getCurrentEndpoint at h
  split at h
  · split at h
    · exact absurd h (by simp)
    · simp only [Option.some.injEq, Prod.mk.injEq] at h
      rw [← h.2]
  · simp only [Option.some.injEq, Prod.mk.injEq] at h
    rw [← h.2]

theorem getNextEndpoint_failures {r : String} {s t : PoolState}
    (h : getNextEndpoint s = some (r, t)) : t.endpointFailures = s.endpointFailures := by
  unfold getNextEndpoint at h
  split at h
  · simp only [Option.some.injEq, Prod.mk.injEq] at h
    rw [← h.2]
  · simp only at h
    split at h
    · exact absurd h (by simp)
    · simp only [Option.some.injEq, Prod.mk.injEq] at h
      rw [← h.2]

theorem removeEndpoint_failures {e : String} {s t : PoolState}
    (h : removeEndpoint e s = some t) : t.endpointFailures = s.endpointFailures := by
  unfold removeEndpoint at h
  simp only at h
  split at h
  · split at h
    · split at h
      · exact absurd h (by simp)
      · split at h
        · exact absurd h (by simp)
        · simp only [Option.some.injEq] at h
          rw [← h]
    · simp only [Option.some.injEq] at h
      rw [← h]
  · simp only [Option.some.injEq] at h
    rw [← h]

theorem incrementEndpointFailure_failures {e : String} {s t : PoolState}
    (h : incrementEndpointFailure e s = some t) :
    t.endpointFailures = fun k =>
      if k = e then s.endpointFailures k + 1 else s.endpointFailures k := by
  unfold incrementEndpointFailure at h
  by_cases hc : s.endpointFailures e + 1 ≥ 5
  · simp only [if_true, hc] at h
    exact removeEndpoint_failures h
  · simp only [if_true, hc, if_false, Option.some.injEq] at h
    rw [← h]

theorem getNextEndpoint_cursor {r : String} {s t : PoolState}
    (h : getNextEndpoint s = some (r, t)) (hne : s.mempoolEndpoints ≠ []) :
    t.currentEndpointIndex = (s.currentEndpointIndex + 1) % s.mempoolEndpoints.length ∧
    s.mempoolEndpoints[t.currentEndpointIndex]? = some r ∧ t.currentEndpoint = r := by
  obtain ⟨ep, hep, hrun⟩ := getNextEndpoint_nonempty (List.length_pos.mpr hne)
  rw [hrun] at h
  simp only [Option.some.injEq, Prod.mk.injEq] at h
  obtain ⟨rfl, rfl⟩ := h
  exact ⟨rfl, hep, rfl⟩

theorem rotationTrigger_iff (statusCode : Int) (err : Option String) :
    rotationTrigger statusCode err = true ↔
      (statusCode = 429 ∨ statusCode ≥ 500 ∨
        ∃ msg, err = some msg ∧
          ("timeout".data <:+: msg.data ∨ "connection refused".data <:+: msg.data)) := by
  unfold rotationTrigger stringsContains
  cases err with
  | none => simp
  | some msg => simp [or_assoc]

theorem rotateEndpointIfNeeded_completes (statusCode : Int) (err : Option String)
    {s : PoolState} (hinv : PoolInv s) (h2 : 2 ≤ s.mempoolEndpoints.length) :
    ∃ r t, rotateEndpointIfNeeded statusCode err s = some (r, t) := by
  unfold rotateEndpointIfNeeded
  split
  · have hne : s.mempoolEndpoints ≠ [] := by
      intro h0
      rw [h0] at h2
      simp at h2
    obtain ⟨old, s1, h1, hmem⟩ := getCurrentEndpoint_mem hinv hne
    have hpool1 : s1.mempoolEndpoints = s.mempoolEndpoints := by
      unfold getCurrentEndpoint at h1
      split at h1
      · split at h1
        · exact absurd h1 (by simp)
        · simp only [Option.some.injEq, Prod.mk.injEq] at h1
          rw [← h1.2]
      · simp only [Option.some.injEq, Prod.mk.injEq] at h1
        rw [← h1.2]
    have hinc : ∃ s2, incrementEndpointFailure old s1 = some s2 := by
      unfold incrementEndpointFailure
      by_cases hc : s1.endpointFailures old + 1 ≥ 5
      · obtain ⟨t, ht, -, -⟩ := removeEndpoint_of_mem
          (s := { s1 with endpointFailures := fun k =>
            if k = old then s1.endpointFailures k + 1 else s1.endpointFailures k })
          (by rw [hpool1]; exact h2) (by rw [hpool1]; exact hmem)
        simp only [if_true, hc]
        exact ⟨t, ht⟩
      · simp only [if_true, hc, if_false]
        exact ⟨_, rfl⟩
    obtain ⟨s2, hs2⟩ := hinc
    have hnext : ∃ new s3, getNextEndpoint s2 = some (new, s3) := by
      by_cases hnil : s2.mempoolEndpoints = []
      · refine ⟨"", s2, ?_⟩
        unfold getNextEndpoint
        rw [if_pos (by rw [hnil]; rfl)]
      · obtain ⟨r, t, hr, -⟩ := getNextEndpoint_mem hnil
        exact ⟨r, t, hr⟩
    obtain ⟨new, s3, hs3⟩ := hnext
    simp only [h1, hs2, hs3]
    split
    · exact ⟨_, _, rfl⟩
    · exact ⟨_, _, rfl⟩
  · exact ⟨_, _, rfl⟩

/-- C8: `rotateEndpointIfNeeded(statusCode, err)` touches the pool exactly when
`statusCode == 429`, or `statusCode >= 500`, or `err` is non-nil and its message
contains `timeout` or `connection refused`. In every other case it returns
false and the state is unchanged (endpoint list, cursor, current endpoint and
all failure counters). In the triggering case every completed call has recorded
one failure against the endpoint `getCurrentEndpoint` returned (that counter is
one higher, no other counter changed, so the state differs) and has then moved
the cursor with `getNextEndpoint`, to `(c + 1) mod n` for the cursor `c` and the
length `n` of the pool at that point. The call completes in every state that
keeps the pool invariant and holds at least two endpoints. -/
theorem rotateEndpointIfNeeded_policy (statusCode : Int) (err : Option String)
    (s : PoolState) :
    (PoolInv s → 2 ≤ s.mempoolEndpoints.length →
      ∃ r t, rotateEndpointIfNeeded statusCode err s = some (r, t)) ∧
    (¬ (statusCode = 429 ∨ statusCode ≥ 500 ∨
        ∃ msg, err = some msg ∧
          ("timeout".data <:+: msg.data ∨ "connection refused".data <:+: msg.data)) →
      rotateEndpointIfNeeded statusCode err s = some (false, s)) ∧
    ((statusCode = 429 ∨ statusCode ≥ 500 ∨
        ∃ msg, err = some msg ∧
          ("timeout".data <:+: msg.data ∨ "connection refused".data <:+: msg.data)) →
      ∀ r t, rotateEndpointIfNeeded statusCode err s = some (r, t) →
        t.endpointFailures ≠ s.endpointFailures ∧
        ∃ oldEndpoint s1 s2 newEndpoint,
          getCurrentEndpoint s = some (oldEndpoint, s1) ∧
          incrementEndpointFailure oldEndpoint s1 = some s2 ∧
          getNextEndpoint s2 = some (newEndpoint, t) ∧
          t.endpointFailures oldEndpoint = s.endpointFailures oldEndpoint + 1 ∧
          (∀ k, k ≠ oldEndpoint → t.endpointFailures k = s.endpointFailures k) ∧
          (s2.mempoolEndpoints ≠ [] →
            t.currentEndpointIndex =
              (s2.currentEndpointIndex + 1) % s2.mempoolEndpoints.length ∧
            t.currentEndpoint = newEndpoint) ∧
          r = decide (oldEndpoint ≠ newEndpoint)) := by
  rw [← rotationTrigger_iff]
  refine ⟨fun hinv h2 => rotateEndpointIfNeeded_completes statusCode err hinv h2,
    fun hno => ?_, fun hyes r t h => ?_⟩
  · unfold rotateEndpointIfNeeded
    rw [if_neg hno]
  · unfold rotateEndpointIfNeeded at h
    rw [if_pos hyes] at h
    split at h
    · exact absurd h (by simp)
    · rename_i old s1 h1
      split at h
      · exact absurd h (by simp)
      · rename_i s2 h2
        split at h
        · exact absurd h (by simp)
        · rename_i new s3 h3
          have hst : s3 = t ∧ r = decide (old ≠ new) := by
            split at h
            · rename_i hne
              simp only [Option.some.injEq, Prod.mk.injEq] at h
              exact ⟨h.2, by rw [← h.1]; exact (decide_eq_true hne).symm⟩
            · rename_i hne
              simp only [Option.some.injEq, Prod.mk.injEq] at h
              exact ⟨h.2, by rw [← h.1]; exact (decide_eq_false hne).symm⟩
          obtain ⟨rfl, hr⟩ := hst
          have hf : s3.endpointFailures = fun k =>
              if k = old then s.endpointFailures k + 1 else s.endpointFailures k := by
            rw [getNextEndpoint_failures h3, incrementEndpointFailure_failures h2,
              getCurrentEndpoint_failures h1]
          have hold : s3.endpointFailures old = s.endpointFailures old + 1 := by
            rw [hf]
            simp only [if_true]
          refine ⟨fun heq => ?_, old, s1, s2, new, h1, h2, h3, hold, fun k hk => ?_,
            fun hne => ?_, hr⟩
          · rw [heq] at hold
            omega
          · rw [hf]
            simp only [if_neg hk]
          · have hc := getNextEndpoint_cursor h3 hne
            exact ⟨hc.1, hc.2.2⟩

/-- Witness for C8: a 404 answer leaves the three-endpoint pool unchanged; a
429 answer records a failure against `b.example` and moves the cursor on to
`c.example`. -/
theorem rotateEndpointIfNeeded_policy_witness :
    (∃ r t, rotateEndpointIfNeeded 429 none threeEndpointState = some (r, t)) ∧
    rotateEndpointIfNeeded 404 none threeEndpointState = some (false, threeEndpointState) ∧
    rotateEndpointIfNeeded 429 none threeEndpointState = some (true, rateLimitedState) ∧
    rateLimitedState.endpointFailures ≠ threeEndpointState.endpointFailures ∧
    ∃ oldEndpoint s1 s2 newEndpoint,
      getCurrentEndpoint threeEndpointState = some (oldEndpoint, s1) ∧
      incrementEndpointFailure oldEndpoint s1 = some s2 ∧
      getNextEndpoint s2 = some (newEndpoint, rateLimitedState) ∧
      rateLimitedState.endpointFailures oldEndpoint =
        threeEndpointState.endpointFailures oldEndpoint + 1 ∧
      (∀ k, k ≠ oldEndpoint →
        rateLimitedState.endpointFailures k = threeEndpointState.endpointFailures k) ∧
      (s2.mempoolEndpoints ≠ [] →
        rateLimitedState.currentEndpointIndex =
          (s2.currentEndpointIndex + 1) % s2.mempoolEndpoints.length ∧
        rateLimitedState.currentEndpoint = newEndpoint) ∧
      true = decide (oldEndpoint ≠ newEndpoint) :=
  ⟨(rotateEndpointIfNeeded_policy 429 none threeEndpointState).1
    ⟨by decide, fun _ => by decide, Or.inr rfl⟩ (by decide),
   (rotateEndpointIfNeeded_policy 404 none threeEndpointState).2.1 (by
    rintro (h | h | ⟨msg, h, -⟩)
    · exact absurd h (by decide)
    · exact absurd h (by decide)
    · exact Option.noConfusion h),
   rfl,
   (rotateEndpointIfNeeded_policy 429 none threeEndpointState).2.2 (Or.inl rfl) true
     rateLimitedState rfl⟩

/-! ## Scanner counters -/

/-- C4 (as stated, refuted): in a pass with four derived addresses whose four
fetches all succeed (status history `active`, `idle` four times, no error
recorded), `WalletsChecked` goes from 0 to 1, not to 4; in a pass whose four
fetches all fail with status 404 it also goes from 0 to 1, not to 0. -/
theorem walletsChecked_not_per_address :
    (collectAddresses (some "a32") (some "a44") (some "a49") (some "a84")).length = 4 ∧
    (scanWalletInstanceIteration "seed words" (some "a32") (some "a44") (some "a49")
        (some "a84") quietEnv freshWorker).map WorkerState.summary =
      some (1, 0, ["idle", "active", "idle", "active", "idle", "active", "idle",
        "active", "idle"], []) ∧
    (scanWalletInstanceIteration "seed words" (some "a32") (some "a44") (some "a49")
        (some "a84") notFoundEnv freshWorker).map
        (fun w => (w.stats.WalletsChecked, w.status.LastError,
          w.pool.endpointFailures "mempool.space")) =
      some (1, "Error: API returned status code 404", 4) := by
  decide

theorem checkAddress_walletsChecked {seedPhrase : String} {addrInfo : AddrInfo} {env : AddrEnv}
    {w w1 : WorkerState} (h : checkAddress seedPhrase addrInfo env w = some w1) :
    w1.stats.WalletsChecked = w.stats.WalletsChecked := by
  unfold checkAddress at h
  split at h
  · exact absurd h (by simp)
  · simp only at h
    split at h
    · exact absurd h (by simp)
    · simp only [Option.some.injEq] at h
      rw [← h]
      rfl
    · split at h
      · simp only [Option.some.injEq] at h
        rw [← h]
        split <;> rfl
      · simp only [Option.some.injEq] at h
        rw [← h]
        rfl

theorem checkAddresses_walletsChecked (seedPhrase : String) (env : Nat → AddrEnv) :
    ∀ (addresses : List AddrInfo) (k : Nat) {w w1 : WorkerState},
      checkAddresses seedPhrase env addresses k w = some w1 →
      w1.stats.WalletsChecked = w.stats.WalletsChecked
  | [], _, w, w1, h => by
    simp only [checkAddresses, Option.some.injEq] at h
    rw [← h]
  | addrInfo :: rest, k, w, w1, h => by
    simp only [checkAddresses] at h
    split at h
    · exact absurd h (by simp)
    · rename_i w2 h2
      rw [checkAddresses_walletsChecked seedPhrase env rest (k + 1) h,
        checkAddress_walletsChecked h2]

/-- C4 (amended): every completed pass of the scanner worker raises
`WalletsChecked` by exactly one, once per generated mnemonic, whatever the
number of derived addresses and whether their fetches succeed or fail. -/
theorem walletsChecked_once_per_mnemonic (seedPhrase : String)
    (bip32Addr bip44Addr bip49Addr bip84Addr : Option String) (env : Nat → AddrEnv)
    (w w1 : WorkerState)
    (h : scanWalletInstanceIteration seedPhrase bip32Addr bip44Addr bip49Addr bip84Addr env w =
      some w1) :
    w1.stats.WalletsChecked = w.stats.WalletsChecked + 1 := by
  unfold scanWalletInstanceIteration at h
  rw [checkAddresses_walletsChecked seedPhrase env _ 0 h]
  rfl

/-- Witness for C4: the pass with four successful fetches. -/
theorem walletsChecked_once_per_mnemonic_witness :
    quietPassResult.stats.WalletsChecked = freshWorker.stats.WalletsChecked + 1 :=
  walletsChecked_once_per_mnemonic "seed words" (some "a32") (some "a44") (some "a49")
    (some "a84") quietEnv freshWorker quietPassResult rfl

/-! ## Hit condition -/

theorem calculateBalance_pos_iff (data : WalletData) :
    (calculateBalance data).1 > 0 ↔ (calculateBalance data).2.TotalBalanceSats > 0 := by
  simp only [calculateBalance, gt_iff_lt]
  rw [Rat.mkRat_eq_div]
  constructor
  · intro h
    have h1 := (div_pos_iff_of_pos_right (by norm_num : (0 : ℚ) < ((100000000 : ℕ) : ℚ))).mp h
    exact_mod_cast h1
  · intro h
    apply div_pos
    · exact_mod_cast h
    · norm_num

/-- C5 (as stated, refuted): the fetch for `sampleAddr` succeeds with a report
of 500000000 satoshis and one transaction, `ActiveWalletsFound` goes from 0 to 1
and the status passes through `success`, but the log file cannot be opened and
no record is appended. -/
theorem hit_without_record :
    (calculateBalance fundedWallet).2.TotalBalanceSats = 500000000 ∧
    (calculateBalance fundedWallet).2.TxCount = 1 ∧
    (fetchWalletData fundedNoLogEnv.net sampleAddr.address selectedPool).map (fun r => r.1) =
      some (.ok fundedWallet) ∧
    (checkAddress "seed words" sampleAddr fundedNoLogEnv freshWorker).map WorkerState.summary =
      some (0, 1, ["idle", "active", "success", "idle"], []) :=
  ⟨by decide, by decide, rfl, by decide⟩

/-- C5 (amended): for every address whose balance fetch succeeds, the check
completes and leaves `WalletsChecked` alone; if the total balance in satoshis
or the transaction count computed by `calculateBalance` is positive, then
`ActiveWalletsFound` grows by exactly one, the status goes `active`, `success`,
`idle`, and the record of the hit is appended when the log file could be opened
(nothing is appended otherwise); if neither is positive, `ActiveWalletsFound`
and the log are unchanged and the status goes `active`, `idle`. -/
theorem checkAddress_hit_iff (seedPhrase : String) (addrInfo : AddrInfo) (env : AddrEnv)
    (w : WorkerState) (endpoint : String) (pool1 pool2 : PoolState) (data : WalletData)
    (hcur : getCurrentEndpoint w.pool = some (endpoint, pool1))
    (hfetch : fetchWalletData env.net addrInfo.address pool1 = some (.ok data, pool2)) :
    ∃ w1, checkAddress seedPhrase addrInfo env w = some w1 ∧
      w1.stats.WalletsChecked = w.stats.WalletsChecked ∧
      (((calculateBalance data).2.TotalBalanceSats > 0 ∨ (calculateBalance data).2.TxCount > 0) →
        w1.stats.ActiveWalletsFound = w.stats.ActiveWalletsFound + 1 ∧
        w1.statusLog = w.statusLog ++ ["active", "success", "idle"] ∧
        (env.appendOk = true → w1.csv = w.csv ++ [hitRecord seedPhrase addrInfo env data]) ∧
        (env.appendOk = false → w1.csv = w.csv)) ∧
      (¬ ((calculateBalance data).2.TotalBalanceSats > 0 ∨
          (calculateBalance data).2.TxCount > 0) →
        w1.stats.ActiveWalletsFound = w.stats.ActiveWalletsFound ∧
        w1.statusLog = w.statusLog ++ ["active", "idle"] ∧
        w1.csv = w.csv) := by
  unfold checkAddress
  simp only [hcur, WorkerState.setStatus, hfetch, calculateBalance_pos_iff]
  by_cases hhit : (calculateBalance data).2.TotalBalanceSats > 0 ∨
      (calculateBalance data).2.TxCount > 0
  · rw [if_pos hhit]
    refine ⟨_, rfl, ?_, fun _ => ⟨?_, ?_, fun hok => ?_, fun hno => ?_⟩,
      fun hnot => absurd hhit hnot⟩
    · split <;> rfl
    · split <;> rfl
    · split <;> simp [InstanceStatus.Update]
    · simp only [hok, if_true, hitRecord]
    · simp only [hno, Bool.false_eq_true, if_false]
  · rw [if_neg hhit]
    refine ⟨_, rfl, rfl, fun h => absurd h hhit, fun _ => ⟨rfl, ?_, rfl⟩⟩
    simp [InstanceStatus.Update]

/-- Witness for C5: a funded report, the log file opening. -/
theorem checkAddress_hit_iff_witness :
    ∃ w1, checkAddress "seed words" sampleAddr fundedEnv freshWorker = some w1 ∧
      w1.stats.WalletsChecked = freshWorker.stats.WalletsChecked ∧
      (((calculateBalance fundedWallet).2.TotalBalanceSats > 0 ∨
          (calculateBalance fundedWallet).2.TxCount > 0) →
        w1.stats.ActiveWalletsFound = freshWorker.stats.ActiveWalletsFound + 1 ∧
        w1.statusLog = freshWorker.statusLog ++ ["active", "success", "idle"] ∧
        (fundedEnv.appendOk = true →
          w1.csv = freshWorker.csv ++ [hitRecord "seed words" sampleAddr fundedEnv fundedWallet]) ∧
        (fundedEnv.appendOk = false → w1.csv = freshWorker.csv)) ∧
      (¬ ((calculateBalance fundedWallet).2.TotalBalanceSats > 0 ∨
          (calculateBalance fundedWallet).2.TxCount > 0) →
        w1.stats.ActiveWalletsFound = freshWorker.stats.ActiveWalletsFound ∧
        w1.statusLog = freshWorker.statusLog ++ ["active", "idle"] ∧
        w1.csv = freshWorker.csv) :=
  checkAddress_hit_iff "seed words" sampleAddr fundedEnv freshWorker "mempool.space"
    selectedPool selectedPool fundedWallet rfl rfl

/-! ## Derivation paths -/

theorem wrapErr_bind_ok {α β : Type} (msg : String) (e : Except String α)
    (f : α → Except String β) (b : β) :
    (wrapErr msg e >>= f) = .ok b ↔ ∃ a, e = .ok a ∧ f a = .ok b := by
  cases e with
  | error err => simp [wrapErr, bind, Except.bind]
  | ok a => simp [wrapErr, bind, Except.bind]

theorem wrapErr_ok {α : Type} (msg : String) (e : Except String α) (a : α) :
    wrapErr msg e = .ok a ↔ e = .ok a := by
  cases e with
  | error err => simp [wrapErr]
  | ok a => simp [wrapErr]

theorem bind_ok {α β : Type} (e : Except String α) (f : α → Except String β) (b : β) :
    (e >>= f) = .ok b ↔ ∃ a, e = .ok a ∧ f a = .ok b := by
  cases e with
  | error err => simp [bind, Except.bind]
  | ok a => simp [bind, Except.bind]

theorem walkPath_cons_ok {Key PubKey : Type} (lib : KeyLib Key PubKey) (key : Key)
    (child : Nat) (rest : List Nat) (node : Key) :
    walkPath lib key (child :: rest) = .ok node ↔
      ∃ next, lib.Derive key child = .ok next ∧ walkPath lib next rest = .ok node := by
  simp only [walkPath]
  cases lib.Derive key child with
  | error err => simp
  | ok next => simp

theorem walkPath_nil_ok {Key PubKey : Type} (lib : KeyLib Key PubKey) (key node : Key) :
    walkPath lib key [] = .ok node ↔ key = node := by
  simp [walkPath]

theorem derivePurposePubKey_ok_iff {Key PubKey : Type} (lib : KeyLib Key PubKey)
    (purposeNumber : Nat) (seed : Bytes) (account change index : Int) (pub : PubKey) :
    derivePurposePubKey lib purposeNumber seed account change index = .ok pub ↔
      ∃ masterKey node, lib.NewMaster seed = .ok masterKey ∧
        walkPath lib masterKey
          [addUint32 HardenedKeyStart purposeNumber, addUint32 HardenedKeyStart 0,
           addUint32 HardenedKeyStart (toUint32 account), toUint32 change, toUint32 index] =
          .ok node ∧
        lib.ECPubKey node = .ok pub := by
  unfold derivePurposePubKey
  simp only [wrapErr_bind_ok, wrapErr_ok, walkPath_cons_ok, walkPath_nil_ok]
  constructor
  · rintro ⟨m, hm, k1, h1, k2, h2, k3, h3, k4, h4, k5, h5, hp⟩
    exact ⟨m, k5, hm, ⟨k1, h1, k2, h2, k3, h3, k4, h4, k5, h5, rfl⟩, hp⟩
  · rintro ⟨m, node, hm, ⟨k1, h1, k2, h2, k3, h3, k4, h4, k5, h5, rfl⟩, hp⟩
    exact ⟨m, hm, k1, h1, k2, h2, k3, h3, k4, h4, k5, h5, hp⟩

theorem deriveBip32Address_ok_iff {Key PubKey : Type} (lib : KeyLib Key PubKey)
    (seed : Bytes) (index : Int) (addr : String) :
    deriveBip32Address lib seed index = .ok addr ↔
      ∃ masterKey node pub, lib.NewMaster seed = .ok masterKey ∧
        walkPath lib masterKey [addUint32 HardenedKeyStart 0, 0, toUint32 index] = .ok node ∧
        lib.ECPubKey node = .ok pub ∧
        lib.NewAddressPubKey (lib.SerializeCompressed pub) = .ok addr := by
  unfold deriveBip32Address
  simp only [wrapErr_bind_ok, wrapErr_ok, walkPath_cons_ok, walkPath_nil_ok]
  constructor
  · rintro ⟨m, hm, k1, h1, k2, h2, k3, h3, pub, hp, ha⟩
    exact ⟨m, k3, pub, hm, ⟨k1, h1, k2, h2, k3, h3, rfl⟩, hp, ha⟩
  · rintro ⟨m, node, pub, hm, ⟨k1, h1, k2, h2, k3, h3, rfl⟩, hp, ha⟩
    exact ⟨m, hm, k1, h1, k2, h2, k3, h3, pub, hp, ha⟩

theorem deriveBip44Address_ok_iff {Key PubKey : Type} (lib : KeyLib Key PubKey)
    (seed : Bytes) (account change index : Int) (addr : String) :
    deriveBip44Address lib seed account change index = .ok addr ↔
      ∃ pub, derivePurposePubKey lib 44 seed account change index = .ok pub ∧
        lib.NewAddressPubKey (lib.SerializeCompressed pub) = .ok addr := by
  unfold deriveBip44Address
  simp only [bind_ok, wrapErr_ok]

theorem deriveBip49Address_ok_iff {Key PubKey : Type} (lib : KeyLib Key PubKey)
    (seed : Bytes) (account change index : Int) (addr : String) :
    deriveBip49Address lib seed account change index = .ok addr ↔
      ∃ pub, derivePurposePubKey lib 49 seed account change index = .ok pub ∧
        NewAddressScriptHash lib
          (hash160 lib ([0x00, 0x14] ++ hash160 lib (lib.SerializeCompressed pub))) =
          .ok addr := by
  unfold deriveBip49Address
  simp only [bind_ok, wrapErr_ok]

theorem deriveBip84Address_ok_iff {Key PubKey : Type} (lib : KeyLib Key PubKey)
    (seed : Bytes) (account change index : Int) (addr : String) :
    deriveBip84Address lib seed account change index = .ok addr ↔
      ∃ pub, derivePurposePubKey lib 84 seed account change index = .ok pub ∧
        lib.NewAddressWitnessPubKeyHash (hash160 lib (lib.SerializeCompressed pub)) =
          .ok addr := by
  unfold deriveBip84Address
  simp only [bind_ok, wrapErr_ok]

theorem toUint32_of_lt {n : Nat} (h : n < 4294967296) : toUint32 (n : Int) = n := by
  unfold toUint32
  omega

theorem addUint32_hardened_of_lt {n : Nat} (h : n < 2147483648) :
    addUint32 HardenedKeyStart n = 2147483648 + n := by
  unfold addUint32 HardenedKeyStart
  omega

theorem addUint32_hardened_of_ge {n : Nat} (h1 : 2147483648 ≤ n) (h2 : n < 4294967296) :
    addUint32 HardenedKeyStart n = n - 2147483648 := by
  unfold addUint32 HardenedKeyStart
  omega

theorem derivePurposePubKey_canonical {Key PubKey : Type} (lib : KeyLib Key PubKey)
    (purposeNumber : Nat) (hp : purposeNumber < 2147483648) (seed : Bytes)
    (account change index : Nat) (ha : account < 2147483648) (hc : change < 2147483648)
    (hi : index < 2147483648) (pub : PubKey) :
    derivePurposePubKey lib purposeNumber seed account change index = .ok pub ↔
      ∃ masterKey node, lib.NewMaster seed = .ok masterKey ∧
        walkPath lib masterKey (canonicalPurposePath purposeNumber account change index) =
          .ok node ∧
        lib.ECPubKey node = .ok pub := by
  rw [derivePurposePubKey_ok_iff, toUint32_of_lt (by omega : account < 4294967296),
    toUint32_of_lt (by omega : change < 4294967296),
    toUint32_of_lt (by omega : index < 4294967296), addUint32_hardened_of_lt hp,
    addUint32_hardened_of_lt ha, addUint32_hardened_of_lt (by omega : 0 < 2147483648)]
  rfl

/-- C13: for account, change and index below `2^31`, each derivation function
returns an address exactly when the master key exists, the walk along its
canonical path succeeds and the address can be built from the public key of the
last node, and then returns that address. The paths are `2^31+0, 0, index` for
`deriveBip32Address` and `2^31+P, 2^31+0, 2^31+account, change, index` with
`P = 44, 49, 84` for `deriveBip44Address`, `deriveBip49Address` and
`deriveBip84Address`, applied in that order. -/
theorem derivation_walks_canonical_path {Key PubKey : Type} (lib : KeyLib Key PubKey)
    (seed : Bytes) (account change index : Nat) (ha : account < 2147483648)
    (hc : change < 2147483648) (hi : index < 2147483648) (addr : String) :
    (deriveBip32Address lib seed index = .ok addr ↔
      ∃ masterKey node pub, lib.NewMaster seed = .ok masterKey ∧
        walkPath lib masterKey (canonicalBip32Path index) = .ok node ∧
        lib.ECPubKey node = .ok pub ∧
        lib.NewAddressPubKey (lib.SerializeCompressed pub) = .ok addr) ∧
    (deriveBip44Address lib seed account change index = .ok addr ↔
      ∃ masterKey node pub, lib.NewMaster seed = .ok masterKey ∧
        walkPath lib masterKey (canonicalPurposePath 44 account change index) = .ok node ∧
        lib.ECPubKey node = .ok pub ∧
        lib.NewAddressPubKey (lib.SerializeCompressed pub) = .ok addr) ∧
    (deriveBip49Address lib seed account change index = .ok addr ↔
      ∃ masterKey node pub, lib.NewMaster seed = .ok masterKey ∧
        walkPath lib masterKey (canonicalPurposePath 49 account change index) = .ok node ∧
        lib.ECPubKey node = .ok pub ∧
        NewAddressScriptHash lib
          (hash160 lib ([0x00, 0x14] ++ hash160 lib (lib.SerializeCompressed pub))) =
          .ok addr) ∧
    (deriveBip84Address lib seed account change index = .ok addr ↔
      ∃ masterKey node pub, lib.NewMaster seed = .ok masterKey ∧
        walkPath lib masterKey (canonicalPurposePath 84 account change index) = .ok node ∧
        lib.ECPubKey node = .ok pub ∧
        lib.NewAddressWitnessPubKeyHash (hash160 lib (lib.SerializeCompressed pub)) =
          .ok addr) := by
  refine ⟨?_, ?_, ?_, ?_⟩
  · rw [deriveBip32Address_ok_iff, toUint32_of_lt (by omega : index < 4294967296),
      addUint32_hardened_of_lt (by omega : 0 < 2147483648)]
    rfl
  · rw [deriveBip44Address_ok_iff]
    simp only [derivePurposePubKey_canonical lib 44 (by omega) seed account change index
      ha hc hi]
    constructor
    · rintro ⟨pub, ⟨m, node, hm, hw, hp⟩, haddr⟩
      exact ⟨m, node, pub, hm, hw, hp, haddr⟩
    · rintro ⟨m, node, pub, hm, hw, hp, haddr⟩
      exact ⟨pub, ⟨m, node, hm, hw, hp⟩, haddr⟩
  · rw [deriveBip49Address_ok_iff]
    simp only [derivePurposePubKey_canonical lib 49 (by omega) seed account change index
      ha hc hi]
    constructor
    · rintro ⟨pub, ⟨m, node, hm, hw, hp⟩, haddr⟩
      exact ⟨m, node, pub, hm, hw, hp, haddr⟩
    · rintro ⟨m, node, pub, hm, hw, hp, haddr⟩
      exact ⟨pub, ⟨m, node, hm, hw, hp⟩, haddr⟩
  · rw [deriveBip84Address_ok_iff]
    simp only [derivePurposePubKey_canonical lib 84 (by omega) seed account change index
      ha hc hi]
    constructor
    · rintro ⟨pub, ⟨m, node, hm, hw, hp⟩, haddr⟩
      exact ⟨m, node, pub, hm, hw, hp, haddr⟩
    · rintro ⟨m, node, pub, hm, hw, hp, haddr⟩
      exact ⟨pub, ⟨m, node, hm, hw, hp⟩, haddr⟩

/-- Witness for C13: the toy library, account 0, change 1, index 5. -/
theorem derivation_walks_canonical_path_witness :
    (deriveBip32Address (toyLib []) [] ((5 : Nat) : Int) = .ok "1yaf" ↔
      ∃ masterKey node pub, (toyLib []).NewMaster [] = .ok masterKey ∧
        walkPath (toyLib []) masterKey (canonicalBip32Path 5) = .ok node ∧
        (toyLib []).ECPubKey node = .ok pub ∧
        (toyLib []).NewAddressPubKey ((toyLib []).SerializeCompressed pub) = .ok "1yaf") ∧
    (deriveBip44Address (toyLib []) [] ((0 : Nat) : Int) ((1 : Nat) : Int) ((5 : Nat) : Int) =
        .ok "1yaf" ↔
      ∃ masterKey node pub, (toyLib []).NewMaster [] = .ok masterKey ∧
        walkPath (toyLib []) masterKey (canonicalPurposePath 44 0 1 5) = .ok node ∧
        (toyLib []).ECPubKey node = .ok pub ∧
        (toyLib []).NewAddressPubKey ((toyLib []).SerializeCompressed pub) = .ok "1yaf") ∧
    (deriveBip49Address (toyLib []) [] ((0 : Nat) : Int) ((1 : Nat) : Int) ((5 : Nat) : Int) =
        .ok "1yaf" ↔
      ∃ masterKey node pub, (toyLib []).NewMaster [] = .ok masterKey ∧
        walkPath (toyLib []) masterKey (canonicalPurposePath 49 0 1 5) = .ok node ∧
        (toyLib []).ECPubKey node = .ok pub ∧
        NewAddressScriptHash (toyLib [])
          (hash160 (toyLib []) ([0x00, 0x14] ++
            hash160 (toyLib []) ((toyLib []).SerializeCompressed pub))) = .ok "1yaf") ∧
    (deriveBip84Address (toyLib []) [] ((0 : Nat) : Int) ((1 : Nat) : Int) ((5 : Nat) : Int) =
        .ok "1yaf" ↔
      ∃ masterKey node pub, (toyLib []).NewMaster [] = .ok masterKey ∧
        walkPath (toyLib []) masterKey (canonicalPurposePath 84 0 1 5) = .ok node ∧
        (toyLib []).ECPubKey node = .ok pub ∧
        (toyLib []).NewAddressWitnessPubKeyHash
          (hash160 (toyLib []) ((toyLib []).SerializeCompressed pub)) = .ok "1yaf") :=
  derivation_walks_canonical_path (toyLib []) [] 0 1 5 (by decide) (by decide) (by decide)
    "1yaf"

/-! ## Script hash of the wrapped SegWit address -/

/-- C14 (the code at the failing input): `deriveBip49Address` returns the
pay-to-script-hash encoding of HASH160 applied twice to the redeem script
`0x00 0x14 || HASH160(public key)`: once in the source and once more inside
`btcutil.NewAddressScriptHash`. With the toy library (SHA-256 prepends 1,
RIPEMD-160 prepends 2) the path `m/49'/0'/0'/0/0` gives the address built from
`2 1 2 1 0 20 ...`, while the encoding of the script hashed once is built from
`2 1 0 20 ...`. -/
theorem deriveBip49Address_hashes_script_twice :
    (∀ (Key PubKey : Type) (lib : KeyLib Key PubKey) (seed : Bytes)
        (account change index : Int) (addr : String),
      deriveBip49Address lib seed account change index = .ok addr ↔
        ∃ pub, derivePurposePubKey lib 49 seed account change index = .ok pub ∧
          lib.NewAddressScriptHashFromHash
            (hash160 lib (hash160 lib
              ([0x00, 0x14] ++ hash160 lib (lib.SerializeCompressed pub)))) = .ok addr) ∧
    deriveBip49Address (toyLib []) [] 0 0 0 = .ok "3cbcbaucbvyyaa" ∧
    (toyLib []).NewAddressScriptHashFromHash
      (hash160 (toyLib []) ([0x00, 0x14] ++
        hash160 (toyLib []) [2147483697, 2147483648, 2147483648, 0, 0])) =
      .ok "3cbaucbvyyaa" :=
  ⟨fun _ _ lib seed account change index addr =>
    deriveBip49Address_ok_iff lib seed account change index addr, rfl, rfl⟩

/-! ## Hardened offset beyond the 32-bit range -/

/-- C15 (as stated, refuted): with account `2^31` the sum of the hardened offset
and the account wraps to child number 0, nothing reports an overflow, and with
a library whose calls all succeed the three functions return an address. -/
theorem hardened_overflow_not_reported :
    addUint32 HardenedKeyStart (toUint32 2147483648) = 0 ∧
    deriveBip44Address (toyLib []) [] 2147483648 0 0 = .ok "1qyaaa" ∧
    deriveBip49Address (toyLib []) [] 2147483648 0 0 = .ok "3cbcbaucbvyaaa" ∧
    deriveBip84Address (toyLib []) [] 2147483648 0 0 = .ok "qcbeyaaa" :=
  ⟨by decide, rfl, rfl, rfl⟩

/-- C15 (amended): for every account with `2^31 <= account < 2^32` (and change,
index below `2^31`) the hardened offset wraps modulo `2^32`: the three
functions walk `2^31+P, 2^31+0, account - 2^31, change, index`, with the
non-hardened child `account - 2^31` at the account level, and return an
address exactly when every library call on that walk succeeds; no overflow is
reported. -/
theorem hardened_overflow_wraps {Key PubKey : Type} (lib : KeyLib Key PubKey)
    (seed : Bytes) (account change index : Nat) (ha1 : 2147483648 ≤ account)
    (ha2 : account < 4294967296) (hc : change < 2147483648) (hi : index < 2147483648)
    (addr : String) :
    (deriveBip44Address lib seed account change index = .ok addr ↔
      ∃ masterKey node pub, lib.NewMaster seed = .ok masterKey ∧
        walkPath lib masterKey
          [2147483648 + 44, 2147483648 + 0, account - 2147483648, change, index] = .ok node ∧
        lib.ECPubKey node = .ok pub ∧
        lib.NewAddressPubKey (lib.SerializeCompressed pub) = .ok addr) ∧
    (deriveBip49Address lib seed account change index = .ok addr ↔
      ∃ masterKey node pub, lib.NewMaster seed = .ok masterKey ∧
        walkPath lib masterKey
          [2147483648 + 49, 2147483648 + 0, account - 2147483648, change, index] = .ok node ∧
        lib.ECPubKey node = .ok pub ∧
        NewAddressScriptHash lib
          (hash160 lib ([0x00, 0x14] ++ hash160 lib (lib.SerializeCompressed pub))) =
          .ok addr) ∧
    (deriveBip84Address lib seed account change index = .ok addr ↔
      ∃ masterKey node pub, lib.NewMaster seed = .ok masterKey ∧
        walkPath lib masterKey
          [2147483648 + 84, 2147483648 + 0, account - 2147483648, change, index] = .ok node ∧
        lib.ECPubKey node = .ok pub ∧
        lib.NewAddressWitnessPubKeyHash (hash160 lib (lib.SerializeCompressed pub)) =
          .ok addr) := by
  have hwalk : ∀ (purposeNumber : Nat), purposeNumber < 2147483648 → ∀ pub : PubKey,
      derivePurposePubKey lib purposeNumber seed account change index = .ok pub ↔
        ∃ masterKey node, lib.NewMaster seed = .ok masterKey ∧
          walkPath lib masterKey
            [2147483648 + purposeNumber, 2147483648 + 0, account - 2147483648, change, index] =
            .ok node ∧
          lib.ECPubKey node = .ok pub := by
    intro purposeNumber hp pub
    rw [derivePurposePubKey_ok_iff, toUint32_of_lt ha2,
      toUint32_of_lt (by omega : change < 4294967296),
      toUint32_of_lt (by omega : index < 4294967296), addUint32_hardened_of_lt hp,
      addUint32_hardened_of_ge ha1 ha2, addUint32_hardened_of_lt (by omega : 0 < 2147483648)]
  refine ⟨?_, ?_, ?_⟩
  · rw [deriveBip44Address_ok_iff]
    simp only [hwalk 44 (by omega)]
    constructor
    · rintro ⟨pub, ⟨m, node, hm, hw, hp⟩, haddr⟩
      exact ⟨m, node, pub, hm, hw, hp, haddr⟩
    · rintro ⟨m, node, pub, hm, hw, hp, haddr⟩
      exact ⟨pub, ⟨m, node, hm, hw, hp⟩, haddr⟩
  · rw [deriveBip49Address_ok_iff]
    simp only [hwalk 49 (by omega)]
    constructor
    · rintro ⟨pub, ⟨m, node, hm, hw, hp⟩, haddr⟩
      exact ⟨m, node, pub, hm, hw, hp, haddr⟩
    · rintro ⟨m, node, pub, hm, hw, hp, haddr⟩
      exact ⟨pub, ⟨m, node, hm, hw, hp⟩, haddr⟩
  · rw [deriveBip84Address_ok_iff]
    simp only [hwalk 84 (by omega)]
    constructor
    · rintro ⟨pub, ⟨m, node, hm, hw, hp⟩, haddr⟩
      exact ⟨m, node, pub, hm, hw, hp, haddr⟩
    · rintro ⟨m, node, pub, hm, hw, hp, haddr⟩
      exact ⟨pub, ⟨m, node, hm, hw, hp⟩, haddr⟩

/-- Witness for C15: account `2^31 + 7` walks the non-hardened child 7 and the
toy library returns the address of that walk. -/
theorem hardened_overflow_wraps_witness :
    deriveBip44Address (toyLib []) [] ((2147483655 : Nat) : Int) ((0 : Nat) : Int)
      ((0 : Nat) : Int) = .ok "1qyhaa" :=
  ((hardened_overflow_wraps (toyLib []) [] 2147483655 0 0 (by decide) (by decide) (by decide)
    (by decide) "1qyhaa").1).mpr
    ⟨[], [2147483692, 2147483648, 7, 0, 0], [2147483692, 2147483648, 7, 0, 0],
      rfl, rfl, rfl, rfl⟩

/-! ## Address generation from a seed phrase -/

theorem foldl_set_getElem? (f : Nat → String) :
    ∀ (is : List Nat) (l : List String) (j : Nat),
      (is.foldl (fun l i => l.set i (f i)) l)[j]? =
        if j ∈ is ∧ j < l.length then some (f j) else l[j]?
  | [], l, j => by simp
  | i :: is, l, j => by
    rw [List.foldl_cons, foldl_set_getElem? f is, List.length_set, List.getElem?_set]
    by_cases hmem : j ∈ is
    · by_cases hlen : j < l.length
      · simp [hmem, hlen]
      · have hnone : l[j]? = none := List.getElem?_eq_none (by omega)
        by_cases hij : i = j
        · subst hij
          simp [hlen, hnone]
        · simp [hlen, hij]
    · by_cases hij : i = j
      · subst hij
        by_cases hlen : i < l.length
        · simp [hmem, hlen]
        · have hnone : l[i]? = none := List.getElem?_eq_none (by omega)
          simp [hmem, hlen, hnone]
      · have hji : ¬ j = i := fun h => hij h.symm
        simp [hmem, hij, hji]

theorem foldl_set_range (f : Nat → String) (n : Nat) :
    (List.range n).foldl (fun l i => l.set i (f i)) (List.replicate n "") =
      (List.range n).map f := by
  apply List.ext_getElem?
  intro j
  rw [foldl_set_getElem?, List.length_replicate, List.getElem?_map]
  by_cases hj : j < n
  · rw [if_pos ⟨List.mem_range.mpr hj, hj⟩, List.getElem?_range hj]
    rfl
  · rw [if_neg (fun h => hj h.2), List.getElem?_replicate, if_neg hj,
      List.getElem?_eq_none (by simp; omega)]
    rfl

theorem generateLoop_ok {Key PubKey : Type} (lib : KeyLib Key PubKey) (seed : Bytes)
    (a32 a44 a49 a84 : Nat → String) :
    ∀ (is : List Nat) (acc : AddressLists) (calls : List LibCall),
      (∀ i ∈ is, deriveBip32Address lib seed i = .ok (a32 i) ∧
        deriveBip44Address lib seed 0 0 i = .ok (a44 i) ∧
        deriveBip49Address lib seed 0 0 i = .ok (a49 i) ∧
        deriveBip84Address lib seed 0 0 i = .ok (a84 i)) →
      (generateLoop lib seed is acc calls).1 = .ok
        { bip32 := is.foldl (fun l i => l.set i (a32 i)) acc.bip32
          bip44 := is.foldl (fun l i => l.set i (a44 i)) acc.bip44
          bip49 := is.foldl (fun l i => l.set i (a49 i)) acc.bip49
          bip84 := is.foldl (fun l i => l.set i (a84 i)) acc.bip84 }
  | [], acc, calls, _ => rfl
  | i :: is, acc, calls, h => by
    obtain ⟨h32, h44, h49, h84⟩ := h i (List.mem_cons_self _ _)
    simp only [generateLoop, h32, h44, h49, h84, List.foldl_cons]
    exact generateLoop_ok lib seed a32 a44 a49 a84 is _ _
      (fun k hk => h k (List.mem_cons_of_mem _ hk))

theorem generateAddressesFromSeed_valid {Key PubKey W : Type} (lib : KeyLib Key PubKey)
    (display : Display W) (seedPhrase : String) (count : Int) (w : W)
    (hvalid : validateSeedPhrase lib seedPhrase = true) (hcount : 0 ≤ count) :
    generateAddressesFromSeed lib display seedPhrase count w = some
      { value := (generateLoop lib (seedToRootKey lib seedPhrase) (List.range count.toNat)
          { bip32 := List.replicate count.toNat "", bip44 := List.replicate count.toNat "",
            bip49 := List.replicate count.toNat "", bip84 := List.replicate count.toNat "" }
          [.validate seedPhrase, .newSeed seedPhrase]).1.map AddressLists.toMap
        world := display.showLoadingBar (display.T w "generating_addresses") w
        calls := (generateLoop lib (seedToRootKey lib seedPhrase) (List.range count.toNat)
          { bip32 := List.replicate count.toNat "", bip44 := List.replicate count.toNat "",
            bip49 := List.replicate count.toNat "", bip84 := List.replicate count.toNat "" }
          [.validate seedPhrase, .newSeed seedPhrase]).2 } := by
  unfold generateAddressesFromSeed
  rw [if_neg (by rw [hvalid]; decide), if_neg (by omega)]

/-- C11: for every seed phrase that fails `validateSeedPhrase` and every count,
`generateAddressesFromSeed` returns the error `invalid seed phrase` and no map,
leaves the ambient state as it was, and has made one call only, the validation:
no seed is computed and no derivation function is invoked. -/
theorem generateAddressesFromSeed_invalid {Key PubKey W : Type} (lib : KeyLib Key PubKey)
    (display : Display W) (seedPhrase : String) (count : Int) (w : W)
    (h : validateSeedPhrase lib seedPhrase = false) :
    ∃ r, generateAddressesFromSeed lib display seedPhrase count w = some r ∧
      r.value = .error "invalid seed phrase" ∧
      r.world = w ∧
      r.calls = [.validate seedPhrase] := by
  unfold generateAddressesFromSeed
  rw [if_pos h]
  exact ⟨_, rfl, rfl, rfl, rfl⟩

/-- Witness for C11: a phrase the toy library rejects, also with a negative
count. -/
theorem generateAddressesFromSeed_invalid_witness :
    ∃ r, generateAddressesFromSeed (toyLib []) toyDisplay "not a mnemonic" (-3) 0 = some r ∧
      r.value = .error "invalid seed phrase" ∧
      r.world = 0 ∧
      r.calls = [.validate "not a mnemonic"] :=
  generateAddressesFromSeed_invalid (toyLib []) toyDisplay "not a mnemonic" (-3) 0 (by decide)

/-- C12: for every valid seed phrase and every `count >= 0` such that the four
derivations from the seed of the phrase (`bip39.NewSeed` of the phrase with the
empty passphrase) succeed at every index below `count` (with addresses `a32 i`,
`a44 i`, `a49 i`, `a84 i` for account 0, change 0, index `i`), the call
completes and returns a map with exactly the four scheme keys, each holding the
list of length `count` whose entry `i` is that scheme's address for index `i`. -/
theorem generateAddressesFromSeed_complete {Key PubKey W : Type} (lib : KeyLib Key PubKey)
    (display : Display W) (seedPhrase : String) (count : Int) (w : W)
    (a32 a44 a49 a84 : Nat → String)
    (hvalid : lib.IsMnemonicValid seedPhrase = true) (hcount : 0 ≤ count)
    (hall : ∀ i : Nat, (i : Int) < count →
      deriveBip32Address lib (lib.NewSeed seedPhrase "") i = .ok (a32 i) ∧
      deriveBip44Address lib (lib.NewSeed seedPhrase "") 0 0 i = .ok (a44 i) ∧
      deriveBip49Address lib (lib.NewSeed seedPhrase "") 0 0 i = .ok (a49 i) ∧
      deriveBip84Address lib (lib.NewSeed seedPhrase "") 0 0 i = .ok (a84 i)) :
    ∃ r, generateAddressesFromSeed lib display seedPhrase count w = some r ∧
      r.value = .ok
        [("BIP32 (Legacy)", (List.range count.toNat).map a32),
         ("BIP44 (Legacy)", (List.range count.toNat).map a44),
         ("BIP49 (SegWit-compatible)", (List.range count.toNat).map a49),
         ("BIP84 (Native SegWit)", (List.range count.toNat).map a84)] ∧
      ((List.range count.toNat).map a32).length = count.toNat ∧
      ((List.range count.toNat).map a44).length = count.toNat ∧
      ((List.range count.toNat).map a49).length = count.toNat ∧
      ((List.range count.toNat).map a84).length = count.toNat ∧
      ∀ i : Nat, i < count.toNat →
        ((List.range count.toNat).map a32)[i]? = some (a32 i) ∧
        ((List.range count.toNat).map a44)[i]? = some (a44 i) ∧
        ((List.range count.toNat).map a49)[i]? = some (a49 i) ∧
        ((List.range count.toNat).map a84)[i]? = some (a84 i) := by
  have hseed : seedToRootKey lib seedPhrase = lib.NewSeed seedPhrase "" := rfl
  have hloop := generateLoop_ok lib (seedToRootKey lib seedPhrase) a32 a44 a49 a84
    (List.range count.toNat)
    { bip32 := List.replicate count.toNat "", bip44 := List.replicate count.toNat "",
      bip49 := List.replicate count.toNat "", bip84 := List.replicate count.toNat "" }
    [.validate seedPhrase, .newSeed seedPhrase]
    (fun i hi => by
      rw [hseed]
      exact hall i (by have := List.mem_range.mp hi; omega))
  simp only [foldl_set_range] at hloop
  have hrun := generateAddressesFromSeed_valid lib display seedPhrase count w hvalid hcount
  refine ⟨_, hrun, ?_, by simp, by simp, by simp, by simp, fun i hi => ?_⟩
  · simp only [hloop]
    rfl
  · simp [List.getElem?_range hi]

/-- Witness for C12: the library whose keys record the seed, two addresses per
scheme, for each of the two test mnemonics. The two phrases give different
seeds (byte sums 8844 and 7277), and every address carries the letter of its
seed: `e` for the first phrase, `x` for the second. -/
theorem generateAddressesFromSeed_complete_witness :
    (seededLib.NewSeed testMnemonic "").sum = 8844 ∧
    (seededLib.NewSeed secondMnemonic "").sum = 7277 ∧
    (∃ r, generateAddressesFromSeed seededLib toyDisplay testMnemonic 2 0 = some r ∧
      r.value = .ok
        [("BIP32 (Legacy)", ["1eyaa", "1eyab"]),
         ("BIP44 (Legacy)", ["1eqyyaa", "1eqyyab"]),
         ("BIP49 (SegWit-compatible)", ["3cbcbaucbevyyaa", "3cbcbaucbevyyab"]),
         ("BIP84 (Native SegWit)", ["qcbeeyyaa", "qcbeeyyab"])]) ∧
    (∃ r, generateAddressesFromSeed seededLib toyDisplay secondMnemonic 2 0 = some r ∧
      r.value = .ok
        [("BIP32 (Legacy)", ["1xyaa", "1xyab"]),
         ("BIP44 (Legacy)", ["1xqyyaa", "1xqyyab"]),
         ("BIP49 (SegWit-compatible)", ["3cbcbaucbxvyyaa", "3cbcbaucbxvyyab"]),
         ("BIP84 (Native SegWit)", ["qcbxeyyaa", "qcbxeyyab"])]) := by
  refine ⟨by decide, by decide, ?_, ?_⟩
  · obtain ⟨r, hr, hv, -⟩ := generateAddressesFromSeed_complete seededLib toyDisplay
      testMnemonic 2 0
      (fun i => ((deriveBip32Address seededLib (seededLib.NewSeed testMnemonic "")
        i).toOption).getD "")
      (fun i => ((deriveBip44Address seededLib (seededLib.NewSeed testMnemonic "")
        0 0 i).toOption).getD "")
      (fun i => ((deriveBip49Address seededLib (seededLib.NewSeed testMnemonic "")
        0 0 i).toOption).getD "")
      (fun i => ((deriveBip84Address seededLib (seededLib.NewSeed testMnemonic "")
        0 0 i).toOption).getD "")
      (by decide) (by decide) (fun i _ => ⟨rfl, rfl, rfl, rfl⟩)
    exact ⟨r, hr, hv⟩
  · obtain ⟨r, hr, hv, -⟩ := generateAddressesFromSeed_complete seededLib toyDisplay
      secondMnemonic 2 0
      (fun i => ((deriveBip32Address seededLib (seededLib.NewSeed secondMnemonic "")
        i).toOption).getD "")
      (fun i => ((deriveBip44Address seededLib (seededLib.NewSeed secondMnemonic "")
        0 0 i).toOption).getD "")
      (fun i => ((deriveBip49Address seededLib (seededLib.NewSeed secondMnemonic "")
        0 0 i).toOption).getD "")
      (fun i => ((deriveBip84Address seededLib (seededLib.NewSeed secondMnemonic "")
        0 0 i).toOption).getD "")
      (by decide) (by decide) (fun i _ => ⟨rfl, rfl, rfl, rfl⟩)
    exact ⟨r, hr, hv⟩

theorem generateLoop_fails {Key PubKey : Type} (lib : KeyLib Key PubKey) (seed : Bytes) :
    ∀ (is : List Nat) (acc : AddressLists) (calls : List LibCall),
      (∃ i ∈ is, (∃ e, deriveBip32Address lib seed i = .error e) ∨
        (∃ e, deriveBip44Address lib seed 0 0 i = .error e) ∨
        (∃ e, deriveBip49Address lib seed 0 0 i = .error e) ∨
        (∃ e, deriveBip84Address lib seed 0 0 i = .error e)) →
      ∃ err, (generateLoop lib seed is acc calls).1 = .error err
  | [], _, _, h => by
    obtain ⟨i, hi, -⟩ := h
    simp at hi
  | i :: is, acc, calls, h => by
    simp only [generateLoop]
    cases h32 : deriveBip32Address lib seed i with
    | error e => exact ⟨_, rfl⟩
    | ok addr32 =>
      cases h44 : deriveBip44Address lib seed 0 0 i with
      | error e => exact ⟨_, rfl⟩
      | ok addr44 =>
        cases h49 : deriveBip49Address lib seed 0 0 i with
        | error e => exact ⟨_, rfl⟩
        | ok addr49 =>
          cases h84 : deriveBip84Address lib seed 0 0 i with
          | error e => exact ⟨_, rfl⟩
          | ok addr84 =>
            apply generateLoop_fails lib seed is
            obtain ⟨k, hk, hfail⟩ := h
            rcases List.mem_cons.mp hk with rfl | hk
            · rcases hfail with ⟨e, he⟩ | ⟨e, he⟩ | ⟨e, he⟩ | ⟨e, he⟩
              · rw [h32] at he; exact Except.noConfusion he
              · rw [h44] at he; exact Except.noConfusion he
              · rw [h49] at he; exact Except.noConfusion he
              · rw [h84] at he; exact Except.noConfusion he
            · exact ⟨k, hk, hfail⟩

/-- C16 (as stated, refuted): with the toy library failing on the walk
`m/49'/0'/0'/0/1` and a count of two, every other derivation of the batch
succeeds, yet `generateAddressesFromSeed` returns the error of the failing one
and no address at all. -/
theorem generateAddressesFromSeed_aborts_batch :
    deriveBip32Address (toyLib badBip49Path) (seedToRootKey (toyLib badBip49Path) testMnemonic)
      0 = .ok "1yaa" ∧
    deriveBip44Address (toyLib badBip49Path) (seedToRootKey (toyLib badBip49Path) testMnemonic)
      0 0 1 = .ok "1qyyab" ∧
    deriveBip49Address (toyLib badBip49Path) (seedToRootKey (toyLib badBip49Path) testMnemonic)
      0 0 0 = .ok "3cbcbaucbvyyaa" ∧
    deriveBip84Address (toyLib badBip49Path) (seedToRootKey (toyLib badBip49Path) testMnemonic)
      0 0 1 = .ok "qcbeyyab" ∧
    (generateAddressesFromSeed (toyLib badBip49Path) toyDisplay testMnemonic 2 0).map
        (fun r => r.value) =
      some (.error "failed to derive BIP49 address: failed to derive index: invalid child") :=
  ⟨rfl, rfl, rfl, rfl, rfl⟩

/-- C16 (amended): in `generateAddressesFromSeed`, for a valid seed phrase and a
count `>= 0`, a failure of any one derivation at an index below the count
aborts the whole batch: the call completes with an error and returns no
address of any scheme or index. -/
theorem generateAddressesFromSeed_fails_whole_batch {Key PubKey W : Type}
    (lib : KeyLib Key PubKey) (display : Display W) (seedPhrase : String) (count : Int) (w : W)
    (hvalid : validateSeedPhrase lib seedPhrase = true) (hcount : 0 ≤ count)
    (hfail : ∃ i : Nat, (i : Int) < count ∧
      ((∃ e, deriveBip32Address lib (seedToRootKey lib seedPhrase) i = .error e) ∨
       (∃ e, deriveBip44Address lib (seedToRootKey lib seedPhrase) 0 0 i = .error e) ∨
       (∃ e, deriveBip49Address lib (seedToRootKey lib seedPhrase) 0 0 i = .error e) ∨
       (∃ e, deriveBip84Address lib (seedToRootKey lib seedPhrase) 0 0 i = .error e))) :
    ∃ r err, generateAddressesFromSeed lib display seedPhrase count w = some r ∧
      r.value = .error err := by
  obtain ⟨i, hi, hf⟩ := hfail
  obtain ⟨err, herr⟩ := generateLoop_fails lib (seedToRootKey lib seedPhrase)
    (List.range count.toNat)
    { bip32 := List.replicate count.toNat "", bip44 := List.replicate count.toNat "",
      bip49 := List.replicate count.toNat "", bip84 := List.replicate count.toNat "" }
    [.validate seedPhrase, .newSeed seedPhrase]
    ⟨i, List.mem_range.mpr (by omega), hf⟩
  refine ⟨_, err, generateAddressesFromSeed_valid lib display seedPhrase count w hvalid hcount,
    ?_⟩
  simp only [herr]
  rfl

/-- Witness for C16: the toy library failing at `m/49'/0'/0'/0/1`, count two. -/
theorem generateAddressesFromSeed_fails_whole_batch_witness :
    ∃ r err, generateAddressesFromSeed (toyLib badBip49Path) toyDisplay testMnemonic 2 0 =
        some r ∧ r.value = .error err :=
  generateAddressesFromSeed_fails_whole_batch (toyLib badBip49Path) toyDisplay testMnemonic 2 0
    (by decide) (by decide) ⟨1, by decide, Or.inr (Or.inr (Or.inl ⟨_, rfl⟩))⟩

/-! ## Shared counter under interleaving -/

theorem getElem?_set_cases {l : List IncWorker} {i j : Nat} {b wk : IncWorker}
    (h : (l.set i b)[j]? = some wk) :
    (j = i ∧ wk = b) ∨ (j ≠ i ∧ l[j]? = some wk) := by
  rw [List.getElem?_set] at h
  by_cases hij : i = j
  · rw [if_pos hij] at h
    split at h
    · exact Or.inl ⟨hij.symm, (Option.some.inj h).symm⟩
    · exact absurd h (by simp)
  · rw [if_neg hij] at h
    exact Or.inr ⟨fun h' => hij h'.symm, h⟩

theorem sum_map_set (f : IncWorker → Nat) :
    ∀ (l : List IncWorker) (i : Nat) (a b : IncWorker), l[i]? = some a →
      ((l.set i b).map f).sum + f a = (l.map f).sum + f b
  | [], i, a, b, h => by simp at h
  | x :: xs, 0, a, b, h => by
    simp only [List.getElem?_cons_zero, Option.some.injEq] at h
    subst h
    simp only [List.set_cons_zero, List.map_cons, List.sum_cons]
    omega
  | x :: xs, i + 1, a, b, h => by
    simp only [List.getElem?_cons_succ] at h
    have ih := sum_map_set f xs i a b h
    simp only [List.set_cons_succ, List.map_cons, List.sum_cons]
    omega

theorem SharedInv.others_outside {N : Nat} {s : SharedStats} (hinv : SharedInv N s)
    {i j : Nat} {wk wk1 : IncWorker} (hi : s.workers[i]? = some wk)
    (hphase : wk.phase ≠ IncPhase.outside) (hj : s.workers[j]? = some wk1) (hne : j ≠ i) :
    wk1.phase = IncPhase.outside := by
  by_contra hout
  have h1 := (hinv.1 i wk hi hphase).1
  have h2 := (hinv.1 j wk1 hj hout).1
  rw [h1] at h2
  exact hne (Option.some.inj h2).symm

theorem incStep_inv {N : Nat} {i : Nat} {s t : SharedStats} (hinv : SharedInv N s)
    (h : incStep i s = some t) : SharedInv N t := by
  unfold incStep at h
  cases hget : s.workers[i]? with
  | none => rw [hget] at h; exact absurd h (by simp)
  | some wk =>
    rw [hget] at h
    simp only at h
    obtain ⟨ha, hb, hc, hd⟩ := hinv
    cases hphase : wk.phase with
    | outside =>
      rw [hphase] at h
      simp only at h
      by_cases hrem : wk.remaining = 0
      · rw [if_pos hrem] at h; exact absurd h (by simp)
      · rw [if_neg hrem] at h
        cases hholder : s.mutexHolder with
        | some k => rw [hholder] at h; exact absurd h (by simp)
        | none =>
          rw [hholder] at h
          simp only [Option.some.injEq] at h
          subst h
          have hfree : ∀ (j : Nat) (wk1 : IncWorker), s.workers[j]? = some wk1 →
              wk1.phase = IncPhase.outside := by
            intro j wk1 hj
            by_contra hout
            have := (ha j wk1 hj hout).1
            rw [hholder] at this
            exact Option.noConfusion this
          refine ⟨?_, ?_, ?_, hd⟩
          · intro j wk1 hj hout
            rcases getElem?_set_cases hj with ⟨rfl, rfl⟩ | ⟨-, hj1⟩
            · exact ⟨rfl, by simp only; omega⟩
            · exact absurd (hfree j wk1 hj1) hout
          · intro j wk1 tmp hj hload
            rcases getElem?_set_cases hj with ⟨rfl, rfl⟩ | ⟨-, hj1⟩
            · simp at hload
            · rw [hfree j wk1 hj1] at hload
              exact IncPhase.noConfusion hload
          · have hsum := sum_map_set IncWorker.owed s.workers i wk
              { wk with phase := IncPhase.locked } hget
            simp only [IncWorker.owed, hphase] at hsum
            simp only
            omega
    | locked =>
      rw [hphase] at h
      simp only [Option.some.injEq] at h
      subst h
      have hin : wk.phase ≠ IncPhase.outside := by rw [hphase]; exact fun h => IncPhase.noConfusion h
      refine ⟨?_, ?_, ?_, hd⟩
      · intro j wk1 hj hout
        rcases getElem?_set_cases hj with ⟨rfl, rfl⟩ | ⟨-, hj1⟩
        · exact ha j wk hget hin
        · exact ha j wk1 hj1 hout
      · intro j wk1 tmp hj hload
        rcases getElem?_set_cases hj with ⟨rfl, rfl⟩ | ⟨-, hj1⟩
        · simp only [IncPhase.loaded.injEq] at hload
          exact hload.symm
        · exact hb j wk1 tmp hj1 hload
      · have hsum := sum_map_set IncWorker.owed s.workers i wk
          { wk with phase := IncPhase.loaded s.stats.WalletsChecked } hget
        simp only [IncWorker.owed, hphase] at hsum
        simp only
        omega
    | loaded tmp =>
      rw [hphase] at h
      simp only [Option.some.injEq] at h
      subst h
      have hin : wk.phase ≠ IncPhase.outside := by rw [hphase]; exact fun h => IncPhase.noConfusion h
      have htmp : tmp = s.stats.WalletsChecked := hb i wk tmp hget hphase
      have hrem : 1 ≤ wk.remaining := (ha i wk hget hin).2
      have hothers : ∀ (j : Nat) (wk1 : IncWorker), j ≠ i → s.workers[j]? = some wk1 →
          wk1.phase = IncPhase.outside := by
        intro j wk1 hne hj
        exact SharedInv.others_outside ⟨ha, hb, hc, hd⟩ hget hin hj hne
      refine ⟨?_, ?_, ?_, hd⟩
      · intro j wk1 hj hout
        rcases getElem?_set_cases hj with ⟨rfl, rfl⟩ | ⟨hne, hj1⟩
        · exact ha j wk hget hin
        · exact absurd (hothers j wk1 hne hj1) hout
      · intro j wk1 tmp1 hj hload
        rcases getElem?_set_cases hj with ⟨rfl, rfl⟩ | ⟨hne, hj1⟩
        · simp at hload
        · rw [hothers j wk1 hne hj1] at hload
          exact IncPhase.noConfusion hload
      · have hsum := sum_map_set IncWorker.owed s.workers i wk
          { wk with phase := IncPhase.stored } hget
        simp only [IncWorker.owed, hphase] at hsum
        simp only
        omega
    | stored =>
      rw [hphase] at h
      simp only [Option.some.injEq] at h
      subst h
      have hin : wk.phase ≠ IncPhase.outside := by rw [hphase]; exact fun h => IncPhase.noConfusion h
      have hothers : ∀ (j : Nat) (wk1 : IncWorker), j ≠ i → s.workers[j]? = some wk1 →
          wk1.phase = IncPhase.outside := by
        intro j wk1 hne hj
        exact SharedInv.others_outside ⟨ha, hb, hc, hd⟩ hget hin hj hne
      refine ⟨?_, ?_, ?_, hd⟩
      · intro j wk1 hj hout
        rcases getElem?_set_cases hj with ⟨rfl, rfl⟩ | ⟨hne, hj1⟩
        · simp at hout
        · exact absurd (hothers j wk1 hne hj1) hout
      · intro j wk1 tmp1 hj hload
        rcases getElem?_set_cases hj with ⟨rfl, rfl⟩ | ⟨hne, hj1⟩
        · simp at hload
        · rw [hothers j wk1 hne hj1] at hload
          exact IncPhase.noConfusion hload
      · have hsum := sum_map_set IncWorker.owed s.workers i wk
          { remaining := wk.remaining - 1, phase := IncPhase.outside } hget
        simp only [IncWorker.owed, hphase] at hsum
        simp only
        omega

theorem runSchedule_inv {N : Nat} :
    ∀ (schedule : List Nat) {s t : SharedStats}, SharedInv N s →
      runSchedule schedule s = some t → SharedInv N t
  | [], s, t, hinv, h => by
    simp only [runSchedule, Option.some.injEq] at h
    subst h
    exact hinv
  | i :: rest, s, t, hinv, h => by
    simp only [runSchedule] at h
    split at h
    · exact absurd h (by simp)
    · rename_i s1 h1
      exact runSchedule_inv rest (incStep_inv hinv h1) h

theorem initShared_inv (K T : Nat) : SharedInv (K * T) (initShared K T) := by
  refine ⟨?_, ?_, ?_, rfl⟩
  · intro i wk hget hout
    have hmem := List.getElem?_mem hget
    simp only [initShared] at hmem
    rw [List.eq_of_mem_replicate hmem] at hout
    exact absurd rfl hout
  · intro i wk tmp hget hload
    have hmem := List.getElem?_mem hget
    simp only [initShared] at hmem
    rw [List.eq_of_mem_replicate hmem] at hload
    exact IncPhase.noConfusion hload
  · simp [initShared, IncWorker.owed]

theorem owed_sum_of_all_done :
    ∀ (l : List IncWorker),
      l.all (fun wk => wk.remaining == 0 && wk.phase == IncPhase.outside) = true →
      (l.map IncWorker.owed).sum = 0
  | [], _ => rfl
  | wk :: rest, h => by
    simp only [List.all_cons, Bool.and_eq_true, beq_iff_eq] at h
    have ih := owed_sum_of_all_done rest h.2
    simp only [List.map_cons, List.sum_cons, ih, IncWorker.owed, h.1.2, h.1.1]

theorem getElem?_set_self_of_some {l : List IncWorker} {i : Nat} {a b : IncWorker}
    (h : l[i]? = some a) : (l.set i b)[i]? = some b := by
  obtain ⟨hlt, -⟩ := List.getElem?_eq_some.mp h
  exact List.getElem?_set_self hlt

theorem incStep_holder {N : Nat} {i : Nat} {s t : SharedStats} (hinv : SharedInv N s)
    (h : incStep i s = some t) : HolderInside t := by
  unfold incStep at h
  cases hget : s.workers[i]? with
  | none => rw [hget] at h; exact absurd h (by simp)
  | some wk =>
    rw [hget] at h
    simp only at h
    cases hphase : wk.phase with
    | outside =>
      rw [hphase] at h
      simp only at h
      by_cases hrem : wk.remaining = 0
      · rw [if_pos hrem] at h; exact absurd h (by simp)
      · rw [if_neg hrem] at h
        cases hholder : s.mutexHolder with
        | some k => rw [hholder] at h; exact absurd h (by simp)
        | none =>
          rw [hholder] at h
          simp only [Option.some.injEq] at h
          subst h
          intro k hk
          simp only [Option.some.injEq] at hk
          subst hk
          exact ⟨_, getElem?_set_self_of_some hget, fun h => IncPhase.noConfusion h⟩
    | locked =>
      rw [hphase] at h
      simp only [Option.some.injEq] at h
      subst h
      have hin : wk.phase ≠ IncPhase.outside := by
        rw [hphase]; exact fun h => IncPhase.noConfusion h
      intro k hk
      simp only at hk
      rw [(hinv.1 i wk hget hin).1, Option.some.injEq] at hk
      subst hk
      exact ⟨_, getElem?_set_self_of_some hget, fun h => IncPhase.noConfusion h⟩
    | loaded tmp =>
      rw [hphase] at h
      simp only [Option.some.injEq] at h
      subst h
      have hin : wk.phase ≠ IncPhase.outside := by
        rw [hphase]; exact fun h => IncPhase.noConfusion h
      intro k hk
      simp only at hk
      rw [(hinv.1 i wk hget hin).1, Option.some.injEq] at hk
      subst hk
      exact ⟨_, getElem?_set_self_of_some hget, fun h => IncPhase.noConfusion h⟩
    | stored =>
      rw [hphase] at h
      simp only [Option.some.injEq] at h
      subst h
      intro k hk
      exact Option.noConfusion hk

theorem runSchedule_holder {N : Nat} :
    ∀ (schedule : List Nat) {s t : SharedStats}, SharedInv N s → HolderInside s →
      runSchedule schedule s = some t → HolderInside t
  | [], s, t, _, hh, h => by
    simp only [runSchedule, Option.some.injEq] at h
    subst h
    exact hh
  | i :: rest, s, t, hinv, _, h => by
    simp only [runSchedule] at h
    split at h
    · exact absurd h (by simp)
    · rename_i s1 h1
      exact runSchedule_holder rest (incStep_inv hinv h1) (incStep_holder hinv h1) h

theorem incStep_of_inside {s : SharedStats} {k : Nat} {wk : IncWorker}
    (hget : s.workers[k]? = some wk) (hin : wk.phase ≠ IncPhase.outside) :
    ∃ t, incStep k s = some t := by
  unfold incStep
  rw [hget]
  simp only
  cases hphase : wk.phase with
  | outside => exact absurd hphase hin
  | locked => exact ⟨_, rfl⟩
  | loaded tmp => exact ⟨_, rfl⟩
  | stored => exact ⟨_, rfl⟩

theorem incStep_progress {N : Nat} {s : SharedStats} (hinv : SharedInv N s)
    (hh : HolderInside s) (hnot : s.allDone = false) : ∃ i t, incStep i s = some t := by
  cases hholder : s.mutexHolder with
  | some k =>
    obtain ⟨wk, hget, hin⟩ := hh k hholder
    exact ⟨k, incStep_of_inside hget hin⟩
  | none =>
    have hex : ∃ wk ∈ s.workers,
        (wk.remaining == 0 && wk.phase == IncPhase.outside) = false := by
      unfold SharedStats.allDone at hnot
      by_contra hall
      have : s.workers.all (fun wk => wk.remaining == 0 && wk.phase == IncPhase.outside) =
          true := by
        rw [List.all_eq_true]
        intro wk hwk
        by_contra hf
        exact hall ⟨wk, hwk, by simpa using hf⟩
      rw [this] at hnot
      exact Bool.noConfusion hnot
    obtain ⟨wk, hmem, hbad⟩ := hex
    obtain ⟨i, hget⟩ := List.mem_iff_getElem?.mp hmem
    have hout : wk.phase = IncPhase.outside := by
      by_contra hin
      have := (hinv.1 i wk hget hin).1
      rw [hholder] at this
      exact Option.noConfusion this
    have hrem : wk.remaining ≠ 0 := by
      intro h0
      simp [h0, hout] at hbad
    refine ⟨i, ?_⟩
    unfold incStep
    rw [hget]
    simp only [hout, if_neg hrem, hholder]
    exact ⟨_, rfl⟩

/-- C18: `K` workers share one `ScannerStats` that starts at zero and each
calls `IncrementWalletsChecked` `T` times; a call is the four steps lock, read,
write, unlock, and the steps of different workers interleave in any order the
mutex admits. After any such interleaving: if every worker has completed its
calls, `GetStats` reads `WalletsChecked = K * T` and `ActiveWalletsFound = 0`;
and if not, some worker can take a further step, so the run is never stuck
short of completion. -/
theorem shared_counter_no_lost_update (K T : Nat) (schedule : List Nat) (t : SharedStats)
    (hrun : runSchedule schedule (initShared K T) = some t) :
    (t.allDone = true → t.stats.GetStats = (K * T, 0)) ∧
    (t.allDone = false → ∃ i t1, incStep i t = some t1) := by
  have hinv := runSchedule_inv schedule (initShared_inv K T) hrun
  have hh : HolderInside t :=
    runSchedule_holder schedule (initShared_inv K T)
      (fun k hk => Option.noConfusion hk) hrun
  refine ⟨fun hdone => ?_, fun hnot => incStep_progress hinv hh hnot⟩
  obtain ⟨-, -, hsum, hactive⟩ := hinv
  have hzero := owed_sum_of_all_done t.workers hdone
  rw [hzero] at hsum
  simp only [ScannerStats.GetStats, hactive]
  congr 1

/-- Witness for C18: two workers, two calls each, the calls alternating between
the workers. -/
theorem shared_counter_no_lost_update_witness :
    alternatingResult.stats.GetStats = (2 * 2, 0) :=
  (shared_counter_no_lost_update 2 2 alternatingSchedule alternatingResult (by decide)).1
    (by decide)

/-! ## Malformed response bodies -/

theorem reportFailure_invalid_json (endpoint : String) (s : PoolState) :
    reportFailure endpoint 0 (some "invalid JSON") s = incrementEndpointFailure endpoint s := by
  unfold reportFailure
  cases incrementEndpointFailure endpoint s with
  | none => rfl
  | some s1 =>
    have hno : rotationTrigger 0 (some "invalid JSON") = false := by decide
    simp only [rotateEndpointIfNeeded, hno, Bool.false_eq_true, if_false]

/-- C20 (as stated, refuted): from the three-endpoint pool with the cursor on
`b.example`, a malformed body leaves one failure on `b.example` and the cursor
where it was, while a time-out leaves two failures on `b.example` and the
cursor on `c.example`; both calls return an error. -/
theorem malformed_body_differs_from_timeout :
    (fetchWalletData (malformedNet WalletData) "addr" threeEndpointState).map
        (fun r => (r.1.toOption.isNone, r.2.viewB)) = some (true, 1, 1, "b.example") ∧
    (fetchWalletData (timeoutNet WalletData) "addr" threeEndpointState).map
        (fun r => (r.1.toOption.isNone, r.2.viewB)) = some (true, 2, 2, "c.example") ∧
    (fetchWalletTransactions (malformedNet (List Transaction)) "addr" 5 threeEndpointState).map
        (fun r => (r.1.toOption.isNone, r.2.viewB)) = some (true, 1, 1, "b.example") ∧
    (fetchWalletTransactions (timeoutNet (List Transaction)) "addr" 5 threeEndpointState).map
        (fun r => (r.1.toOption.isNone, r.2.viewB)) = some (true, 2, 2, "c.example") := by
  decide

/-- C20 (amended): a malformed response body in `fetchWalletData` or
`fetchWalletTransactions` changes the pool exactly as one call of
`incrementEndpointFailure` for the endpoint used does: one failure is recorded
and the cursor is not rotated (`rotateEndpointIfNeeded(0, "invalid JSON")` does
not meet the rotation condition); the call returns the parse error. -/
theorem malformed_body_records_one_failure (netData : String → HttpResult WalletData)
    (netTxs : String → HttpResult (List Transaction)) (address : String) (limit : Int)
    (s s0 : PoolState) (endpoint msgData msgTxs : String)
    (hcur : getCurrentEndpoint s = some (endpoint, s0)) (hne : endpoint ≠ "")
    (hdata : netData ("https://" ++ endpoint ++ "/api/address/" ++ address) =
      .response 200 (.parseError msgData))
    (htxs : netTxs ("https://" ++ endpoint ++ "/api/address/" ++ address ++ "/txs") =
      .response 200 (.parseError msgTxs)) :
    fetchWalletData netData address s =
      (incrementEndpointFailure endpoint s0).map
        (fun s1 => (.error ("failed to parse JSON response: " ++ msgData), s1)) ∧
    fetchWalletTransactions netTxs address limit s =
      (incrementEndpointFailure endpoint s0).map
        (fun s1 => (.error ("failed to parse JSON response: " ++ msgTxs), s1)) ∧
    (∀ s1, incrementEndpointFailure endpoint s0 = some s1 →
      s1.endpointFailures endpoint = s.endpointFailures endpoint + 1 ∧
      (∀ k, k ≠ endpoint → s1.endpointFailures k = s.endpointFailures k) ∧
      (s.endpointFailures endpoint + 1 < 5 →
        s1.mempoolEndpoints = s0.mempoolEndpoints ∧
        s1.currentEndpointIndex = s0.currentEndpointIndex ∧
        s1.currentEndpoint = s0.currentEndpoint)) := by
  refine ⟨?_, ?_, ?_⟩
  · unfold fetchWalletData
    simp only [hcur, if_neg hne, hdata, ne_eq, not_true_eq_false, if_false,
      reportFailure_invalid_json]
  · unfold fetchWalletTransactions
    simp only [hcur, if_neg hne, htxs, ne_eq, not_true_eq_false, if_false,
      reportFailure_invalid_json]
  · intro s1 hs1
    have hf0 := getCurrentEndpoint_failures hcur
    have hf1 := incrementEndpointFailure_failures hs1
    refine ⟨?_, fun k hk => ?_, fun hlt => ?_⟩
    · rw [hf1, hf0]
      simp only [if_true]
    · rw [hf1, hf0]
      simp only [if_neg hk]
    · unfold incrementEndpointFailure at hs1
      rw [hf0] at hs1
      simp only [if_true] at hs1
      rw [if_neg (by omega)] at hs1
      simp only [Option.some.injEq] at hs1
      subst hs1
      exact ⟨rfl, rfl, rfl⟩

/-- Witness for C20: the three-endpoint pool, every body malformed. -/
theorem malformed_body_records_one_failure_witness :
    fetchWalletData (malformedNet WalletData) "addr" threeEndpointState =
      (incrementEndpointFailure "b.example" threeEndpointState).map
        (fun s1 => (.error ("failed to parse JSON response: " ++
          "unexpected end of JSON input"), s1)) :=
  (malformed_body_records_one_failure (malformedNet WalletData)
    (malformedNet (List Transaction)) "addr" 5 threeEndpointState threeEndpointState
    "b.example" "unexpected end of JSON input" "unexpected end of JSON input" rfl (by decide)
    rfl rfl).1

/-! ## Rendering used by the fixtures -/

theorem exactDecimal8_five_coins :
    (calculateBalance fundedWallet).2.TotalBalanceSats = 500000000 ∧
    exactDecimal8 (calculateBalance fundedWallet).1 = "5.00000000" := by
  decide

/-! ## Failure accounting of the fetch functions -/

theorem rotateEndpointIfNeeded_failures_mono {code : Int} {err : Option String} {r : Bool}
    {s t : PoolState} (h : rotateEndpointIfNeeded code err s = some (r, t)) (k : String) :
    s.endpointFailures k ≤ t.endpointFailures k := by
  unfold rotateEndpointIfNeeded at h
  split at h
  · split at h
    · exact absurd h (by simp)
    · rename_i old s1 h1
      split at h
      · exact absurd h (by simp)
      · rename_i s2 h2
        split at h
        · exact absurd h (by simp)
        · rename_i new s3 h3
          have hst : s3 = t := by
            split at h <;> simp only [Option.some.injEq, Prod.mk.injEq] at h <;> exact h.2
          subst hst
          rw [getNextEndpoint_failures h3, incrementEndpointFailure_failures h2,
            getCurrentEndpoint_failures h1]
          simp only
          split <;> omega
  · simp only [Option.some.injEq, Prod.mk.injEq] at h
    rw [← h.2]

theorem reportFailure_records {e : String} {code : Int} {err : Option String}
    {s t : PoolState} (h : reportFailure e code err s = some t) :
    s.endpointFailures e < t.endpointFailures e := by
  unfold reportFailure at h
  split at h
  · exact absurd h (by simp)
  · rename_i s1 h1
    split at h
    · exact absurd h (by simp)
    · rename_i r s2 h2
      simp only [Option.some.injEq] at h
      subst h
      have hmono := rotateEndpointIfNeeded_failures_mono h2 e
      have hinc : s1.endpointFailures e = s.endpointFailures e + 1 := by
        rw [incrementEndpointFailure_failures h1]
        simp only [if_true]
      omega

/-- C21 (the code at the failing input): with the cursor on `b.example` and a
200 response whose body cannot be read, `fetchWalletData` and
`fetchWalletTransactions` return the error `failed to read response body` while
the failure counter of `b.example` is still 0, as before the call, and the
cursor has not moved. -/
theorem read_failure_not_recorded :
    threeEndpointState.endpointFailures "b.example" = 0 ∧
    (fetchWalletData (unreadableNet WalletData) "addr" threeEndpointState).map
        (fun r => r.1) = some (.error "failed to read response body: unexpected EOF") ∧
    (fetchWalletData (unreadableNet WalletData) "addr" threeEndpointState).map
        (fun r => r.2.viewB) = some (0, 1, "b.example") ∧
    (fetchWalletTransactions (unreadableNet (List Transaction)) "addr" 5
        threeEndpointState).map (fun r => r.1) =
      some (.error "failed to read response body: unexpected EOF") ∧
    (fetchWalletTransactions (unreadableNet (List Transaction)) "addr" 5
        threeEndpointState).map (fun r => r.2.viewB) = some (0, 1, "b.example") :=
  ⟨by decide, rfl, by decide, rfl, by decide⟩

/-- C22 (as stated, refuted): over the pool `a.example`, `b.example`, four
failed fetches through `a.example` are followed by a successful one; the
counter of `a.example` is still 4 after the success, and the next failure
evicts the endpoint although it is not the fifth in a row. -/
theorem success_does_not_reset_counter :
    (runOps insertionSortSlice failuresThenSuccessOps (initialPool twoEndpoints)).map
        PoolState.view = some (["a.example", "b.example"], 0, "a.example", 4, 0) ∧
    (runOps insertionSortSlice (failuresThenSuccessOps ++ [.fetchData notFoundNet "addr"])
        (initialPool twoEndpoints)).map PoolState.view =
      some (["b.example"], 0, "b.example", 5, 0) := by
  decide

theorem map_error_ne_ok {α : Type} {o : Option PoolState} {msg : String} {a : α}
    {t : PoolState}
    (h : o.map (fun s1 => ((Except.error msg : Except String α), s1)) = some (.ok a, t)) :
    False := by
  cases o with
  | none => simp at h
  | some s1 =>
    simp only [Option.map_some', Option.some.injEq, Prod.mk.injEq] at h
    exact Except.noConfusion h.1

/-- C22 (amended): a successful `fetchWalletData` or `fetchWalletTransactions`
resets nothing: every failure counter, the endpoint list and the cursor are as
before the call (only an unset current endpoint is filled in). The counter of
an endpoint therefore counts all failures recorded since the last refresh, and
the endpoint is evicted when the fifth of them is recorded, with or without
successes in between. -/
theorem successful_fetch_keeps_counters (net : String → HttpResult WalletData)
    (netTxs : String → HttpResult (List Transaction)) (address : String) (limit : Int)
    (s : PoolState) :
    (∀ data t, fetchWalletData net address s = some (.ok data, t) →
      t.endpointFailures = s.endpointFailures ∧ t.mempoolEndpoints = s.mempoolEndpoints ∧
      t.currentEndpointIndex = s.currentEndpointIndex) ∧
    (∀ txs t, fetchWalletTransactions netTxs address limit s = some (.ok txs, t) →
      t.endpointFailures = s.endpointFailures ∧ t.mempoolEndpoints = s.mempoolEndpoints ∧
      t.currentEndpointIndex = s.currentEndpointIndex) := by
  have hcur : ∀ (e : String) (s0 : PoolState), getCurrentEndpoint s = some (e, s0) →
      s0.endpointFailures = s.endpointFailures ∧ s0.mempoolEndpoints = s.mempoolEndpoints ∧
      s0.currentEndpointIndex = s.currentEndpointIndex := by
    intro e s0 h0
    refine ⟨getCurrentEndpoint_failures h0, ?_, ?_⟩
    · unfold getCurrentEndpoint at h0
      split at h0
      · split at h0
        · exact absurd h0 (by simp)
        · simp only [Option.some.injEq, Prod.mk.injEq] at h0
          rw [← h0.2]
      · simp only [Option.some.injEq, Prod.mk.injEq] at h0
        rw [← h0.2]
    · unfold getCurrentEndpoint at h0
      split at h0
      · split at h0
        · exact absurd h0 (by simp)
        · simp only [Option.some.injEq, Prod.mk.injEq] at h0
          rw [← h0.2]
      · simp only [Option.some.injEq, Prod.mk.injEq] at h0
        rw [← h0.2]
  refine ⟨fun data t h => ?_, fun txs t h => ?_⟩
  · unfold fetchWalletData at h
    split at h
    · exact absurd h (by simp)
    · rename_i endpoint s0 h0
      split at h
      · simp only [Option.some.injEq, Prod.mk.injEq] at h
        exact Except.noConfusion h.1
      · split at h
        · exact (map_error_ne_ok h).elim
        · split at h
          · exact (map_error_ne_ok h).elim
          · split at h
            · simp only [Option.some.injEq, Prod.mk.injEq] at h
              exact Except.noConfusion h.1
            · exact (map_error_ne_ok h).elim
            · simp only [Option.some.injEq, Prod.mk.injEq] at h
              rw [← h.2]
              exact hcur endpoint s0 h0
  · unfold fetchWalletTransactions at h
    split at h
    · exact absurd h (by simp)
    · rename_i endpoint s0 h0
      split at h
      · simp only [Option.some.injEq, Prod.mk.injEq] at h
        exact Except.noConfusion h.1
      · split at h
        · exact (map_error_ne_ok h).elim
        · split at h
          · exact (map_error_ne_ok h).elim
          · split at h
            · simp only [Option.some.injEq, Prod.mk.injEq] at h
              exact Except.noConfusion h.1
            · exact (map_error_ne_ok h).elim
            · simp only [Option.map_eq_some', Prod.mk.injEq] at h
              obtain ⟨l, -, -, rfl⟩ := h
              exact hcur endpoint s0 h0

/-- Witness for C22: a successful fetch from the state with four failures on
`a.example`. -/
theorem successful_fetch_keeps_counters_witness :
    successAfterFourFailures.endpointFailures = fourFailuresState.endpointFailures ∧
    successAfterFourFailures.mempoolEndpoints = fourFailuresState.mempoolEndpoints ∧
    successAfterFourFailures.currentEndpointIndex = fourFailuresState.currentEndpointIndex :=
  (successful_fetch_keeps_counters emptyReportNet historyNet "addr" 5 fourFailuresState).1
    emptyWallet successAfterFourFailures rfl

/-! ## Error status of a worker -/

/-- C24: `SetError(err)` called at clock reading `now` stores `Status = "error"`,
`LastError = err` and `LastErrorTime = now` exactly when `err` differs from the
stored `LastError` or more than five minutes have passed since `LastErrorTime`;
otherwise (the same error inside the window) the status is unchanged in every
field. In both cases `ID`, `CurrentAddress`, `CurrentBIPType` and
`CurrentEndpoint` are unchanged. -/
theorem setError_window (s : InstanceStatus) (err : String) (now : Int) :
    ((s.LastError ≠ err ∨ now - s.LastErrorTime > 300000000000) →
      s.SetError err now =
        { s with Status := "error", LastError := err, LastErrorTime := now }) ∧
    (¬ (s.LastError ≠ err ∨ now - s.LastErrorTime > 300000000000) →
      s.SetError err now = s) ∧
    (s.SetError err now).ID = s.ID ∧
    (s.SetError err now).CurrentAddress = s.CurrentAddress ∧
    (s.SetError err now).CurrentBIPType = s.CurrentBIPType ∧
    (s.SetError err now).CurrentEndpoint = s.CurrentEndpoint := by
  unfold InstanceStatus.SetError
  by_cases h : s.LastError ≠ err ∨ now - s.LastErrorTime > 300000000000
  · rw [if_pos h]
    exact ⟨fun _ => rfl, fun hn => absurd h hn, rfl, rfl, rfl, rfl⟩
  · rw [if_neg h]
    exact ⟨fun hp => absurd hp h, fun _ => rfl, rfl, rfl, rfl, rfl⟩

/-- Witness for C24: the stored error of clock reading 1000 repeated one minute
later is suppressed, repeated six minutes later it is stored again, and a
different error is stored at once. -/
theorem setError_window_witness :
    erroredStatus.SetError "Error: API returned status code 404" 60000001000 = erroredStatus ∧
    erroredStatus.SetError "Error: API returned status code 404" 360000001000 =
      { erroredStatus with Status := "error",
                           LastError := "Error: API returned status code 404",
                           LastErrorTime := 360000001000 } ∧
    erroredStatus.SetError "Error: no available endpoints" 60000001000 =
      { erroredStatus with Status := "error", LastError := "Error: no available endpoints",
                           LastErrorTime := 60000001000 } :=
  ⟨(setError_window erroredStatus "Error: API returned status code 404" 60000001000).2.1
      (by decide),
   (setError_window erroredStatus "Error: API returned status code 404" 360000001000).1
      (by decide),
   (setError_window erroredStatus "Error: no available endpoints" 60000001000).1
      (by decide)⟩

/-! ## Failures recorded by one failed fetch -/

/-- C27 (the code at the failing input): one `fetchWalletData` call that fails
with a time-out through `b.example` (counter 0, cursor on it) leaves the
counter of `b.example` at 2, not 1. From the pool `a.example`, `b.example` with
four failures on `a.example`, one time-out through `a.example` evicts it and
leaves one failure on `b.example`, which was not used. -/
theorem timeout_records_two_failures :
    threeEndpointState.endpointFailures "b.example" = 0 ∧
    (fetchWalletData (timeoutNet WalletData) "addr" threeEndpointState).map
        (fun r => r.2.viewB) = some (2, 2, "c.example") ∧
    fourFailuresState.view = (["a.example", "b.example"], 0, "", 4, 0) ∧
    (fetchWalletData (timeoutNet WalletData) "addr" fourFailuresState).map
        (fun r => r.2.view) = some (["b.example"], 0, "b.example", 5, 1) := by
  decide

/-! ## Eviction of an endpoint that is not selected -/

/-- C28 (the code at the failing input): in the pool `a.example`, `b.example`,
`c.example` with `b.example` selected, `getCurrentEndpoint` returns
`b.example`; after `removeEndpoint("a.example")`, which sat before the cursor,
the cursor is still 1 and `getCurrentEndpoint` returns `c.example`. Evicting
`c.example`, which sat after the cursor, leaves `b.example` selected. -/
theorem eviction_before_cursor_moves_selection :
    (getCurrentEndpoint threeEndpointState).map (fun r => r.1) = some "b.example" ∧
    (removeEndpoint "a.example" threeEndpointState).map PoolState.view =
      some (["b.example", "c.example"], 1, "c.example", 0, 0) ∧
    ((removeEndpoint "a.example" threeEndpointState).bind getCurrentEndpoint).map
      (fun r => r.1) = some "c.example" ∧
    ((removeEndpoint "c.example" threeEndpointState).bind getCurrentEndpoint).map
      (fun r => r.1) = some "b.example" := by
  decide

/-! ## Cursor invariant -/

/-- C29: starting from the initial state (cursor 0, current endpoint unset)
over pairwise distinct endpoints, after any sequence of pool calls
(`getCurrentEndpoint`, `getNextEndpoint`, `incrementEndpointFailure`,
`removeEndpoint`, `testAndSortEndpoints`, and the rotation and fetch functions
built from them) that completes and leaves the pool non-empty, the cursor is
below the length of the pool and the current endpoint is either unset or the
entry under the cursor. -/
theorem pool_cursor_invariant (sortSlice : List EndpointStatus → List EndpointStatus)
    (hsort : SortSliceSpec sortSlice) (endpoints : List String) (ops : List PoolOp)
    (s : PoolState) (hnd : endpoints.Nodup)
    (hrun : runOps sortSlice ops (initialPool endpoints) = some s)
    (hne : s.mempoolEndpoints ≠ []) :
    s.currentEndpointIndex < s.mempoolEndpoints.length ∧
    (s.currentEndpoint = "" ∨
      s.mempoolEndpoints[s.currentEndpointIndex]? = some s.currentEndpoint) := by
  have hinv := runOps_inv hsort ops hrun (initialPool_inv hnd)
  exact ⟨hinv.2.1 hne, hinv.2.2⟩

/-- Witness for C29: the pool `a.example`, `b.example` after four recorded
failures. -/
theorem pool_cursor_invariant_witness :
    fourFailuresState.currentEndpointIndex < fourFailuresState.mempoolEndpoints.length ∧
    (fourFailuresState.currentEndpoint = "" ∨
      fourFailuresState.mempoolEndpoints[fourFailuresState.currentEndpointIndex]? =
        some fourFailuresState.currentEndpoint) :=
  pool_cursor_invariant insertionSortSlice insertionSortSlice_spec twoEndpoints
    fourFailuresOps fourFailuresState (by decide) rfl (by decide)

/-! ## Thousands separators -/

/-- C30 (the code at the failing input): `formatWithCommas(-123)` is `-,123`:
the comma stands directly after the minus sign. The same happens for every
negative number whose digit count is a multiple of three, such as -123456;
other values are grouped as expected. -/
theorem formatWithCommas_negative_comma :
    formatWithCommas (-123) = "-,123" ∧
    formatWithCommas (-123456) = "-,123,456" ∧
    formatWithCommas (-1234567) = "-1,234,567" ∧
    formatWithCommas 1234567 = "1,234,567" ∧
    formatWithCommas 123 = "123" := by
  decide

/-! ## Status history of a worker -/

theorem setStatus_ok (w : WorkerState) (st : InstanceStatus) {cur : String}
    (h1 : w.statusLog.Chain' statusStep) (h2 : w.statusLog.getLast? = some cur)
    (hs : statusStep cur st.Status) :
    (w.setStatus st).statusLog.Chain' statusStep ∧
    (w.setStatus st).statusLog.getLast? = some (w.setStatus st).status.Status := by
  refine ⟨?_, List.getLast?_concat _⟩
  apply List.Chain'.append h1 (List.chain'_singleton _)
  intro x hx y hy
  rw [h2] at hx
  simp only [Option.mem_def, Option.some.injEq, List.head?_cons] at hx hy
  subst hx
  subst hy
  exact hs

theorem setError_status (s : InstanceStatus) (err : String) (now : Int) :
    (s.SetError err now).Status = "error" ∨ (s.SetError err now).Status = s.Status := by
  unfold InstanceStatus.SetError
  split
  · exact Or.inl rfl
  · exact Or.inr rfl

theorem checkAddress_statusLog {seedPhrase : String} {addrInfo : AddrInfo} {env : AddrEnv}
    {w w1 : WorkerState} (hw : StatusLogOk w)
    (h : checkAddress seedPhrase addrInfo env w = some w1) : StatusLogOk w1 := by
  obtain ⟨hchain, hlast, hcur⟩ := hw
  have hactive : statusStep w.status.Status "active" := by
    rcases hcur with h0 | h0 | h0 <;> rw [h0]
    · exact Or.inr (Or.inl ⟨rfl, rfl⟩)
    · exact Or.inl rfl
    · exact Or.inr (Or.inr (Or.inr (Or.inr (Or.inr (Or.inr ⟨rfl, rfl⟩)))))
  unfold checkAddress at h
  split at h
  · exact absurd h (by simp)
  · rename_i endpoint pool1 h0
    have a1 := setStatus_ok { w with pool := pool1 }
      (w.status.Update "active" addrInfo.address addrInfo.walletType endpoint)
      hchain hlast hactive
    simp only at h
    split at h
    · exact absurd h (by simp)
    · rename_i err pool2 hf
      simp only [Option.some.injEq] at h
      subst h
      have hstep : statusStep "active"
          ((w.status.Update "active" addrInfo.address addrInfo.walletType
            endpoint).SetError ("Error: " ++ err) env.now).Status := by
        rcases setError_status (w.status.Update "active" addrInfo.address addrInfo.walletType
            endpoint) ("Error: " ++ err) env.now with he | he
        · rw [he]
          exact Or.inr (Or.inr (Or.inr (Or.inl ⟨rfl, rfl⟩)))
        · rw [he]
          exact Or.inl rfl
      have a2 := setStatus_ok
        { (({ w with pool := pool1 } : WorkerState).setStatus
          (w.status.Update "active" addrInfo.address addrInfo.walletType endpoint)) with
          pool := pool2 }
        ((w.status.Update "active" addrInfo.address addrInfo.walletType
          endpoint).SetError ("Error: " ++ err) env.now) a1.1 a1.2 hstep
      refine ⟨a2.1, a2.2, ?_⟩
      rcases setError_status (w.status.Update "active" addrInfo.address addrInfo.walletType
          endpoint) ("Error: " ++ err) env.now with he | he
      · exact Or.inr (Or.inr he)
      · exact Or.inr (Or.inl he)
    · rename_i data pool2 hf
      split at h
      · simp only [Option.some.injEq] at h
        subst h
        refine ⟨?_, List.getLast?_concat _, Or.inl rfl⟩
        have hlog :
            List.Chain' statusStep (((w.statusLog ++ ["active"]) ++ ["success"]) ++ ["idle"]) := by
          apply List.Chain'.append _ (List.chain'_singleton _)
          · intro x hx y hy
            simp only [List.getLast?_concat, Option.mem_def, Option.some.injEq,
              List.head?_cons] at hx hy
            subst hx
            subst hy
            exact Or.inr (Or.inr (Or.inr (Or.inr (Or.inr (Or.inl ⟨rfl, rfl⟩)))))
          · apply List.Chain'.append a1.1 (List.chain'_singleton _)
            intro x hx y hy
            simp only [WorkerState.setStatus, List.getLast?_concat, Option.mem_def,
              Option.some.injEq, List.head?_cons] at hx hy
            subst hx
            subst hy
            exact Or.inr (Or.inr (Or.inl ⟨rfl, rfl⟩))
        split <;> exact hlog
      · simp only [Option.some.injEq] at h
        subst h
        refine ⟨?_, List.getLast?_concat _, Or.inl rfl⟩
        apply List.Chain'.append a1.1 (List.chain'_singleton _)
        intro x hx y hy
        simp only [WorkerState.setStatus, List.getLast?_concat, Option.mem_def,
          Option.some.injEq, List.head?_cons] at hx hy
        subst hx
        subst hy
        exact Or.inr (Or.inr (Or.inr (Or.inr (Or.inl ⟨rfl, rfl⟩))))

theorem checkAddress_statusLog_grows {seedPhrase : String} {addrInfo : AddrInfo} {env : AddrEnv}
    {w w1 : WorkerState} (h : checkAddress seedPhrase addrInfo env w = some w1) :
    w.statusLog <+: w1.statusLog := by
  unfold checkAddress at h
  split at h
  · exact absurd h (by simp)
  · simp only at h
    split at h
    · exact absurd h (by simp)
    · simp only [Option.some.injEq] at h
      subst h
      exact ⟨_, (List.append_assoc _ _ _).symm⟩
    · split at h
      · simp only [Option.some.injEq] at h
        subst h
        have hlog : ∀ l : List String,
            l <+: ((l ++ ["active"]) ++ ["success"]) ++ ["idle"] := by
          intro l
          exact ⟨["active", "success", "idle"], by simp⟩
        split <;> exact hlog _
      · simp only [Option.some.injEq] at h
        subst h
        exact ⟨_, (List.append_assoc _ _ _).symm⟩

theorem checkAddresses_statusLog {seedPhrase : String} {env : Nat → AddrEnv} :
    ∀ (addresses : List AddrInfo) (k : Nat) (w w1 : WorkerState), StatusLogOk w →
      checkAddresses seedPhrase env addresses k w = some w1 →
      StatusLogOk w1 ∧ w.statusLog <+: w1.statusLog
  | [], _, w, w1, hw, h => by
    simp only [checkAddresses, Option.some.injEq] at h
    subst h
    exact ⟨hw, List.prefix_refl _⟩
  | addrInfo :: rest, k, w, w1, hw, h => by
    simp only [checkAddresses] at h
    split at h
    · exact absurd h (by simp)
    · rename_i w2 h2
      have ih := checkAddresses_statusLog rest (k + 1) w2 w1 (checkAddress_statusLog hw h2) h
      exact ⟨ih.1, (checkAddress_statusLog_grows h2).trans ih.2⟩

theorem scanWalletInstanceIteration_statusLog {seedPhrase : String}
    {bip32Addr bip44Addr bip49Addr bip84Addr : Option String} {env : Nat → AddrEnv}
    {w w1 : WorkerState} (hw : StatusLogOk w)
    (h : scanWalletInstanceIteration seedPhrase bip32Addr bip44Addr bip49Addr bip84Addr env w =
      some w1) :
    StatusLogOk w1 ∧ w.statusLog <+: w1.statusLog :=
  checkAddresses_statusLog _ 0 { w with stats := w.stats.IncrementWalletsChecked } w1 hw h

theorem scanWalletInstanceLoop_statusLog (doneClosed : Nat → Bool)
    (inputs : Nat → IterationInput) :
    ∀ (fuel passes : Nat) (w w1 : WorkerState), StatusLogOk w →
      (scanWalletInstanceLoop doneClosed inputs fuel passes w).worker? = some w1 →
      StatusLogOk w1 ∧ w.statusLog <+: w1.statusLog
  | 0, passes, w, w1, hw, h => by
    simp only [scanWalletInstanceLoop, LoopResult.worker?, Option.some.injEq] at h
    subst h
    exact ⟨hw, List.prefix_refl _⟩
  | fuel + 1, passes, w, w1, hw, h => by
    rw [scanWalletInstanceLoop] at h
    by_cases hd : doneClosed passes = true
    · rw [if_pos hd] at h
      simp only [LoopResult.worker?, Option.some.injEq] at h
      subst h
      exact ⟨hw, List.prefix_refl _⟩
    · rw [if_neg hd] at h
      split at h
      · simp [LoopResult.worker?] at h
      · rename_i w2 h2
        have h3 := scanWalletInstanceIteration_statusLog hw h2
        have ih := scanWalletInstanceLoop_statusLog doneClosed inputs fuel (passes + 1) w2 w1
          h3.1 h
        exact ⟨ih.1, h3.2.trans ih.2⟩

/-- C23 (as stated, refuted): in one pass over four addresses with empty
reports the status goes from `active` directly to `idle` after every address;
in one pass in which every fetch is answered with 404 the status goes from
`error` directly to `active` when the second address is started, and the
repeated error leaves it at `active`. -/
theorem status_active_to_idle_error_to_active :
    (scanWalletInstanceIteration "seed words" (some "a32") (some "a44") (some "a49")
      (some "a84") quietEnv freshWorker).map (fun w => w.statusLog) =
      some ["idle", "active", "idle", "active", "idle", "active", "idle", "active", "idle"] ∧
    (scanWalletInstanceIteration "seed words" (some "a32") (some "a44") (some "a49")
      (some "a84") notFoundEnv freshWorker).map (fun w => w.statusLog) =
      some ["idle", "active", "error", "active", "active", "active", "active", "active",
        "active"] := by
  decide

/-- C23 (amended): in the scanner loop of `scanWalletInstance`, started from a
worker whose history is a chain of `statusStep`s, every stored value of
`Status` follows the previous one by a `statusStep`: it is unchanged or one of
idle->active, active->success, active->error, active->idle, success->idle,
error->active. The history only grows, and between two address checks the
status is `idle`, `active` or `error`. -/
theorem status_history_follows_steps (doneClosed : Nat → Bool) (inputs : Nat → IterationInput)
    (fuel passes : Nat) (w w1 : WorkerState) (hw : StatusLogOk w)
    (h : (scanWalletInstanceLoop doneClosed inputs fuel passes w).worker? = some w1) :
    w1.statusLog.Chain' statusStep ∧
    w1.statusLog.getLast? = some w1.status.Status ∧
    (w1.status.Status = "idle" ∨ w1.status.Status = "active" ∨ w1.status.Status = "error") ∧
    w.statusLog <+: w1.statusLog :=
  have h1 := scanWalletInstanceLoop_statusLog doneClosed inputs fuel passes w w1 hw h
  ⟨h1.1.1, h1.1.2.1, h1.1.2.2, h1.2⟩

/-- Witness for C23: the worker that starts with the history `idle` and runs
three passes over empty reports before it sees the done signal. -/
theorem status_history_follows_steps_witness :
    threePassResult.statusLog.Chain' statusStep ∧
    threePassResult.statusLog.getLast? = some threePassResult.status.Status ∧
    (threePassResult.status.Status = "idle" ∨ threePassResult.status.Status = "active" ∨
      threePassResult.status.Status = "error") ∧
    freshWorker.statusLog <+: threePassResult.statusLog :=
  status_history_follows_steps doneAfterThree quietInputs 10 0 freshWorker threePassResult
    ⟨List.chain'_singleton _, rfl, Or.inl rfl⟩ rfl

/-! ## Done signal -/

theorem scanWalletInstanceLoop_returned (doneClosed : Nat → Bool)
    (inputs : Nat → IterationInput) :
    ∀ (fuel passes : Nat) (w : WorkerState) (n : Nat) (w1 : WorkerState),
      scanWalletInstanceLoop doneClosed inputs fuel passes w = .returned n w1 →
      passes ≤ n ∧ doneClosed n = true ∧ ∀ i, passes ≤ i → i < n → doneClosed i = false
  | 0, passes, w, n, w1, h => by
    simp [scanWalletInstanceLoop] at h
  | fuel + 1, passes, w, n, w1, h => by
    rw [scanWalletInstanceLoop] at h
    by_cases hd : doneClosed passes = true
    · rw [if_pos hd] at h
      simp only [LoopResult.returned.injEq] at h
      obtain ⟨hn, _⟩ := h
      subst hn
      exact ⟨le_refl _, hd, fun i h1 h2 => absurd h2 (by omega)⟩
    · rw [if_neg hd] at h
      split at h
      · exact absurd h (by simp)
      · rename_i w2 h2
        have ih := scanWalletInstanceLoop_returned doneClosed inputs fuel (passes + 1) w2 n w1 h
        refine ⟨by omega, ih.2.1, ?_⟩
        intro i h1 h3
        by_cases hi : i = passes
        · subst hi
          simpa using hd
        · exact ih.2.2 i (by omega) h3

/-- C25: the worker polls the done signal at the top of every round of its
loop. When the signal has been broadcast at the moment the worker reaches the
top of the loop, it returns with its state as it is: no further pass is
started, so the pool, the shared counters, the log rows and the status are
unchanged. Conversely a worker that returned after `n` passes saw the signal at
the top of round `n` and at the top of no earlier round. -/
theorem done_signal_polled_each_round (doneClosed : Nat → Bool) (inputs : Nat → IterationInput)
    (fuel passes : Nat) (w : WorkerState) :
    (doneClosed passes = true →
      scanWalletInstanceLoop doneClosed inputs (fuel + 1) passes w = .returned passes w) ∧
    (∀ n w1, scanWalletInstanceLoop doneClosed inputs fuel passes w = .returned n w1 →
      passes ≤ n ∧ doneClosed n = true ∧ ∀ i, passes ≤ i → i < n → doneClosed i = false) := by
  refine ⟨?_, scanWalletInstanceLoop_returned doneClosed inputs fuel passes w⟩
  intro hd
  rw [scanWalletInstanceLoop, if_pos hd]

/-- Witness for C25: with the signal broadcast during the third pass, a worker
at the top of round 3 returns unchanged, and the worker started on
`freshWorker` returns after exactly three passes. -/
theorem done_signal_polled_each_round_witness :
    scanWalletInstanceLoop doneAfterThree quietInputs 1 3 threePassResult =
      .returned 3 threePassResult ∧
    (0 ≤ 3 ∧ doneAfterThree 3 = true ∧ ∀ i, 0 ≤ i → i < 3 → doneAfterThree i = false) :=
  ⟨(done_signal_polled_each_round doneAfterThree quietInputs 0 3 threePassResult).1 rfl,
   (done_signal_polled_each_round doneAfterThree quietInputs 10 0 freshWorker).2 3
     threePassResult rfl⟩

/-! ## Single-instance and multi-instance pass -/

theorem getCurrentEndpoint_idem {s s1 : PoolState} {e : String}
    (h : getCurrentEndpoint s = some (e, s1)) : getCurrentEndpoint s1 = some (e, s1) := by
  unfold getCurrentEndpoint at h
  by_cases hc : s.currentEndpoint = "" ∧ s.mempoolEndpoints.length > 0
  · rw [if_pos hc] at h
    split at h
    · exact absurd h (by simp)
    · rename_i ep hep
      simp only [Option.some.injEq, Prod.mk.injEq] at h
      obtain ⟨h1, h2⟩ := h
      subst h1
      subst h2
      unfold getCurrentEndpoint
      by_cases he : ep = ""
      · simp only [he, true_and]
        rw [if_pos hc.2]
        simp only [he] at hep
        rw [hep]
      · simp only [he, false_and, if_false]
  · rw [if_neg hc] at h
    simp only [Option.some.injEq, Prod.mk.injEq] at h
    obtain ⟨h1, h2⟩ := h
    subst h2
    subst h1
    unfold getCurrentEndpoint
    rw [if_neg hc]

theorem fetchWalletData_after_getCurrentEndpoint (net : String → HttpResult WalletData)
    (address : String) {s s1 : PoolState} {e : String}
    (h : getCurrentEndpoint s = some (e, s1)) :
    fetchWalletData net address s1 = fetchWalletData net address s := by
  unfold fetchWalletData
  rw [h, getCurrentEndpoint_idem h]

theorem checkAddress_toSingle (seedPhrase : String) (addrInfo : AddrInfo) (env : AddrEnv)
    (w : WorkerState) :
    (checkAddress seedPhrase addrInfo env w).map WorkerState.toSingle =
      checkAddressSingle seedPhrase addrInfo env w.toSingle := by
  unfold checkAddress checkAddressSingle
  cases h0 : getCurrentEndpoint w.pool with
  | none =>
    have hf : fetchWalletData env.net addrInfo.address w.pool = none := by
      unfold fetchWalletData
      rw [h0]
    simp only [WorkerState.toSingle, hf, Option.map_none']
  | some r =>
    obtain ⟨endpoint, pool1⟩ := r
    have hf := fetchWalletData_after_getCurrentEndpoint env.net addrInfo.address h0
    simp only [WorkerState.toSingle, WorkerState.setStatus, hf]
    cases hd : fetchWalletData env.net addrInfo.address w.pool with
    | none => rfl
    | some r2 =>
      obtain ⟨res, pool2⟩ := r2
      cases res with
      | error err => rfl
      | ok data =>
        simp only
        split
        · cases env.appendOk <;> rfl
        · rfl

theorem checkAddresses_toSingle (seedPhrase : String) (env : Nat → AddrEnv) :
    ∀ (addresses : List AddrInfo) (k : Nat) (w : WorkerState),
      (checkAddresses seedPhrase env addresses k w).map WorkerState.toSingle =
        checkAddressesSingle seedPhrase env addresses k w.toSingle
  | [], _, w => rfl
  | addrInfo :: rest, k, w => by
    rw [checkAddresses, checkAddressesSingle, ← checkAddress_toSingle]
    cases h : checkAddress seedPhrase addrInfo (env k) w with
    | none => rfl
    | some w1 => exact checkAddresses_toSingle seedPhrase env rest (k + 1) w1

/-- C26: for the same mnemonic, the same four derivation results and the same
answers of the network, the file system and the clock, one pass of the loop of
`scanWalletInstance` and one pass of the loop of `scanRandomWallets` do the
same to what the two scanners have in common: seen through
`WorkerState.toSingle`, the pass of the worker ends in the state in which the
pass of the single-instance scanner ends (same pool, same wallets-checked and
active-wallets counters, same log rows in the same order), and one panics
exactly when the other does. -/
theorem single_and_multi_pass_agree (seedPhrase : String)
    (bip32Addr bip44Addr bip49Addr bip84Addr : Option String) (env : Nat → AddrEnv)
    (w : WorkerState) :
    (scanWalletInstanceIteration seedPhrase bip32Addr bip44Addr bip49Addr bip84Addr env
      w).map WorkerState.toSingle =
    scanRandomWalletsIteration seedPhrase bip32Addr bip44Addr bip49Addr bip84Addr env
      w.toSingle :=
  checkAddresses_toSingle seedPhrase env
    (collectAddresses bip32Addr bip44Addr bip49Addr bip84Addr) 0
    { w with stats := w.stats.IncrementWalletsChecked }

end BitcoinWalletTool
